import Mathlib

/-!
The repository narslan/pipeline: a shallow embedding and its verified properties.

The Go packages are embedded as pure Lean definitions.

* A Go `error` value is `Option GoError`; `none` is `nil`.
* A port (an interface whose implementation talks to the outside world) is a
  record of state-passing functions over a state type `σ`.
* A `uint32` identifier is a `Nat`; the code only compares identifiers, it
  never does arithmetic on them.
* A `float32` is its IEEE 754 binary32 bit pattern; the only float operation of
  the code is the comparison `<= 0.0`, which is decided on the bit pattern.
* A `[]byte`, and a Go string that carries the bytes of a line, is a `List Nat`;
  the code only compares and copies bytes.
* A channel is the list of the values sent on it over its life and whether it
  is closed after them; a stage is the function from what it receives to what
  it sends, for a context that is never cancelled and readers that receive
  everything sent. Where goroutines run concurrently, the order in which they
  get to act is a parameter (a schedule) or is fixed to the order of arrival,
  and the statement says which.
* The two bounded stages, `LoadFiles` and `Save`, are also embedded goroutine
  by goroutine: a state, and a step function over the moves of a schedule, the
  cancellation of the context being one of the moves.
* Library code the stages call (`bufio.Scanner` with `ScanLines`,
  `json.Unmarshal`, `errors.New`) is modelled from its documented behaviour or
  taken as a parameter.
-/

namespace Dataflow

/-! ## error.go -/

/-- Application error code `EINTERNAL`. -/
def EINTERNAL : String := "internal"

/-- Application error code `EINVALID`. -/
def EINVALID : String := "invalid"

/-- Application error code `ENOTFOUND`. -/
def ENOTFOUND : String := "not_found"

/-- The struct `Error`: an application error. -/
structure Error where
  Code : String
  Message : String
deriving DecidableEq, Repr

/-- A non-nil value of the Go interface `error`: an application error
(`*Error`), an error of another package that wraps nothing (`errors.New`, a
driver error), or an error that wraps another one (it has an `Unwrap`). -/
inductive GoError where
  | app (e : Error)
  | leaf (text : String)
  | wrap (text : String) (inner : GoError)
deriving DecidableEq, Repr

/-- The call `errors.As(err, &e)` with `e` of type `*Error`: the first
application error on the unwrap chain of `err`, if there is one. -/
def GoError.asError : GoError → Option Error
  | GoError.app e => some e
  | GoError.leaf _ => none
  | GoError.wrap _ inner => inner.asError

/-- The function `ErrorCode`: the code of an application error, `EINTERNAL`
for any other error, the empty string for `nil`. -/
def ErrorCode (err : Option GoError) : String :=
  match err with
  | none => ""
  | some g =>
    match g.asError with
    | some e => e.Code
    | none => EINTERNAL

/-- The function `ErrorMessage`: the message of an application error, a fixed
text for any other error, the empty string for `nil`. -/
def ErrorMessage (err : Option GoError) : String :=
  match err with
  | none => ""
  | some g =>
    match g.asError with
    | some e => e.Message
    | none => "Internal error."

/-- The function `Errorf`, called with a format and no operands. The message
is `fmt.Sprintf(format)`, which returns a format without a percent sign
unchanged; every call of this form in the source has such a format. -/
def Errorf (code : String) (format : String) : Error :=
  { Code := code, Message := format }

/-! ## product.go -/

/-- A `float32`, as its IEEE 754 binary32 bit pattern read modulo `2^32`:
bit 31 is the sign, bits 30..23 the exponent field, bits 22..0 the fraction. -/
structure Float32 where
  bits : Nat
deriving DecidableEq, Repr

/-- The sign bit. -/
def Float32.sign (x : Float32) : Nat := x.bits % 2 ^ 32 / 2 ^ 31

/-- The exponent field. -/
def Float32.expField (x : Float32) : Nat := x.bits / 2 ^ 23 % 256

/-- The fraction field. -/
def Float32.frac (x : Float32) : Nat := x.bits % 2 ^ 23

/-- Not-a-number: exponent field all ones and a non-zero fraction. -/
def Float32.isNaN (x : Float32) : Bool := x.expField == 255 && x.frac != 0

/-- Positive or negative zero. -/
def Float32.isZero (x : Float32) : Bool := x.expField == 0 && x.frac == 0

/-- The Go comparison `x <= 0.0`. A comparison with a NaN operand is false;
otherwise `x <= 0` holds for the two zeros and for every value with the sign
bit set. -/
def Float32.leZero (x : Float32) : Bool :=
  !x.isNaN && (x.isZero || x.sign == 1)

/-- The Go comparison `x > 0.0`. A comparison with a NaN operand is false;
otherwise `x > 0` holds for every non-zero value with the sign bit clear. -/
def Float32.gtZero (x : Float32) : Bool :=
  !x.isNaN && !x.isZero && x.sign == 0

/-- The struct `Product`: a product in the database. -/
structure Product where
  ID : Nat
  Title : String
  Price : Float32
  Category : String
  Brand : String
  URL : String
  Description : String
deriving DecidableEq, Repr

/-- The method `Product.Validate`: `none` for a product that passes, else the
error of the first check that fails. -/
def Product.Validate (p : Product) : Option GoError :=
  if p.ID == 0 then
    some (GoError.app (Errorf EINVALID "ID must be greater than 0."))
  else if p.Title == "" then
    some (GoError.app (Errorf EINVALID "Title must not be empty."))
  else if p.Price.leZero then
    some (GoError.app (Errorf EINVALID "Price must be greater than zero."))
  else if p.Category == "" then
    some (GoError.app (Errorf EINVALID "Category must not be empty."))
  else if p.Brand == "" then
    some (GoError.app (Errorf EINVALID "Brand must not be empty."))
  else
    none

/-- The interface `ProductService`, over the state `σ` of the outside world.
Only the method the pipeline calls is embedded. -/
structure ProductService (σ : Type) where
  CreateProduct : Product → σ → Option GoError × σ

/-! ## cache.go -/

/-- The interface `Cache`, over the state `σ` of the outside world. `Exists`
returns the Go pair `(bool, error)`. -/
structure Cache (σ : Type) where
  Set : Nat → σ → Option GoError × σ
  Exists : Nat → σ → (Bool × Option GoError) × σ

/-! ## cassandra/product.go -/

/-- The database session a `cassandra.ProductService` holds, as far as the
service uses it to write: `Exec` runs the insert statement of `CreateProduct`
with the seven fields of the product as its values. -/
structure Session (σ : Type) where
  Exec : Product → σ → Option GoError × σ

/-- The method `CreateProduct` of `cassandra.ProductService`: validate, and
only when validation passes run the insert. -/
def cassandra.ProductService.CreateProduct {σ : Type} (db : Session σ) (p : Product)
    (s : σ) : Option GoError × σ :=
  match p.Validate with
  | some err => (some err, s)
  | none => db.Exec p s

/-- The constructor `cassandra.NewProductService`. -/
def cassandra.NewProductService {σ : Type} (db : Session σ) : ProductService σ :=
  { CreateProduct := cassandra.ProductService.CreateProduct db }

/-! ## pipeline/pipeline.go -/

/-- The struct `Pipeline`, with the two services `SendToDB` uses. -/
structure Pipeline (σ : Type) where
  NumThreads : Nat
  ProductService : ProductService σ
  CacheService : Cache σ

/-- The method `Pipeline.SendToDB`: look the identifier up in the cache; on a
cache error return it; on a hit return `nil`; otherwise create the product,
return the error of that, and after a successful create return what `Set`
returns. -/
def Pipeline.SendToDB {σ : Type} (p : Pipeline σ) (pr : Product) (s : σ) :
    Option GoError × σ :=
  match p.CacheService.Exists pr.ID s with
  | ((_, some err), s1) => (some err, s1)
  | ((true, none), s1) => (none, s1)
  | ((false, none), s1) =>
    match p.ProductService.CreateProduct pr s1 with
    | (some err, s2) => (some err, s2)
    | (none, s2) => p.CacheService.Set pr.ID s2

/-- The calls of `SendToDB` for the records of a list, one after the other, in
the order of the list: the returned errors (one per record, `none` for `nil`)
and the state left by the last call. -/
def Pipeline.SendAll {σ : Type} (p : Pipeline σ) : List Product → σ → List (Option GoError) × σ
  | [], s => ([], s)
  | pr :: rest, s =>
    let r := p.SendToDB pr s
    let rs := Pipeline.SendAll p rest r.2
    (r.1 :: rs.1, rs.2)

/-! ## Recording the calls made on the ports -/

/-- One call on a port, with what it returned. -/
inductive Event where
  | cacheExists (id : Nat) (ok : Bool) (err : Option GoError)
  | cacheSet (id : Nat) (err : Option GoError)
  | create (p : Product) (err : Option GoError)
  | insert (p : Product) (err : Option GoError)
deriving DecidableEq, Repr

/-- A state of the outside world together with the calls made so far, oldest
first. -/
structure Traced (σ : Type) where
  st : σ
  log : List Event
deriving DecidableEq, Repr

/-- Append an event to the log. -/
def Traced.record {σ : Type} (e : Event) (w : Traced σ) : Traced σ :=
  { w with log := w.log ++ [e] }

/-- A cache that acts on the state and leaves the log alone. -/
def Cache.lift {σ : Type} (c : Cache σ) : Cache (Traced σ) where
  Set id w := ((c.Set id w.st).1, { w with st := (c.Set id w.st).2 })
  Exists id w := ((c.Exists id w.st).1, { w with st := (c.Exists id w.st).2 })

/-- A product service that acts on the state and leaves the log alone. -/
def ProductService.lift {σ : Type} (ps : ProductService σ) : ProductService (Traced σ) where
  CreateProduct p w := ((ps.CreateProduct p w.st).1, { w with st := (ps.CreateProduct p w.st).2 })

/-- A session that acts on the state and leaves the log alone. -/
def Session.lift {σ : Type} (db : Session σ) : Session (Traced σ) where
  Exec p w := ((db.Exec p w.st).1, { w with st := (db.Exec p w.st).2 })

/-- A cache that records every call made on it, when the call returns. -/
def Cache.spy {σ : Type} (c : Cache (Traced σ)) : Cache (Traced σ) where
  Set id w := ((c.Set id w).1, ((c.Set id w).2).record (Event.cacheSet id (c.Set id w).1))
  Exists id w :=
    ((c.Exists id w).1,
      ((c.Exists id w).2).record (Event.cacheExists id (c.Exists id w).1.1 (c.Exists id w).1.2))

/-- A product service that records every call of `CreateProduct`, when the call
returns. -/
def ProductService.spy {σ : Type} (ps : ProductService (Traced σ)) :
    ProductService (Traced σ) where
  CreateProduct p w :=
    ((ps.CreateProduct p w).1,
      ((ps.CreateProduct p w).2).record (Event.create p (ps.CreateProduct p w).1))

/-- A session that records every insert run on it, when the insert returns. -/
def Session.spy {σ : Type} (db : Session (Traced σ)) : Session (Traced σ) where
  Exec p w := ((db.Exec p w).1, ((db.Exec p w).2).record (Event.insert p (db.Exec p w).1))

/-- The pipeline with the same services, acting on the state only. -/
def Pipeline.lift {σ : Type} (p : Pipeline σ) : Pipeline (Traced σ) where
  NumThreads := p.NumThreads
  ProductService := p.ProductService.lift
  CacheService := p.CacheService.lift

/-- The pipeline whose two services record the calls made on them. -/
def Pipeline.spy {σ : Type} (p : Pipeline (Traced σ)) : Pipeline (Traced σ) where
  NumThreads := p.NumThreads
  ProductService := p.ProductService.spy
  CacheService := p.CacheService.spy

/-! ## An in-memory cache and store -/

/-- The outside world of the in-memory model: the identifiers the cache holds,
the rows of the products table, and the number of calls that reached the
cache or the database so far. -/
structure Env where
  cache : List Nat
  rows : List Product
  tick : Nat
deriving DecidableEq, Repr

/-- Count one more call. -/
def Env.step (env : Env) : Env := { env with tick := env.tick + 1 }

/-- The in-memory cache. The fault plan `F` decides for each call, by its
number, whether it fails and with which error. A call that fails changes
nothing; a `Set` that succeeds adds the identifier; an `Exists` that succeeds
reports whether the identifier is held. Nothing ever removes an identifier. -/
def ModelCache (F : Nat → Option GoError) : Cache Env where
  Set id env :=
    match F env.tick with
    | some e => (some e, env.step)
    | none => (none, { env.step with cache := id :: env.cache })
  Exists id env :=
    match F env.tick with
    | some e => ((false, some e), env.step)
    | none => ((decide (id ∈ env.cache), none), env.step)

/-- The table after a successful insert of `p`: the row is written, and it
replaces a row with the same identifier. -/
def upsert (p : Product) (rows : List Product) : List Product :=
  p :: rows.filter (fun q => q.ID != p.ID)

/-- The in-memory database session. An insert that fails changes nothing; an
insert that succeeds writes the row, replacing a row with the same
identifier. -/
def ModelSession (F : Nat → Option GoError) : Session Env where
  Exec p env :=
    match F env.tick with
    | some e => (some e, env.step)
    | none => (none, { env.step with rows := upsert p env.rows })

/-- The pipeline over the in-memory world: the cache is `ModelCache`, the
product service is the `cassandra.ProductService` over `ModelSession`, and
every call on the cache, on the product service and on the session is
recorded. -/
def ModelPipeline (F : Nat → Option GoError) : Pipeline (Traced Env) where
  NumThreads := 1
  ProductService := (cassandra.NewProductService ((ModelSession F).lift).spy).spy
  CacheService := ((ModelCache F).lift).spy

/-- The plan in which no call fails. -/
def noFault : Nat → Option GoError := fun _ => none

/-- The fresh world: empty cache, empty table, nothing recorded. -/
def Traced.fresh : Traced Env := { st := { cache := [], rows := [], tick := 0 }, log := [] }

/-- The product of the test `TestProductService_CreateProduct/OK`; the price
`42.01` is the float32 with bit pattern `0x42280A3D`. -/
def product1 : Product :=
  { ID := 1, Title := "title1", Price := { bits := 0x42280A3D }, Category := "bilgisayar",
    Brand := "brand1", URL := "https://url1.com", Description := "a description" }

/-- Forget the calls recorded so far: the start of a new observation. -/
def Traced.clear {σ : Type} (w : Traced σ) : Traced σ := { w with log := [] }

/-- The two services of the in-memory world without any recording. -/
def ModelServices (F : Nat → Option GoError) : Pipeline Env where
  NumThreads := 1
  ProductService := cassandra.NewProductService (ModelSession F)
  CacheService := ModelCache F

/-- A recorded call of `CreateProduct`. -/
def Event.isCreate : Event → Bool
  | Event.create _ _ => true
  | _ => false

/-- A recorded call of `Set`. -/
def Event.isCacheSet : Event → Bool
  | Event.cacheSet _ _ => true
  | _ => false

/-- A recorded call of `Exists`. -/
def Event.isCacheExists : Event → Bool
  | Event.cacheExists _ _ _ => true
  | _ => false

/-- A recorded run of the insert statement. -/
def Event.isInsert : Event → Bool
  | Event.insert _ _ => true
  | _ => false

/-- The number of calls of `CreateProduct` in a log. -/
def createCalls (log : List Event) : Nat := log.countP Event.isCreate

/-- The number of calls of `Set` in a log. -/
def setCalls (log : List Event) : Nat := log.countP Event.isCacheSet

/-- The number of calls of `Exists` in a log. -/
def existsCalls (log : List Event) : Nat := log.countP Event.isCacheExists

/-- The number of runs of the insert statement in a log. -/
def insertCalls (log : List Event) : Nat := log.countP Event.isInsert

/-! ## Definitions the statements use -/

/-- In the in-memory world, every identifier for which a successful `Set` is
recorded is in the cache. -/
def setsAreCached (w : Traced Env) : Prop :=
  ∀ id, Event.cacheSet id none ∈ w.log → id ∈ w.st.cache

/-- The plan in which only the call with number `n` fails, with the error `e`. -/
def faultAt (n : Nat) (e : GoError) : Nat → Option GoError :=
  fun k => if k = n then some e else none

/-- A recorded call of `CreateProduct` for a product with the identifier `id`. -/
def Event.isCreateFor (id : Nat) : Event → Bool
  | Event.create p _ => p.ID == id
  | _ => false

/-- The number of calls of `CreateProduct` for the identifier `id` in a log. -/
def createCallsFor (id : Nat) (log : List Event) : Nat := log.countP (Event.isCreateFor id)

/-- The identifier `id` is in the cache and no `CreateProduct` for it is
recorded. -/
def cachedAndNotCreated (id : Nat) (w : Traced Env) : Prop :=
  id ∈ w.st.cache ∧ createCallsFor id w.log = 0

/-- The second product of the test `TestProductService_CreateProduct/OK`; the
price `42.0` is the float32 with bit pattern `0x42280000`. -/
def product2 : Product :=
  { ID := 2, Title := "title2", Price := { bits := 0x42280000 }, Category := "bilgisayar",
    Brand := "brand2", URL := "", Description := "" }

/-- A record like those of the test files: identifier `id`, title `title<id>`. -/
def testRecord (id : Nat) : Product :=
  { ID := id, Title := "title" ++ toString id, Price := { bits := 0x42280A3D },
    Category := "bilgisayar", Brand := "brand", URL := "", Description := "" }

/-- The first `n` records of the test files; the first identifier is 151000. -/
def testRecords (n : Nat) : List Product :=
  (List.range n).map (fun i => testRecord (151000 + i))

/-- The record of the test `ErrIDRequired`: the zero value of `Product`. -/
def zeroProduct : Product :=
  { ID := 0, Title := "", Price := { bits := 0 }, Category := "", Brand := "", URL := "",
    Description := "" }

/-- The error `Validate` returns for an identifier of 0. -/
def errIDRequired : GoError := GoError.app (Errorf EINVALID "ID must be greater than 0.")

/-- The required-field constraints of a record, in the words of the
specification: identifier above 0, title not empty, price above 0, category not
empty, brand not empty. -/
def satisfiesConstraints (p : Product) : Prop :=
  0 < p.ID ∧ p.Title ≠ "" ∧ p.Price.gtZero = true ∧ p.Category ≠ "" ∧ p.Brand ≠ ""

instance satisfiesConstraints.decidable (p : Product) : Decidable (satisfiesConstraints p) := by
  unfold satisfiesConstraints
  infer_instance

/-- The message of the first constraint a record violates, in the order
identifier, title, price, category, brand, in the words of the specification;
`none` when the record violates none. -/
def firstViolation (p : Product) : Option String :=
  if ¬ 0 < p.ID then some "ID must be greater than 0."
  else if p.Title = "" then some "Title must not be empty."
  else if ¬ p.Price.gtZero = true then some "Price must be greater than zero."
  else if p.Category = "" then some "Category must not be empty."
  else if p.Brand = "" then some "Brand must not be empty."
  else none

/-- A quiet NaN. -/
def Float32.nan : Float32 := { bits := 0x7FC00000 }

/-- A record that is valid but for its price, which is NaN. -/
def nanPriced : Product := { product1 with Price := Float32.nan }

/-- A record whose price is NaN and whose category is empty. -/
def nanPricedNoCategory : Product := { product1 with Price := Float32.nan, Category := "" }

/-- A call of `SendToDB` in progress, as the goroutine `Save` starts for a
record runs it: where the call stands between two calls on the ports. -/
inductive Worker where
  | start (pr : Product)
  | looked (pr : Product)
  | created (pr : Product)
  | done (err : Option GoError)
deriving DecidableEq, Repr

/-- One step of a call of `SendToDB` in progress: the next call on a port and
the branch taken on its result. From `start` the call of `Exists`; from
`looked` (the lookup returned `(false, nil)`) the call of `CreateProduct`; from
`created` (the create returned `nil`) the call of `Set`; `done err` has
returned `err` and stays. -/
def Pipeline.stepWorker {σ : Type} (p : Pipeline σ) : Worker → σ → Worker × σ
  | Worker.start pr, s =>
    match p.CacheService.Exists pr.ID s with
    | ((_, some err), s1) => (Worker.done (some err), s1)
    | ((true, none), s1) => (Worker.done none, s1)
    | ((false, none), s1) => (Worker.looked pr, s1)
  | Worker.looked pr, s =>
    match p.ProductService.CreateProduct pr s with
    | (some err, s2) => (Worker.done (some err), s2)
    | (none, s2) => (Worker.created pr, s2)
  | Worker.created pr, s =>
    match p.CacheService.Set pr.ID s with
    | (err, s3) => (Worker.done err, s3)
  | Worker.done err, s => (Worker.done err, s)

/-- The goroutines of `Save` under a schedule: each entry of the schedule names
the worker that makes the next step. A port call is one step; the steps of
different workers interleave as the schedule says. -/
def Pipeline.runWorkers {σ : Type} (p : Pipeline σ) : List Nat → List Worker → σ → List Worker × σ
  | [], ws, s => (ws, s)
  | i :: sch, ws, s =>
    match ws[i]? with
    | none => Pipeline.runWorkers p sch ws s
    | some wk =>
      Pipeline.runWorkers p sch (ws.set i (p.stepWorker wk s).1) (p.stepWorker wk s).2

/-- How many port calls a worker has behind it (3 for one that returned). -/
def Worker.phase : Worker → Nat
  | Worker.start _ => 0
  | Worker.looked _ => 1
  | Worker.created _ => 2
  | Worker.done _ => 3

/-- What relates a pool of workers to the records `rs` they were started for,
in the in-memory world where no call fails: worker `i` runs record `i` and has
not failed, every cached identifier belongs to a worker that has returned, and
the calls recorded are those the workers have behind them. -/
structure PoolInv (rs : List Product) (ws : List Worker) (w : Traced Env) : Prop where
  len : ws.length = rs.length
  own : ∀ (i : Nat) (pr : Product), rs[i]? = some pr →
    ws[i]? = some (Worker.start pr) ∨ ws[i]? = some (Worker.looked pr) ∨
      ws[i]? = some (Worker.created pr) ∨ ws[i]? = some (Worker.done none)
  cached : ∀ id ∈ w.st.cache, ∃ (j : Nat) (pr : Product), rs[j]? = some pr ∧ pr.ID = id ∧
    ws[j]? = some (Worker.done none)
  nExists : existsCalls w.log = ws.countP (fun wk => decide (1 ≤ wk.phase))
  nCreate : createCalls w.log = ws.countP (fun wk => decide (2 ≤ wk.phase))
  nInsert : insertCalls w.log = ws.countP (fun wk => decide (2 ≤ wk.phase))
  nSet : setCalls w.log = ws.countP (fun wk => decide (3 ≤ wk.phase))

/-- The schedule that lets each of `n` workers make one step, three times over:
all lookups, then all creates, then all sets. -/
def roundRobin (n : Nat) : List Nat := List.range n ++ List.range n ++ List.range n

/-- The rational value of a finite float32; `none` for the infinities and the
NaNs (exponent field 255). -/
def Float32.value? (x : Float32) : Option ℚ :=
  if x.expField = 255 then none
  else
    some ((if x.sign = 1 then -1 else 1) *
      (if x.expField = 0 then (x.frac : ℚ) * 2 ^ (-149 : ℤ)
       else ((2 ^ 23 + x.frac : ℕ) : ℚ) * 2 ^ ((x.expField : ℤ) - 150)))

/-- Positive infinity. -/
def Float32.posInf : Float32 := { bits := 0x7F800000 }

/-- Negative infinity. -/
def Float32.negInf : Float32 := { bits := 0xFF800000 }

/-! ## Channels and the fetch stage -/

/-- The method `Error` of an error value: its text. For an application error
it is the text `Error.Error` builds. -/
def GoError.Error : GoError → String
  | GoError.app e => "dataflow error: code=" ++ e.Code ++ " message=" ++ e.Message
  | GoError.leaf text => text
  | GoError.wrap text _ => text

/-- The function `errors.New`: an error that is no application error and wraps
nothing. -/
def errors.New (text : String) : GoError := GoError.leaf text

/-- A channel, seen from a reader that receives every value sent on it: the
values sent over its life, in order, and whether it is closed after them. -/
structure Chan (α : Type) where
  sent : List α
  closed : Bool
deriving DecidableEq, Repr

/-- The interface `Fetch`, over the state `σ` of the outside world. `Get`
returns the Go pair `([]byte, error)`; a byte is a `Nat`. -/
structure Fetch (σ : Type) where
  Get : String → σ → (List Nat × Option GoError) × σ

/-- A fetcher that records the key of every call of `Get`. -/
def Fetch.spy {σ : Type} (f : Fetch σ) : Fetch (σ × List String) where
  Get key w := ((f.Get key w.1).1, ((f.Get key w.1).2, w.2 ++ [key]))

/-- The goroutines `LoadFiles` starts, one per key: call `Get`; when it returns
an error send the error on the error channel; then send the data on the output
channel. The result lists what is sent on the two channels. The goroutines are
taken in the order of the keys, which is the order they run in when the
semaphore has one permit; with more permits the same values are sent, possibly
in another order. -/
def Pipeline.LoadFiles.fetch {σ : Type} (Fetcher : Fetch σ) :
    List String → σ → (List (List Nat) × List (Option GoError)) × σ
  | [], s => (([], []), s)
  | path :: rest, s =>
    match Fetcher.Get path s with
    | ((data, some err), s1) =>
      ((data :: (Pipeline.LoadFiles.fetch Fetcher rest s1).1.1,
        some err :: (Pipeline.LoadFiles.fetch Fetcher rest s1).1.2),
       (Pipeline.LoadFiles.fetch Fetcher rest s1).2)
    | ((data, none), s1) =>
      ((data :: (Pipeline.LoadFiles.fetch Fetcher rest s1).1.1,
        (Pipeline.LoadFiles.fetch Fetcher rest s1).1.2),
       (Pipeline.LoadFiles.fetch Fetcher rest s1).2)

/-- The method `Pipeline.LoadFiles`, for a context that is never cancelled and
readers that receive everything sent on the two channels. The two fields of
the pipeline it reads, `Fetcher` and `NumThreads`, are its first arguments. It
returns the Go triple: the output channel, the error channel (`none` is the nil
channel) and the error. Without keys it returns the error at once. With a
semaphore without a permit the first `Acquire` never returns, so nothing is
sent and the output channel is never closed. Otherwise the output channel is
closed when every goroutine is done; the error channel is never closed. -/
def Pipeline.LoadFiles {σ : Type} (Fetcher : Fetch σ) (NumThreads : Nat) (keys : List String)
    (s : σ) :
    (Option (Chan (List Nat)) × Option (Chan (Option GoError)) × Option GoError) × σ :=
  if keys.length == 0 then
    ((none, none, some (errors.New "no sources provided")), s)
  else if NumThreads == 0 then
    ((some ⟨[], false⟩, some ⟨[], false⟩, none), s)
  else
    ((some ⟨(Pipeline.LoadFiles.fetch Fetcher keys s).1.1, true⟩,
      some ⟨(Pipeline.LoadFiles.fetch Fetcher keys s).1.2, false⟩, none),
     (Pipeline.LoadFiles.fetch Fetcher keys s).2)

/-- The payloads of the calls of `Get` that return no error, in the words of
the specification: one payload per source that did not fail. -/
def successfulPayloads {σ : Type} (Fetcher : Fetch σ) : List String → σ → List (List Nat)
  | [], _ => []
  | path :: rest, s =>
    match (Fetcher.Get path s).1.2 with
    | some _ => successfulPayloads Fetcher rest (Fetcher.Get path s).2
    | none => (Fetcher.Get path s).1.1 :: successfulPayloads Fetcher rest (Fetcher.Get path s).2

/-- A fetcher like the file reader of the tests, over a fixed set of files: the
content of the file for a path it has, `nil` and an error for any other. -/
def filesFetch {σ : Type} (files : List (String × List Nat)) : Fetch σ where
  Get path s :=
    match files.lookup path with
    | some data => ((data, none), s)
    | none => (([], some (errors.New ("open " ++ path ++ ": no such file or directory"))), s)

/-- The bytes of a text of ASCII characters. -/
def bytesOf (text : String) : List Nat := text.toList.map Char.toNat

/-! ## The split stage -/

/-- The constant `bufio.MaxScanTokenSize`: the size the buffer of a `Scanner`
grows to at most. -/
def MaxScanTokenSize : Nat := 64 * 1024

/-- The function `bytes.IndexByte`: the index of the first `c` in `data`. -/
def IndexByte : List Nat → Nat → Option Nat
  | [], _ => none
  | b :: rest, c => if b = c then some 0 else (IndexByte rest c).map (· + 1)

/-- The function `dropCR` of `bufio`: drop one final carriage return. -/
def dropCR (data : List Nat) : List Nat :=
  if data.getLast? = some 13 then data.dropLast else data

/-- One call of `Scan` on a `bufio.Scanner` with the default split function
`ScanLines`, reading from a `bytes.Reader` that has `remaining` left: the token
and what is left after it, or `none` when `Scan` returns false. With the first
newline at index `i` the token is `dropCR` of the `i` bytes before it, if the
newline fits into the buffer with them (`i < MaxScanTokenSize`). Without a
newline the rest of the input is the last token, if the end of the input is
reached before the buffer is full. In the two other cases the scanner stops
with `ErrTooLong`; at the end of the input it stops without an error. -/
def Scanner.Scan (remaining : List Nat) : Option (List Nat × List Nat) :=
  match remaining with
  | [] => none
  | _ :: _ =>
    match IndexByte remaining 10 with
    | some i =>
      if i < MaxScanTokenSize then some (dropCR (remaining.take i), remaining.drop (i + 1))
      else none
    | none =>
      if remaining.length < MaxScanTokenSize then some (dropCR remaining, []) else none

/-- The loop `for scanner.Scan() { ... scanner.Text() ... }`, at most `fuel`
times round: the tokens in the order they are scanned. -/
def Scanner.tokens : Nat → List Nat → List (List Nat)
  | 0, _ => []
  | fuel + 1, remaining =>
    match Scanner.Scan remaining with
    | none => []
    | some (token, rest) => token :: Scanner.tokens fuel rest

/-- The lines scanned from one payload. Every successful `Scan` consumes a byte
at least, so the loop makes at most one round per byte. -/
def Scanner.lines (data : List Nat) : List (List Nat) :=
  Scanner.tokens (data.length + 1) data

/-- The method `Pipeline.Split`, for readers that receive everything sent: for
each payload of the input channel, in order, the lines scanned from it are sent
on the output channel, a line being the bytes of the Go string. The output
channel is closed once the input channel is; nothing is ever sent on the error
channel and it is never closed. -/
def Pipeline.Split (input : Chan (List Nat)) : Chan (List Nat) × Chan (Option GoError) :=
  (⟨input.sent.flatMap Scanner.lines, input.closed⟩, ⟨[], false⟩)

/-- The newline-delimited segments of a blob, in the words of the
specification: the blob cut at every newline, the newlines left out; what
follows the last newline is a segment unless it is empty. -/
def segments (blob : List Nat) : List (List Nat) :=
  if (blob.splitOn 10).getLast? = some [] then (blob.splitOn 10).dropLast
  else blob.splitOn 10

/-- A blob made of newline-terminated lines. -/
def joinLines (lines : List (List Nat)) : List Nat :=
  (lines.map (fun l => l ++ [10])).flatten

/-- A line of `MaxScanTokenSize` bytes, each the letter a. -/
def longLine : List Nat := List.replicate MaxScanTokenSize 97

/-! ## The decode stage, the persist stage and the run -/

/-- The loop of `ConvertJSON` over the lines received: decode a line into a
fresh `Product`; when that returns an error send the error on the error
channel; then send the product on the output channel. The result lists what
is sent on the two channels. `Unmarshal line` stands for
`json.Unmarshal([]byte(line), &p)` with `p` the zero product: the value of `p`
after the call, and the error returned. -/
def Pipeline.ConvertJSON.decode (Unmarshal : List Nat → Product × Option GoError) :
    List (List Nat) → List Product × List (Option GoError)
  | [] => ([], [])
  | job :: rest =>
    match Unmarshal job with
    | (p, some err) =>
      (p :: (Pipeline.ConvertJSON.decode Unmarshal rest).1,
        some err :: (Pipeline.ConvertJSON.decode Unmarshal rest).2)
    | (p, none) =>
      (p :: (Pipeline.ConvertJSON.decode Unmarshal rest).1,
        (Pipeline.ConvertJSON.decode Unmarshal rest).2)

/-- The method `Pipeline.ConvertJSON`, for readers that receive everything
sent on the two channels. The output channel is closed once the input channel
is; the error channel is never closed. -/
def Pipeline.ConvertJSON (Unmarshal : List Nat → Product × Option GoError)
    (input : Chan (List Nat)) : Chan Product × Chan (Option GoError) :=
  (⟨(Pipeline.ConvertJSON.decode Unmarshal input.sent).1, input.closed⟩,
   ⟨(Pipeline.ConvertJSON.decode Unmarshal input.sent).2, false⟩)

/-- The method `Pipeline.Save`, for a context that is never cancelled and a
reader that receives everything sent on the error channel: the channel of the
values `SendToDB` returns, one per product received, and the error `Save`
returns, which is always `nil`. The calls of `SendToDB` are taken in the order
the products arrive, which is the order they run in when the semaphore has one
permit. With a semaphore without a permit the first `Acquire` never returns.
The channel is closed once the input channel is closed and every call is
done. -/
def Pipeline.Save {σ : Type} (p : Pipeline σ) (products : Chan Product) (s : σ) :
    (Chan (Option GoError) × Option GoError) × σ :=
  if p.NumThreads == 0 && !products.sent.isEmpty then
    ((⟨[], false⟩, none), s)
  else
    ((⟨(p.SendAll products.sent s).1, products.closed⟩, none), (p.SendAll products.sent s).2)

/-- The channel `merge` returns, for readers that receive everything sent on
it. One goroutine per input channel forwards the values of its channel in
order; `ord` names, step by step, the input channel whose goroutine sends next
(a step that names a channel with nothing left to forward is skipped). Every
goroutine closes the merged channel when its input channel is closed and
forwarded to the end; here that happens, if it can, when `ord` is used up. -/
def merge : List Nat → List (Chan (Option GoError)) → Chan (Option GoError)
  | [], cs => ⟨[], cs.any (fun c => c.closed && c.sent.isEmpty)⟩
  | i :: ord, cs =>
    match cs[i]? with
    | some ⟨v :: rest, cl⟩ =>
      ⟨v :: (merge ord (cs.set i ⟨rest, cl⟩)).sent, (merge ord (cs.set i ⟨rest, cl⟩)).closed⟩
    | _ => merge ord cs

/-- What one round of the `select` in the loop of `wait` meets: a value
received from the merged channel, the merged channel closed, or the context
done (with the error `ctx.Err()`). -/
inductive Select where
  | recv (err : Option GoError)
  | closed
  | done (err : GoError)
deriving DecidableEq, Repr

/-- The loop of `wait` over what its rounds meet: the value `wait` returns, or
`none` when the loop is still waiting after the last of them. A closed channel
ends it with `nil`, a non-nil error received ends it with that error, a `nil`
received starts the next round, a done context ends it with `ctx.Err()`. -/
def wait.loop : List Select → Option (Option GoError)
  | [] => none
  | Select.recv none :: rest => wait.loop rest
  | Select.recv (some err) :: _ => some (some err)
  | Select.closed :: _ => some none
  | Select.done err :: _ => some (some err)

/-- What a reader of a channel meets when the context is never done: the
values sent, then the close if the channel is closed. -/
def Chan.selects (c : Chan (Option GoError)) : List Select :=
  c.sent.map Select.recv ++ (if c.closed then [Select.closed] else [])

/-- The function `wait`, for a context that is never done: merge the error
channels and loop over the merged channel. -/
def wait (ord : List Nat) (errcList : List (Chan (Option GoError))) : Option (Option GoError) :=
  wait.loop (merge ord errcList).selects

/-- The method `Pipeline.Run`, for a context that is never cancelled: the error
it returns, or `none` when it has not returned after the steps of `ord`. The
fetcher of the pipeline and the JSON decoder are its first arguments. -/
def Pipeline.Run {σ : Type} (Fetcher : Fetch σ)
    (Unmarshal : List Nat → Product × Option GoError) (p : Pipeline σ) (ord : List Nat)
    (paths : List String) (s : σ) : Option (Option GoError) :=
  match Pipeline.LoadFiles Fetcher p.NumThreads paths s with
  | ((_, _, some err), _) => some (some err)
  | ((some fileCh, some errc1, none), s1) =>
    match p.Save (Pipeline.ConvertJSON Unmarshal (Pipeline.Split fileCh).1).1 s1 with
    | ((_, some err), _) => some (some err)
    | ((errc4, none), _) =>
      wait ord [errc1, (Pipeline.Split fileCh).2,
        (Pipeline.ConvertJSON Unmarshal (Pipeline.Split fileCh).1).2, errc4]
  | _ => none

/-- The first non-nil error of a sequence of error values, in the words of
the specification. -/
def firstError (vs : List (Option GoError)) : Option GoError :=
  (vs.filterMap id).head?

/-- A line of the record format: the first test product. -/
def sampleLine : List Nat :=
  bytesOf ("\x7b\"id\":1,\"title\":\"title1\",\"price\":42.01,\"category\":\"bilgisayar\"," ++
    "\"brand\":\"brand1\",\"url\":\"https://url1.com\",\"description\":\"a description\"\x7d")

/-- A line cut off in the middle of an object. -/
def truncatedLine : List Nat := bytesOf "\x7b\"id\":1"

/-- A line that is the first test product but for its url, which is a number. -/
def badURLLine : List Nat :=
  bytesOf ("\x7b\"id\":1,\"title\":\"title1\",\"price\":42.01,\"category\":\"bilgisayar\"," ++
    "\"brand\":\"brand1\",\"url\":5,\"description\":\"a description\"\x7d")

/-- A stand-in for `json.Unmarshal` in the examples. It answers the three
sample lines as `json.Unmarshal` does: `sampleLine` decodes to the first test
product; `badURLLine` fills every field but the url and returns a type error;
any other input is answered like `truncatedLine`, with a syntax error and the
product left at its zero value. -/
def sampleUnmarshal (data : List Nat) : Product × Option GoError :=
  if data = sampleLine then (product1, none)
  else if data = badURLLine then
    ({ product1 with URL := "" },
      some (errors.New
        "json: cannot unmarshal number into Go struct field Product.url of type string"))
  else (zeroProduct, some (errors.New "unexpected end of JSON input"))

/-! ## Formatted application errors and the lookup by identifier -/

/-- An operand of a call of `fmt.Sprintf` in the source: an unsigned integer,
an error value, or a string. -/
inductive Operand where
  | uint (n : Nat)
  | error (err : GoError)
  | str (s : String)
deriving DecidableEq, Repr

/-- What a verb of a format prints for an operand, for the combinations the
source uses: `%d` prints an integer in decimal, `%v` and `%s` print an error
by its method `Error` and a string as it is, `%v` prints an integer in decimal.
For another combination `fmt` prints a bad-verb marker; the source has none,
and what is printed here for it is the marker without the operand. -/
def fmt.verb (v : Char) (a : Operand) : String :=
  match v, a with
  | 'd', Operand.uint n => toString n
  | 'v', Operand.uint n => toString n
  | 'v', Operand.error err => err.Error
  | 's', Operand.error err => err.Error
  | 'v', Operand.str s => s
  | 's', Operand.str s => s
  | _, _ => "%!" ++ v.toString

/-- The expansion of a format, character by character: a percent sign and the
verb after it print the next operand, every other character prints itself.
Every format of the source has as many verbs as the call has operands; for a
verb without an operand left, where `fmt` prints a missing-operand marker, the
verb is printed here as it stands. -/
def fmt.expand : List Char → List Operand → List Char
  | '%' :: v :: rest, a :: args => (fmt.verb v a).toList ++ fmt.expand rest args
  | c :: rest, args => c :: fmt.expand rest args
  | [], _ => []

/-- The function `fmt.Sprintf`, for the formats of the source. -/
def fmt.Sprintf (format : String) (args : List Operand) : String :=
  String.mk (fmt.expand format.toList args)

/-- The function `Errorf`, called with a format and operands. -/
def Errorf.withOperands (code : String) (format : String) (args : List Operand) : Error :=
  { Code := code, Message := fmt.Sprintf format args }

/-- The sentinel `gocql.ErrNotFound`. -/
def gocql.ErrNotFound : GoError := errors.New "not found"

/-- The call `errors.Is(err, target)`: whether `err` or an error on its unwrap
chain is `target`. Two error values of the model are the same value when they
are equal. -/
def errors.Is : GoError → GoError → Bool
  | GoError.wrap text inner, target =>
    GoError.wrap text inner == target || errors.Is inner target
  | err, target => err == target

/-- The database session a `cassandra.ProductService` holds, as far as the
service uses it to read: `Scan id` runs the select statement of
`FindProductByID` for the identifier and copies the columns of the row into
the seven variables. It returns the values of the seven variables after the
call, as a product, and the error of the call. -/
structure SelectQuery (σ : Type) where
  Scan : Nat → σ → (Product × Option GoError) × σ

/-- The method `FindProductByID` of `cassandra.ProductService`. It returns the
Go pair `(*Product, error)`; `none` is the nil pointer. When the query fails
the error is an application error: `ENOTFOUND` when the driver reports that
there is no such row, `EINTERNAL` with the error of the driver printed into
the message otherwise. -/
def cassandra.ProductService.FindProductByID {σ : Type} (db : SelectQuery σ) (id : Nat)
    (s : σ) : (Option Product × Option GoError) × σ :=
  match db.Scan id s with
  | ((_, some err), s1) =>
    if errors.Is err gocql.ErrNotFound then
      ((none, some (GoError.app
          (Errorf.withOperands ENOTFOUND "product with id: %d is not found" [Operand.uint id]))),
        s1)
    else
      ((none, some (GoError.app
          (Errorf.withOperands EINTERNAL "query by %d failed with err: %v"
            [Operand.uint id, Operand.error err]))),
        s1)
  | ((row, none), s1) => ((some row, none), s1)

/-- A session whose every select fails with the error `err` of the driver. -/
def failingQuery (err : GoError) : SelectQuery Unit where
  Scan _ s := ((zeroProduct, some err), s)

/-- An error of the driver: no host of the cluster can be reached. -/
def errNoHosts : GoError := errors.New "gocql: no hosts available in the pool"

/-- An error of the driver: the keyspace of the session does not exist. -/
def errNoKeyspace : GoError := errors.New "Keyspace dataflow does not exist"

/-! ## http/error.go -/

/-- The constant `http.StatusBadRequest`. -/
def http.StatusBadRequest : Nat := 400

/-- The constant `http.StatusNotFound`. -/
def http.StatusNotFound : Nat := 404

/-- The constant `http.StatusInternalServerError`. -/
def http.StatusInternalServerError : Nat := 500

/-- The map `codes`, as the list of its entries; the keys are distinct. -/
def http.codes : List (String × Nat) :=
  [(EINVALID, http.StatusBadRequest), (ENOTFOUND, http.StatusNotFound),
   (EINTERNAL, http.StatusInternalServerError)]

/-- The function `ErrorStatusCode`: the status the map has for the code, and
`http.StatusInternalServerError` for a code the map does not have. -/
def http.ErrorStatusCode (code : String) : Nat :=
  match http.codes.lookup code with
  | some v => v
  | none => http.StatusInternalServerError

/-- The function `FromErrorStatusCode`. Its loop ranges over the map, and Go
leaves the order of that open: `order` lists the entries in the order the loop
meets them. The first entry with the status ends the loop with its key; when
there is none the result is `EINTERNAL`. -/
def http.FromErrorStatusCode (order : List (String × Nat)) (code : Nat) : String :=
  match order with
  | [] => EINTERNAL
  | (k, v) :: rest => if v == code then k else http.FromErrorStatusCode rest code

/-- The struct `ErrorResponse`: the value the handler encodes as the body. -/
structure http.ErrorResponse where
  Error : String
deriving DecidableEq, Repr

/-- What a call of the function `Error` of package `http` leaves behind: the
content type it sets, the status it writes, the value it hands to the JSON
encoder for the body, and the lines it logs. -/
structure http.Response where
  contentType : String
  status : Nat
  body : http.ErrorResponse
  logged : List String
deriving DecidableEq, Repr

/-- The function `LogError`: the line it logs, for the method and the path of
the request and the error. -/
def http.LogError (method path : String) (err : Option GoError) : String :=
  "[http] error: " ++ method ++ " " ++ path ++ ": " ++
    (match err with
     | some g => g.Error
     | none => "%!s(<nil>)")

/-- The function `Error` of package `http`, for a request with the given
method and path: take code and message from the error, log the error when the
code is `EINTERNAL`, write the status of the code and the message as the
body. -/
def http.Error (method path : String) (err : Option GoError) : http.Response :=
  { contentType := "application/json",
    status := http.ErrorStatusCode (ErrorCode err),
    body := { Error := ErrorMessage err },
    logged := if ErrorCode err == EINTERNAL then [http.LogError method path err] else [] }

/-! ## The cache against the store -/

/-- The identifiers of the rows of the table. -/
def Env.storedIDs (env : Env) : List Nat := env.rows.map Product.ID

/-- Every identifier the cache holds is the identifier of a row of the
table. -/
def cacheInStore (env : Env) : Prop := ∀ id ∈ env.cache, id ∈ env.storedIDs

instance cacheInStore.decidable (env : Env) : Decidable (cacheInStore env) := by
  unfold cacheInStore
  infer_instance

/-- Every cached identifier is stored, and so is the identifier of every
worker whose create has succeeded and whose set is still to come. -/
def createdAreStored (ws : List Worker) (env : Env) : Prop :=
  cacheInStore env ∧ ∀ pr, Worker.created pr ∈ ws → pr.ID ∈ env.storedIDs

/-! ## The bounded stages, goroutine by goroutine -/

/-- The error `context.Canceled`, which `ctx.Err()` returns once the context
is cancelled. -/
def context.Canceled : GoError := errors.New "context canceled"

/-- A `semaphore.Weighted` as the two bounded stages use it, every `Acquire`
and every `Release` with a weight of 1: its size and the weight held. Only the
loop goroutine of a stage calls `Acquire`, one call after the other, so no
other caller is ever waiting. -/
structure Weighted where
  size : Nat
  cur : Int
deriving DecidableEq, Repr

/-- The function `semaphore.NewWeighted`. -/
def semaphore.NewWeighted (n : Nat) : Weighted := { size := n, cur := 0 }

/-- Whether a weight of 1 is free, the condition `s.size-s.cur >= n` under
which `Acquire` returns `nil` without waiting. -/
def Weighted.free (s : Weighted) : Bool := decide (1 ≤ (s.size : Int) - s.cur)

/-- The semaphore after an `Acquire` that returned `nil`. -/
def Weighted.Acquire (s : Weighted) : Weighted := { s with cur := s.cur + 1 }

/-- The method `Release` with a weight of 1. It takes the weight off, and
panics (`semaphore: released more than held`) when the weight held falls below
zero: the semaphore after the call, and whether the call panics. -/
def Weighted.Release (s : Weighted) : Weighted × Bool :=
  ({ s with cur := s.cur - 1 }, decide (s.cur - 1 < 0))

/-- What happens next in a bounded stage; a schedule is a list of these.

* `cancel`: the context is cancelled.
* `acquire`: the `Acquire` of the loop goroutine returns `nil` and the loop
  goes on to `g.Go`.
* `acquireFails`: the `Acquire` of the loop goroutine returns `ctx.Err()`.
* `wait`: the loop is over, `g.Wait` returns and the loop goroutine ends.
* `task i`: the goroutine started for item `i` makes its next step.
* `taskDone i`: the goroutine started for item `i` takes the case
  `<-ctx.Done()` of its `select`.

A move that cannot happen in a state leaves the state as it is. -/
inductive Move where
  | cancel
  | acquire
  | acquireFails
  | wait
  | task (i : Nat)
  | taskDone (i : Nat)
deriving DecidableEq, Repr

/-- A goroutine `LoadFiles` started with `g.Go` for a key: `Get` is called and
has not returned; `Get` has returned with the data and the error; or the
function has returned and its deferred `Release` has run. -/
inductive FetchTask where
  | calling (path : String)
  | returned (data : List Nat) (err : Option GoError)
  | finished
deriving DecidableEq, Repr

/-- A call of `Get` is outstanding. -/
def FetchTask.outstanding : FetchTask → Bool
  | FetchTask.calling _ => true
  | _ => false

/-- The goroutine is still running: its deferred `Release` has not run. -/
def FetchTask.running : FetchTask → Bool
  | FetchTask.finished => false
  | _ => true

/-- Where the goroutines of a call of `LoadFiles` stand: the semaphore,
whether the context is done, the keys the loop has still to visit, whether the
loop goroutine is still running, the goroutines started so far in the order of
their start, the two channels, and the outside world. -/
structure FetchStage (σ : Type) where
  sem : Weighted
  ctxDone : Bool
  keys : List String
  looping : Bool
  tasks : List FetchTask
  outCh : Chan (List Nat)
  errCh : Chan (Option GoError)
  world : σ
deriving DecidableEq, Repr

/-- A call of `LoadFiles` with at least one key, right after it has returned
its channels: nothing acquired, no goroutine started. `done` says whether the
context was done already. -/
def Pipeline.LoadFiles.start {σ : Type} (NumThreads : Nat) (keys : List String) (done : Bool)
    (s : σ) : FetchStage σ :=
  { sem := semaphore.NewWeighted NumThreads, ctxDone := done, keys := keys, looping := true,
    tasks := [], outCh := ⟨[], false⟩, errCh := ⟨[], false⟩, world := s }

/-- One move of the goroutines of `LoadFiles`.

The loop goroutine visits the keys in order. For a key it calls `Acquire`: when
that returns `nil` it starts, with `g.Go`, the goroutine of the key; when that
returns an error it sends the error and returns, which closes the output
channel. After the last key it waits for the goroutines started and returns,
which closes the output channel. `Acquire` can return `nil` when a weight of 1
is free, and can fail when the context is done.

The goroutine of a key calls `Get`; then, in one move, it sends the error if
there is one, sends the data, returns, and its deferred `Release` runs. It has
no `select`, so `taskDone` is not a move of it.

A send is taken to find its reader; a send that waits for one, or runs into a
closed channel, is a move that cannot happen, which takes runs away and adds
none. -/
def Pipeline.LoadFiles.step {σ : Type} (Fetcher : Fetch σ) (m : Move) (st : FetchStage σ) :
    FetchStage σ :=
  match m with
  | Move.cancel => { st with ctxDone := true }
  | Move.acquire =>
    match st.looping, st.keys with
    | true, path :: rest =>
      if st.sem.free then
        { st with sem := st.sem.Acquire, keys := rest,
                  tasks := st.tasks ++ [FetchTask.calling path] }
      else st
    | _, _ => st
  | Move.acquireFails =>
    match st.looping, st.keys with
    | true, _ :: _ =>
      if st.ctxDone then
        { st with looping := false,
                  errCh := ⟨st.errCh.sent ++ [some context.Canceled], st.errCh.closed⟩,
                  outCh := ⟨st.outCh.sent, true⟩ }
      else st
    | _, _ => st
  | Move.wait =>
    if st.looping && st.keys.isEmpty && st.tasks.all (fun t => !t.running) then
      { st with looping := false, outCh := ⟨st.outCh.sent, true⟩ }
    else st
  | Move.task i =>
    match st.tasks[i]? with
    | some (FetchTask.calling path) =>
      { st with tasks := st.tasks.set i
                  (FetchTask.returned (Fetcher.Get path st.world).1.1
                    (Fetcher.Get path st.world).1.2),
                world := (Fetcher.Get path st.world).2 }
    | some (FetchTask.returned data err) =>
      { st with tasks := st.tasks.set i FetchTask.finished,
                errCh := match err with
                  | some e => ⟨st.errCh.sent ++ [some e], st.errCh.closed⟩
                  | none => st.errCh,
                outCh := ⟨st.outCh.sent ++ [data], st.outCh.closed⟩,
                sem := st.sem.Release.1 }
    | _ => st
  | Move.taskDone _ => st

/-- The goroutines of `LoadFiles` under a schedule. -/
def Pipeline.LoadFiles.run {σ : Type} (Fetcher : Fetch σ) : List Move → FetchStage σ → FetchStage σ
  | [], st => st
  | m :: sch, st => Pipeline.LoadFiles.run Fetcher sch (Pipeline.LoadFiles.step Fetcher m st)

/-- The number of calls of `Get` outstanding. -/
def FetchStage.outstanding {σ : Type} (st : FetchStage σ) : Nat :=
  st.tasks.countP FetchTask.outstanding

/-- A goroutine `Save` started with `g.Go` for a product: its call of
`SendToDB` is under way or has returned (`calling wk`, with `wk` saying where
the call stands; `Worker.done err` is a call that has returned `err`, which the
`select` has still to send); or the function has returned and its deferred
`Release` has run. -/
inductive SaveTask where
  | calling (wk : Worker)
  | finished
deriving DecidableEq, Repr

/-- A call of `SendToDB` is outstanding: entered and not returned. -/
def SaveTask.outstanding : SaveTask → Bool
  | SaveTask.calling (Worker.done _) => false
  | SaveTask.calling _ => true
  | SaveTask.finished => false

/-- The goroutine is still running: its deferred `Release` has not run. -/
def SaveTask.running : SaveTask → Bool
  | SaveTask.finished => false
  | _ => true

/-- Where the goroutines of a call of `Save` stand: the semaphore, whether the
context is done, the products the loop has still to receive and whether the
input channel is closed after them, whether the loop goroutine is still
running, the goroutines started so far in the order of their start, the error
channel, the first error a goroutine of the group returned, whether a
`Release` has panicked, and the outside world. -/
structure SaveStage (σ : Type) where
  sem : Weighted
  ctxDone : Bool
  products : Chan Product
  looping : Bool
  tasks : List SaveTask
  errc : Chan (Option GoError)
  groupErr : Option GoError
  panicked : Bool
  world : σ
deriving DecidableEq, Repr

/-- A call of `Save`, right after it has returned its channel: nothing
acquired, no goroutine started. `done` says whether the context was done
already. -/
def Pipeline.Save.start {σ : Type} (p : Pipeline σ) (products : Chan Product) (done : Bool)
    (s : σ) : SaveStage σ :=
  { sem := semaphore.NewWeighted p.NumThreads, ctxDone := done, products := products,
    looping := true, tasks := [], errc := ⟨[], false⟩, groupErr := none, panicked := false,
    world := s }

/-- The goroutine of a product returns: its deferred `Release` runs. -/
def SaveStage.release {σ : Type} (st : SaveStage σ) (i : Nat) : SaveStage σ :=
  { st with tasks := st.tasks.set i SaveTask.finished, sem := st.sem.Release.1,
            panicked := st.sem.Release.2 }

/-- One move of the goroutines of `Save`. After a panic nothing moves.

The loop goroutine receives the products in order. For a product it calls
`Acquire`: when that returns `nil` it starts, with `g.Go`, the goroutine of the
product; when that returns an error it sends the error on the error channel
and, the `if` having no `return`, goes on to `g.Go` and starts the goroutine of
the product all the same. When the input channel is closed and used up it waits
for the goroutines started, sends the error of the group if there is one, and
returns, which closes the error channel. `Acquire` can return `nil` when a
weight of 1 is free, and can fail when the context is done.

The goroutine of a product evaluates `p.SendToDB(ctx, pr)`, one port call per
move, and then takes a case of its `select`: it sends the value and returns
`nil` (`task`), or, when the context is done, returns `ctx.Err()`
(`taskDone`); either way its deferred `Release` runs.

A send is taken to find its reader or room in the buffer; a send that has to
wait is a move that cannot happen. -/
def Pipeline.Save.step {σ : Type} (p : Pipeline σ) (m : Move) (st : SaveStage σ) : SaveStage σ :=
  if st.panicked then st
  else
    match m with
    | Move.cancel => { st with ctxDone := true }
    | Move.acquire =>
      match st.looping, st.products.sent with
      | true, pr :: rest =>
        if st.sem.free then
          { st with sem := st.sem.Acquire, products := ⟨rest, st.products.closed⟩,
                    tasks := st.tasks ++ [SaveTask.calling (Worker.start pr)] }
        else st
      | _, _ => st
    | Move.acquireFails =>
      match st.looping, st.products.sent with
      | true, pr :: rest =>
        if st.ctxDone then
          { st with errc := ⟨st.errc.sent ++ [some context.Canceled], st.errc.closed⟩,
                    products := ⟨rest, st.products.closed⟩,
                    tasks := st.tasks ++ [SaveTask.calling (Worker.start pr)] }
        else st
      | _, _ => st
    | Move.wait =>
      if st.looping && st.products.sent.isEmpty && st.products.closed &&
          st.tasks.all (fun t => !t.running) then
        { st with looping := false,
                  errc := match st.groupErr with
                    | some e => ⟨st.errc.sent ++ [some e], true⟩
                    | none => ⟨st.errc.sent, true⟩ }
      else st
    | Move.task i =>
      match st.tasks[i]? with
      | some (SaveTask.calling (Worker.done err)) =>
        { st with errc := ⟨st.errc.sent ++ [err], st.errc.closed⟩ }.release i
      | some (SaveTask.calling wk) =>
        { st with tasks := st.tasks.set i (SaveTask.calling (p.stepWorker wk st.world).1),
                  world := (p.stepWorker wk st.world).2 }
      | _ => st
    | Move.taskDone i =>
      match st.tasks[i]? with
      | some (SaveTask.calling (Worker.done _)) =>
        if st.ctxDone then
          { st with groupErr := match st.groupErr with
                      | some e => some e
                      | none => some context.Canceled }.release i
        else st
      | _ => st

/-- The goroutines of `Save` under a schedule. -/
def Pipeline.Save.run {σ : Type} (p : Pipeline σ) : List Move → SaveStage σ → SaveStage σ
  | [], st => st
  | m :: sch, st => Pipeline.Save.run p sch (Pipeline.Save.step p m st)

/-- The number of calls of `SendToDB` outstanding. -/
def SaveStage.outstanding {σ : Type} (st : SaveStage σ) : Nat :=
  st.tasks.countP SaveTask.outstanding

/-- What holds of the goroutines of `LoadFiles` at every instant: the weight
held is the number of goroutines started and not yet returned, and it is at
most the size of the semaphore, which is `NumThreads`. -/
structure FetchInv {σ : Type} (N : Nat) (st : FetchStage σ) : Prop where
  size : st.sem.size = N
  held : st.sem.cur = (st.tasks.countP FetchTask.running : Int)
  bound : st.sem.cur ≤ (N : Int)

/-- What holds of the goroutines of `Save` at every instant as long as the
context is not cancelled: no `Release` has panicked, the weight held is the
number of goroutines started and not yet returned, and it is at most the size
of the semaphore, which is `NumThreads`. -/
structure SaveInv {σ : Type} (N : Nat) (st : SaveStage σ) : Prop where
  size : st.sem.size = N
  live : st.ctxDone = false
  calm : st.panicked = false
  held : st.sem.cur = (st.tasks.countP SaveTask.running : Int)
  bound : st.sem.cur ≤ (N : Int)

/-- The schedule that lets the goroutine of every item run to its end before
the next one is started, and the loop goroutine end after the last: for `n`
items of which the first gets the goroutine `k`, each goroutine making
`steps` moves. -/
def oneByOne (steps : Nat) : Nat → Nat → List Move
  | _, 0 => [Move.wait]
  | k, n + 1 => Move.acquire :: (List.replicate steps (Move.task k) ++ oneByOne steps (k + 1) n)

/-- The pipeline with another number of worker threads. -/
def Pipeline.withNumThreads {σ : Type} (p : Pipeline σ) (n : Nat) : Pipeline σ :=
  { p with NumThreads := n }

/-- The call of `SendToDB` of a goroutine of `Save`, as a worker. A goroutine
that has returned is taken as a call that returned `nil`; that is what it was
when no call on a port fails and the records are valid. -/
def SaveTask.worker : SaveTask → Worker
  | SaveTask.calling wk => wk
  | SaveTask.finished => Worker.done none

/-- The calls of `SendToDB` of a call of `Save`, made or to come, one per
product in the order of the products: those of the goroutines started, and a
call not yet begun for every product the loop has still to receive. -/
def SaveStage.pool {σ : Type} (st : SaveStage σ) : List Worker :=
  st.tasks.map SaveTask.worker ++ st.products.sent.map Worker.start

/-- What holds at every instant of a call of `Save` for the records `rs`, in
the in-memory world where no call fails, as long as the context is not
cancelled: the calls of `SendToDB` stand to the records and to the calls
recorded as `PoolInv` says, nothing has panicked, the weight held is the number
of goroutines running, the error channel carries one `nil` for every goroutine
that has returned, and once the loop goroutine has returned every product has
been received, every goroutine has returned and the error channel is
closed. -/
structure SaveRunInv (rs : List Product) (st : SaveStage (Traced Env)) : Prop where
  pool : PoolInv rs st.pool st.world
  live : st.ctxDone = false
  calm : st.panicked = false
  held : st.sem.cur = (st.tasks.countP SaveTask.running : Int)
  sent : st.errc.sent = List.replicate (st.tasks.countP (fun t => !t.running)) none
  group : st.groupErr = none
  ended : st.looping = false →
    st.products.sent = [] ∧ (∀ t ∈ st.tasks, t = SaveTask.finished) ∧ st.errc.closed = true

/-! ## Theorems -/

theorem model_SendToDB_eq (F : Nat → Option GoError) (pr : Product) (w : Traced Env) :
    (ModelPipeline F).SendToDB pr w =
      match F w.st.tick with
      | some e => (some e, ⟨w.st.step, w.log ++ [Event.cacheExists pr.ID false (some e)]⟩)
      | none =>
        if pr.ID ∈ w.st.cache then
          (none, ⟨w.st.step, w.log ++ [Event.cacheExists pr.ID true none]⟩)
        else
          match pr.Validate with
          | some e =>
            (some e, ⟨w.st.step,
              w.log ++ [Event.cacheExists pr.ID false none, Event.create pr (some e)]⟩)
          | none =>
            match F (w.st.tick + 1) with
            | some e =>
              (some e, ⟨w.st.step.step,
                w.log ++ [Event.cacheExists pr.ID false none, Event.insert pr (some e),
                  Event.create pr (some e)]⟩)
            | none =>
              match F (w.st.tick + 2) with
              | some e =>
                (some e, ⟨{ cache := w.st.cache, rows := upsert pr w.st.rows,
                            tick := w.st.tick + 3 },
                  w.log ++ [Event.cacheExists pr.ID false none, Event.insert pr none,
                    Event.create pr none, Event.cacheSet pr.ID (some e)]⟩)
              | none =>
                (none, ⟨{ cache := pr.ID :: w.st.cache, rows := upsert pr w.st.rows,
                          tick := w.st.tick + 3 },
                  w.log ++ [Event.cacheExists pr.ID false none, Event.insert pr none,
                    Event.create pr none, Event.cacheSet pr.ID none]⟩) := by
  obtain ⟨⟨cache, rows, tick⟩, log⟩ := w
  simp only [Pipeline.SendToDB, ModelPipeline, Cache.spy, Cache.lift, ModelCache,
    ProductService.spy, cassandra.NewProductService, cassandra.ProductService.CreateProduct,
    Session.spy, Session.lift, ModelSession, Traced.record, Env.step, upsert]
  cases hF0 : F tick with
  | some e => simp
  | none =>
    by_cases hc : pr.ID ∈ cache
    · simp [hc]
    · cases hV : pr.Validate with
      | some e => simp [hc]
      | none =>
        cases hF1 : F (tick + 1) with
        | some e => simp [hc, hF1]
        | none =>
          cases hF2 : F (tick + 1 + 1) with
          | some e => simp [hc, hF1, hF2]
          | none => simp [hc, hF1, hF2]

/-- Whatever the three port operations preserve, `SendToDB` preserves. -/
theorem SendToDB_preserves {σ : Type} (p : Pipeline σ) (Inv : σ → Prop)
    (hE : ∀ id s, Inv s → Inv (p.CacheService.Exists id s).2)
    (hS : ∀ id s, Inv s → Inv (p.CacheService.Set id s).2)
    (hC : ∀ pr s, Inv s → Inv (p.ProductService.CreateProduct pr s).2)
    (pr : Product) (s : σ) (h : Inv s) : Inv (p.SendToDB pr s).2 := by
  rcases hx : p.CacheService.Exists pr.ID s with ⟨⟨ok, err⟩, s1⟩
  have h1 : Inv s1 := by
    have := hE pr.ID s h
    rwa [hx] at this
  rcases hc : p.ProductService.CreateProduct pr s1 with ⟨err2, s2⟩
  have h2 : Inv s2 := by
    have := hC pr s1 h1
    rwa [hc] at this
  have h3 := hS pr.ID s2 h2
  cases ok <;> cases err <;> cases err2 <;> simp [Pipeline.SendToDB, hx, hc] <;> assumption

/-- Whatever `SendToDB` preserves, a sequence of `SendToDB` calls preserves. -/
theorem SendAll_preserves {σ : Type} (p : Pipeline σ) (Inv : σ → Prop)
    (hstep : ∀ pr s, Inv s → Inv (p.SendToDB pr s).2) :
    ∀ (rs : List Product) (s : σ), Inv s → Inv (p.SendAll rs s).2
  | [], _, h => h
  | pr :: rest, s, h => SendAll_preserves p Inv hstep rest _ (hstep pr s h)

/-- The six ways a `SendToDB` can go in the in-memory world. -/
theorem model_SendToDB_cases (F : Nat → Option GoError) (pr : Product) (w : Traced Env) :
    (∃ e, F w.st.tick = some e ∧ (ModelPipeline F).SendToDB pr w =
        (some e, ⟨w.st.step, w.log ++ [Event.cacheExists pr.ID false (some e)]⟩)) ∨
    (F w.st.tick = none ∧ pr.ID ∈ w.st.cache ∧ (ModelPipeline F).SendToDB pr w =
        (none, ⟨w.st.step, w.log ++ [Event.cacheExists pr.ID true none]⟩)) ∨
    (∃ e, F w.st.tick = none ∧ pr.ID ∉ w.st.cache ∧ pr.Validate = some e ∧
      (ModelPipeline F).SendToDB pr w =
        (some e, ⟨w.st.step,
          w.log ++ [Event.cacheExists pr.ID false none, Event.create pr (some e)]⟩)) ∨
    (∃ e, F w.st.tick = none ∧ pr.ID ∉ w.st.cache ∧ pr.Validate = none ∧
      F (w.st.tick + 1) = some e ∧ (ModelPipeline F).SendToDB pr w =
        (some e, ⟨w.st.step.step,
          w.log ++ [Event.cacheExists pr.ID false none, Event.insert pr (some e),
            Event.create pr (some e)]⟩)) ∨
    (∃ e, F w.st.tick = none ∧ pr.ID ∉ w.st.cache ∧ pr.Validate = none ∧
      F (w.st.tick + 1) = none ∧ F (w.st.tick + 2) = some e ∧
      (ModelPipeline F).SendToDB pr w =
        (some e, ⟨{ cache := w.st.cache, rows := upsert pr w.st.rows, tick := w.st.tick + 3 },
          w.log ++ [Event.cacheExists pr.ID false none, Event.insert pr none,
            Event.create pr none, Event.cacheSet pr.ID (some e)]⟩)) ∨
    (F w.st.tick = none ∧ pr.ID ∉ w.st.cache ∧ pr.Validate = none ∧
      F (w.st.tick + 1) = none ∧ F (w.st.tick + 2) = none ∧
      (ModelPipeline F).SendToDB pr w =
        (none, ⟨{ cache := pr.ID :: w.st.cache, rows := upsert pr w.st.rows,
                  tick := w.st.tick + 3 },
          w.log ++ [Event.cacheExists pr.ID false none, Event.insert pr none,
            Event.create pr none, Event.cacheSet pr.ID none]⟩)) := by
  rw [model_SendToDB_eq]
  cases hF0 : F w.st.tick with
  | some e => exact Or.inl ⟨e, rfl, rfl⟩
  | none =>
    by_cases hc : pr.ID ∈ w.st.cache
    · exact Or.inr (Or.inl ⟨rfl, hc, by simp [hc]⟩)
    · cases hV : pr.Validate with
      | some e => exact Or.inr (Or.inr (Or.inl ⟨e, rfl, hc, rfl, by simp [hc]⟩))
      | none =>
        cases hF1 : F (w.st.tick + 1) with
        | some e =>
          exact Or.inr (Or.inr (Or.inr (Or.inl ⟨e, rfl, hc, rfl, rfl, by simp [hc]⟩)))
        | none =>
          cases hF2 : F (w.st.tick + 2) with
          | some e =>
            exact Or.inr (Or.inr (Or.inr (Or.inr (Or.inl
              ⟨e, rfl, hc, rfl, rfl, rfl, by simp [hc]⟩))))
          | none =>
            exact Or.inr (Or.inr (Or.inr (Or.inr (Or.inr
              ⟨rfl, hc, rfl, rfl, rfl, by simp [hc]⟩))))

/-- In the in-memory world `SendToDB` never removes an identifier from the
cache. -/
theorem model_SendToDB_cache_mono (F : Nat → Option GoError) (pr : Product) (w : Traced Env)
    (id : Nat) (h : id ∈ w.st.cache) : id ∈ ((ModelPipeline F).SendToDB pr w).2.st.cache := by
  rcases model_SendToDB_cases F pr w with ⟨e, _, hR⟩ | ⟨_, _, hR⟩ | ⟨e, _, _, _, hR⟩ |
    ⟨e, _, _, _, _, hR⟩ | ⟨e, _, _, _, _, _, hR⟩ | ⟨_, _, _, _, _, hR⟩ <;> rw [hR]
  · exact h
  · exact h
  · exact h
  · exact h
  · exact h
  · exact List.mem_cons_of_mem _ h

theorem model_SendToDB_setsAreCached (F : Nat → Option GoError) (pr : Product)
    (w : Traced Env) (h : setsAreCached w) :
    setsAreCached ((ModelPipeline F).SendToDB pr w).2 := by
  intro id
  rcases model_SendToDB_cases F pr w with ⟨e, _, hR⟩ | ⟨_, _, hR⟩ | ⟨e, _, _, _, hR⟩ |
    ⟨e, _, _, _, _, hR⟩ | ⟨e, _, _, _, _, _, hR⟩ | ⟨_, _, _, _, _, hR⟩ <;> rw [hR] <;>
    intro hid <;> simp at hid
  · exact h id hid
  · exact h id hid
  · exact h id hid
  · exact h id hid
  · exact h id hid
  · rcases hid with hid | hid
    · exact List.mem_cons_of_mem _ (h id hid)
    · simp [hid]

/-! ### SendToDB, one record -/

/-- C1. Skip: for every pair of services and every record, if `Exists` returns
`(true, nil)` for the identifier of the record, `SendToDB` returns `nil`, the
world is the one `Exists` left, and the only call recorded is that `Exists`:
neither `CreateProduct` nor `Set` is called. -/
theorem SendToDB_skip_when_cached {σ : Type} (p : Pipeline σ) (pr : Product) (s s1 : σ)
    (log : List Event) (h : p.CacheService.Exists pr.ID s = ((true, none), s1)) :
    (p.lift.spy).SendToDB pr ⟨s, log⟩
        = (none, ⟨s1, log ++ [Event.cacheExists pr.ID true none]⟩) ∧
      createCalls ((p.lift.spy).SendToDB pr ⟨s, log⟩).2.log = createCalls log ∧
      setCalls ((p.lift.spy).SendToDB pr ⟨s, log⟩).2.log = setCalls log := by
  have key : (p.lift.spy).SendToDB pr ⟨s, log⟩
      = (none, ⟨s1, log ++ [Event.cacheExists pr.ID true none]⟩) := by
    simp [Pipeline.SendToDB, Pipeline.spy, Pipeline.lift, Cache.spy, Cache.lift,
      Traced.record, h]
  rw [key]
  simp [createCalls, setCalls, Event.isCreate, Event.isCacheSet]

/-- The skip at a concrete input: the first test product, with its identifier
already in the cache. -/
theorem SendToDB_skip_when_cached_witness :
    ((ModelServices noFault).lift.spy).SendToDB product1
          ⟨{ cache := [1], rows := [product1], tick := 0 }, []⟩
        = (none, ⟨{ cache := [1], rows := [product1], tick := 1 },
            [] ++ [Event.cacheExists product1.ID true none]⟩) ∧
      createCalls (((ModelServices noFault).lift.spy).SendToDB product1
          ⟨{ cache := [1], rows := [product1], tick := 0 }, []⟩).2.log = createCalls [] ∧
      setCalls (((ModelServices noFault).lift.spy).SendToDB product1
          ⟨{ cache := [1], rows := [product1], tick := 0 }, []⟩).2.log = setCalls [] :=
  SendToDB_skip_when_cached (ModelServices noFault) product1
    { cache := [1], rows := [product1], tick := 0 }
    { cache := [1], rows := [product1], tick := 1 } [] (by decide)

/-- C2. Happy path over the in-memory cache and store: for a record whose
identifier is not in the cache, when the lookup goes through, `CreateProduct`
succeeds (the record passes validation and the insert does not fail) and `Set`
succeeds, `SendToDB` returns `nil`; the calls made are, in this order, one
`Exists`, one `CreateProduct` with that record (running one insert), and one
`Set` with the identifier of the record, after `CreateProduct` has returned
`nil`; and afterwards the identifier is in the cache. -/
theorem SendToDB_happy_path (F : Nat → Option GoError) (pr : Product) (w : Traced Env)
    (hAbsent : pr.ID ∉ w.st.cache) (hExists : F w.st.tick = none)
    (hValid : pr.Validate = none) (hInsert : F (w.st.tick + 1) = none)
    (hSet : F (w.st.tick + 2) = none) :
    ((ModelPipeline F).SendToDB pr w).1 = none ∧
      ((ModelPipeline F).SendToDB pr w).2.log
        = w.log ++ [Event.cacheExists pr.ID false none, Event.insert pr none,
            Event.create pr none, Event.cacheSet pr.ID none] ∧
      pr.ID ∈ ((ModelPipeline F).SendToDB pr w).2.st.cache ∧
      pr ∈ ((ModelPipeline F).SendToDB pr w).2.st.rows := by
  rw [model_SendToDB_eq]
  simp [hAbsent, hExists, hValid, hInsert, hSet, upsert]

/-- The happy path at a concrete input: the first test product against the
fresh world, no call failing. -/
theorem SendToDB_happy_path_witness :
    ((ModelPipeline noFault).SendToDB product1 Traced.fresh).1 = none ∧
      ((ModelPipeline noFault).SendToDB product1 Traced.fresh).2.log
        = Traced.fresh.log ++ [Event.cacheExists product1.ID false none,
            Event.insert product1 none, Event.create product1 none,
            Event.cacheSet product1.ID none] ∧
      product1.ID ∈ ((ModelPipeline noFault).SendToDB product1 Traced.fresh).2.st.cache ∧
      product1 ∈ ((ModelPipeline noFault).SendToDB product1 Traced.fresh).2.st.rows :=
  SendToDB_happy_path noFault product1 Traced.fresh (by decide) rfl (by decide) rfl rfl

/-- C3. Mark-cached failure over the in-memory cache and store: for a record
whose identifier is not in the cache, when the lookup goes through,
`CreateProduct` succeeds and `Set` fails with `e`, `SendToDB` returns `e`, the
record is in the table, the identifier is not in the cache, and a `SendToDB` of
a record with the same identifier that comes next and whose lookup goes through
calls `CreateProduct` again. -/
theorem SendToDB_set_failure (F : Nat → Option GoError) (pr : Product) (w : Traced Env)
    (e : GoError) (hAbsent : pr.ID ∉ w.st.cache) (hExists : F w.st.tick = none)
    (hValid : pr.Validate = none) (hInsert : F (w.st.tick + 1) = none)
    (hSet : F (w.st.tick + 2) = some e) :
    ((ModelPipeline F).SendToDB pr w).1 = some e ∧
      pr ∈ ((ModelPipeline F).SendToDB pr w).2.st.rows ∧
      pr.ID ∉ ((ModelPipeline F).SendToDB pr w).2.st.cache ∧
      ((ModelPipeline F).SendToDB pr w).2.log
        = w.log ++ [Event.cacheExists pr.ID false none, Event.insert pr none,
            Event.create pr none, Event.cacheSet pr.ID (some e)] ∧
      ∀ pr2 : Product, pr2.ID = pr.ID → F (w.st.tick + 3) = none →
        ∃ err, Event.create pr2 err ∈
          ((ModelPipeline F).SendToDB pr2 ((ModelPipeline F).SendToDB pr w).2.clear).2.log := by
  have h1 : (ModelPipeline F).SendToDB pr w
      = (some e, ⟨{ cache := w.st.cache, rows := upsert pr w.st.rows, tick := w.st.tick + 3 },
          w.log ++ [Event.cacheExists pr.ID false none, Event.insert pr none,
            Event.create pr none, Event.cacheSet pr.ID (some e)]⟩) := by
    rw [model_SendToDB_eq]
    simp [hAbsent, hExists, hValid, hInsert, hSet]
  rw [h1]
  refine ⟨rfl, by simp [upsert], hAbsent, rfl, ?_⟩
  intro pr2 hid hF3
  have hAbsent2 : pr2.ID ∉ w.st.cache := by rw [hid]; exact hAbsent
  rw [model_SendToDB_eq]
  simp only [Traced.clear, hF3, hAbsent2, if_false]
  cases hV : pr2.Validate with
  | some e2 => exact ⟨some e2, by simp⟩
  | none =>
    cases hF4 : F (w.st.tick + 3 + 1) with
    | some e4 => exact ⟨some e4, by simp⟩
    | none =>
      cases hF5 : F (w.st.tick + 3 + 2) with
      | some e5 => exact ⟨none, by simp⟩
      | none => exact ⟨none, by simp⟩

/-- The mark-cached failure at a concrete input: the first test product against
the fresh world, the third call (the `Set`) failing. -/
theorem SendToDB_set_failure_witness :
    ((ModelPipeline (faultAt 2 (GoError.leaf "redis: down"))).SendToDB product1 Traced.fresh).1
        = some (GoError.leaf "redis: down") ∧
      product1 ∈ ((ModelPipeline (faultAt 2 (GoError.leaf "redis: down"))).SendToDB product1
        Traced.fresh).2.st.rows ∧
      product1.ID ∉ ((ModelPipeline (faultAt 2 (GoError.leaf "redis: down"))).SendToDB product1
        Traced.fresh).2.st.cache ∧
      ((ModelPipeline (faultAt 2 (GoError.leaf "redis: down"))).SendToDB product1
          Traced.fresh).2.log
        = Traced.fresh.log ++ [Event.cacheExists product1.ID false none,
            Event.insert product1 none, Event.create product1 none,
            Event.cacheSet product1.ID (some (GoError.leaf "redis: down"))] ∧
      ∀ pr2 : Product, pr2.ID = product1.ID →
        faultAt 2 (GoError.leaf "redis: down") (Traced.fresh.st.tick + 3) = none →
        ∃ err, Event.create pr2 err ∈
          ((ModelPipeline (faultAt 2 (GoError.leaf "redis: down"))).SendToDB pr2
            ((ModelPipeline (faultAt 2 (GoError.leaf "redis: down"))).SendToDB product1
              Traced.fresh).2.clear).2.log :=
  SendToDB_set_failure (faultAt 2 (GoError.leaf "redis: down")) product1 Traced.fresh
    (GoError.leaf "redis: down") (by decide) (by decide) (by decide) (by decide) (by decide)

/-- C4. Store-write failure over the in-memory cache and store: for a record
whose identifier is not in the cache, when the lookup goes through and
`CreateProduct` fails with `e` (validation returns `e`, or validation passes and
the insert fails with `e`), `SendToDB` returns exactly `e`, it calls
`CreateProduct` once and `Set` never, and the cache is unchanged. -/
theorem SendToDB_create_failure (F : Nat → Option GoError) (pr : Product) (w : Traced Env)
    (e : GoError) (hAbsent : pr.ID ∉ w.st.cache) (hExists : F w.st.tick = none)
    (hCreate : pr.Validate = some e ∨ (pr.Validate = none ∧ F (w.st.tick + 1) = some e)) :
    ((ModelPipeline F).SendToDB pr w).1 = some e ∧
      ((ModelPipeline F).SendToDB pr w).2.st.cache = w.st.cache ∧
      ∃ calls, ((ModelPipeline F).SendToDB pr w).2.log = w.log ++ calls ∧
        Event.create pr (some e) ∈ calls ∧ createCalls calls = 1 ∧ setCalls calls = 0 := by
  rcases hCreate with hV | ⟨hV, hF1⟩
  · have h1 : (ModelPipeline F).SendToDB pr w
        = (some e, ⟨w.st.step,
            w.log ++ [Event.cacheExists pr.ID false none, Event.create pr (some e)]⟩) := by
      rw [model_SendToDB_eq]
      simp [hExists, hAbsent, hV]
    rw [h1]
    exact ⟨rfl, rfl, _, rfl, by simp, by simp [createCalls, Event.isCreate],
      by simp [setCalls, Event.isCacheSet]⟩
  · have h1 : (ModelPipeline F).SendToDB pr w
        = (some e, ⟨w.st.step.step,
            w.log ++ [Event.cacheExists pr.ID false none, Event.insert pr (some e),
              Event.create pr (some e)]⟩) := by
      rw [model_SendToDB_eq]
      simp [hExists, hAbsent, hV, hF1]
    rw [h1]
    exact ⟨rfl, rfl, _, rfl, by simp, by simp [createCalls, Event.isCreate],
      by simp [setCalls, Event.isCacheSet]⟩

/-- The store-write failure at a concrete input: the first test product against
the fresh world, the second call (the insert) failing. -/
theorem SendToDB_create_failure_witness :
    ((ModelPipeline (faultAt 1 (GoError.leaf "gocql: no hosts"))).SendToDB product1
        Traced.fresh).1 = some (GoError.leaf "gocql: no hosts") ∧
      ((ModelPipeline (faultAt 1 (GoError.leaf "gocql: no hosts"))).SendToDB product1
        Traced.fresh).2.st.cache = Traced.fresh.st.cache ∧
      ∃ calls, ((ModelPipeline (faultAt 1 (GoError.leaf "gocql: no hosts"))).SendToDB product1
          Traced.fresh).2.log = Traced.fresh.log ++ calls ∧
        Event.create product1 (some (GoError.leaf "gocql: no hosts")) ∈ calls ∧
        createCalls calls = 1 ∧ setCalls calls = 0 :=
  SendToDB_create_failure (faultAt 1 (GoError.leaf "gocql: no hosts")) product1 Traced.fresh
    (GoError.leaf "gocql: no hosts") (by decide) (by decide) (Or.inr (by decide))

/-! ### SendToDB, record after record -/

theorem model_SendToDB_cachedAndNotCreated (F : Nat → Option GoError) (id : Nat)
    (pr : Product) (w : Traced Env) (h : cachedAndNotCreated id w) :
    cachedAndNotCreated id ((ModelPipeline F).SendToDB pr w).2 := by
  refine ⟨model_SendToDB_cache_mono F pr w id h.1, ?_⟩
  have hlog := h.2
  have hne : pr.ID ∉ w.st.cache → (pr.ID == id) = false := by
    intro hc
    simp only [beq_eq_false_iff_ne, ne_eq]
    intro heq
    exact hc (heq ▸ h.1)
  unfold createCallsFor at hlog ⊢
  rcases model_SendToDB_cases F pr w with ⟨e, _, hR⟩ | ⟨_, _, hR⟩ | ⟨e, _, hc, _, hR⟩ |
    ⟨e, _, hc, _, _, hR⟩ | ⟨e, _, hc, _, _, _, hR⟩ | ⟨_, hc, _, _, _, hR⟩ <;> rw [hR] <;>
    simp [List.countP_append, List.countP_cons, hlog, Event.isCreateFor] <;>
    simpa using hne hc

/-- C5. Idempotence of the cache-gated write over the in-memory cache and
store, whatever calls fail: when a list of records is sent record by record
twice, the cache and the store being kept between the two passes, the second
pass makes no call of `CreateProduct` for an identifier for which the first pass
recorded a successful `Set`; and after a `SendToDB` that returned `nil`, the
next `SendToDB` of a record with the same identifier makes no call of
`CreateProduct`. -/
theorem SendAll_second_pass_no_create (F : Nat → Option GoError) (rs : List Product)
    (w : Traced Env) :
    (∀ id, Event.cacheSet id none ∈ ((ModelPipeline F).SendAll rs w.clear).2.log →
      createCallsFor id
        ((ModelPipeline F).SendAll rs ((ModelPipeline F).SendAll rs w.clear).2.clear).2.log
          = 0) ∧
    (∀ pr pr2 : Product, pr2.ID = pr.ID → ((ModelPipeline F).SendToDB pr w).1 = none →
      createCalls
        ((ModelPipeline F).SendToDB pr2 ((ModelPipeline F).SendToDB pr w).2.clear).2.log
          = 0) := by
  constructor
  · intro id hset
    have h1 : setsAreCached ((ModelPipeline F).SendAll rs w.clear).2 :=
      SendAll_preserves (ModelPipeline F) setsAreCached
        (fun pr s h => model_SendToDB_setsAreCached F pr s h) rs w.clear
        (by intro id hid; simp [Traced.clear] at hid)
    have h2 : cachedAndNotCreated id ((ModelPipeline F).SendAll rs w.clear).2.clear :=
      ⟨h1 id hset, by simp [Traced.clear, createCallsFor]⟩
    exact (SendAll_preserves (ModelPipeline F) (cachedAndNotCreated id)
      (fun pr s h => model_SendToDB_cachedAndNotCreated F id pr s h) rs _ h2).2
  · intro pr pr2 hid hnil
    have hc : pr.ID ∈ ((ModelPipeline F).SendToDB pr w).2.st.cache := by
      rcases model_SendToDB_cases F pr w with ⟨e, _, hR⟩ | ⟨_, hc, hR⟩ | ⟨e, _, _, _, hR⟩ |
        ⟨e, _, _, _, _, hR⟩ | ⟨e, _, _, _, _, _, hR⟩ | ⟨_, _, _, _, _, hR⟩ <;>
        rw [hR] at hnil ⊢ <;> simp at hnil ⊢
      exact hc
    have hc2 : pr2.ID ∈ ((ModelPipeline F).SendToDB pr w).2.clear.st.cache := by
      rw [hid]; exact hc
    rcases model_SendToDB_cases F pr2 ((ModelPipeline F).SendToDB pr w).2.clear with
      ⟨e, _, hR⟩ | ⟨_, _, hR⟩ | ⟨e, _, hn, _, _⟩ | ⟨e, _, hn, _, _, _⟩ |
      ⟨e, _, hn, _, _, _, _⟩ | ⟨_, hn, _, _, _, _⟩
    · rw [hR]; simp [Traced.clear, createCalls, Event.isCreate]
    · rw [hR]; simp [Traced.clear, createCalls, Event.isCreate]
    · exact absurd hc2 hn
    · exact absurd hc2 hn
    · exact absurd hc2 hn
    · exact absurd hc2 hn

/-- The idempotence at a concrete input: the two test products sent twice, and
the first test product sent twice in a row. -/
theorem SendAll_second_pass_no_create_witness :
    createCallsFor 1
        ((ModelPipeline noFault).SendAll [product1, product2]
          ((ModelPipeline noFault).SendAll [product1, product2]
            Traced.fresh.clear).2.clear).2.log = 0 ∧
      createCalls
        ((ModelPipeline noFault).SendToDB product1
          ((ModelPipeline noFault).SendToDB product1 Traced.fresh).2.clear).2.log = 0 :=
  ⟨(SendAll_second_pass_no_create noFault [product1, product2] Traced.fresh).1 1 (by decide),
   (SendAll_second_pass_no_create noFault [product1, product2] Traced.fresh).2
     product1 product1 rfl (by decide)⟩

theorem model_SendAll_counts : ∀ (rs : List Product) (w : Traced Env),
    (∀ pr ∈ rs, pr.Validate = none) → (rs.map Product.ID).Nodup →
    (∀ pr ∈ rs, pr.ID ∉ w.st.cache) →
    ((ModelPipeline noFault).SendAll rs w).1 = List.replicate rs.length none ∧
    createCalls ((ModelPipeline noFault).SendAll rs w).2.log = createCalls w.log + rs.length ∧
    setCalls ((ModelPipeline noFault).SendAll rs w).2.log = setCalls w.log + rs.length ∧
    insertCalls ((ModelPipeline noFault).SendAll rs w).2.log = insertCalls w.log + rs.length ∧
    existsCalls ((ModelPipeline noFault).SendAll rs w).2.log = existsCalls w.log + rs.length
  | [], w, _, _, _ => by simp [Pipeline.SendAll]
  | pr :: rest, w, hValid, hNodup, hAbsent => by
    have hV : pr.Validate = none := hValid pr (List.mem_cons_self _ _)
    have hA : pr.ID ∉ w.st.cache := hAbsent pr (List.mem_cons_self _ _)
    have h1 : (ModelPipeline noFault).SendToDB pr w
        = (none, ⟨{ cache := pr.ID :: w.st.cache, rows := upsert pr w.st.rows,
                    tick := w.st.tick + 3 },
            w.log ++ [Event.cacheExists pr.ID false none, Event.insert pr none,
              Event.create pr none, Event.cacheSet pr.ID none]⟩) := by
      rw [model_SendToDB_eq]
      simp [noFault, hA, hV]
    rw [List.map_cons, List.nodup_cons] at hNodup
    have hrest := model_SendAll_counts rest
      ⟨{ cache := pr.ID :: w.st.cache, rows := upsert pr w.st.rows, tick := w.st.tick + 3 },
        w.log ++ [Event.cacheExists pr.ID false none, Event.insert pr none,
          Event.create pr none, Event.cacheSet pr.ID none]⟩
      (fun q hq => hValid q (List.mem_cons_of_mem _ hq)) hNodup.2
      (by
        intro q hq hmem
        rcases List.mem_cons.mp hmem with heq | hmem
        · exact hNodup.1 (heq ▸ List.mem_map_of_mem Product.ID hq)
        · exact hAbsent q (List.mem_cons_of_mem _ hq) hmem)
    simp only [Pipeline.SendAll, h1]
    obtain ⟨e1, e2, e3, e4, e5⟩ := hrest
    refine ⟨?_, ?_, ?_, ?_, ?_⟩
    · simp [e1, List.replicate_succ]
    · rw [e2]
      simp [createCalls, List.countP_append, List.countP_cons, Event.isCreate]
      omega
    · rw [e3]
      simp [setCalls, List.countP_append, List.countP_cons, Event.isCacheSet]
      omega
    · rw [e4]
      simp [insertCalls, List.countP_append, List.countP_cons, Event.isInsert]
      omega
    · rw [e5]
      simp [existsCalls, List.countP_append, List.countP_cons, Event.isCacheExists]
      omega

/-- Sent one after the other against the fresh world with no failing call,
`n` valid records with distinct identifiers give `n` times `nil`, `n` calls of
`CreateProduct`, `n` inserts and `n` calls of `Set`. -/
theorem model_SendAll_fresh_counts (rs : List Product)
    (hValid : ∀ pr ∈ rs, pr.Validate = none) (hNodup : (rs.map Product.ID).Nodup) :
    ((ModelPipeline noFault).SendAll rs Traced.fresh).1 = List.replicate rs.length none ∧
    createCalls ((ModelPipeline noFault).SendAll rs Traced.fresh).2.log = rs.length ∧
    setCalls ((ModelPipeline noFault).SendAll rs Traced.fresh).2.log = rs.length ∧
    insertCalls ((ModelPipeline noFault).SendAll rs Traced.fresh).2.log = rs.length := by
  have h := model_SendAll_counts rs Traced.fresh hValid hNodup
    (by intro pr _; simp [Traced.fresh])
  simpa [Traced.fresh, createCalls, setCalls, insertCalls] using
    (⟨h.1, h.2.1, h.2.2.1, h.2.2.2.1⟩ : _ ∧ _ ∧ _ ∧ _)

theorem testRecords_length (n : Nat) : (testRecords n).length = n := by
  simp [testRecords]

theorem testRecords_valid (n : Nat) : ∀ pr ∈ testRecords n, pr.Validate = none := by
  intro pr hpr
  simp only [testRecords, List.mem_map, List.mem_range] at hpr
  obtain ⟨i, _, rfl⟩ := hpr
  have hTitle : ("title" ++ toString (151000 + i) == "") = false := by
    rw [beq_eq_false_iff_ne]
    intro h
    have hlen := congrArg String.length h
    rw [String.length_append] at hlen
    have h5 : "title".length = 5 := by decide
    have h0 : "".length = 0 := by decide
    omega
  have hPrice : Float32.leZero { bits := 0x42280A3D } = false := by decide
  have hCat : ("bilgisayar" == "") = false := by decide
  have hBrand : ("brand" == "") = false := by decide
  simp [Product.Validate, testRecord, hTitle, hPrice, hCat, hBrand]

theorem testRecords_nodup (n : Nat) : ((testRecords n).map Product.ID).Nodup := by
  have h : (testRecords n).map Product.ID = (List.range n).map (fun i => 151000 + i) := by
    simp [testRecords, testRecord, Function.comp_def]
  rw [h]
  exact (List.nodup_range n).map (fun a b hab => Nat.add_left_cancel hab)

/-! ### A record with identifier 0 -/

/-- C7, as stated, fails. Sent against the fresh world with no failing call,
the zero record does fail with the validation message, but the failure comes
after a call of `Exists` on the cache: the recorded calls are that lookup and
then the `CreateProduct` that fails. So it is not true that every record with
identifier 0 fails with no cache call made. And with 0 in the cache the record
is skipped and `SendToDB` returns `nil`. -/
theorem SendToDB_id_zero_looks_up_cache_first :
    ((ModelPipeline noFault).SendToDB zeroProduct Traced.fresh).2.log
        = [Event.cacheExists 0 false none, Event.create zeroProduct (some errIDRequired)] ∧
    ((ModelPipeline noFault).SendToDB zeroProduct
        ⟨{ cache := [0], rows := [], tick := 0 }, []⟩).1 = none ∧
    ¬ (∀ (F : Nat → Option GoError) (pr : Product) (w : Traced Env), pr.ID = 0 →
        ErrorMessage ((ModelPipeline F).SendToDB pr w.clear).1 = "ID must be greater than 0." ∧
        existsCalls ((ModelPipeline F).SendToDB pr w.clear).2.log = 0 ∧
        setCalls ((ModelPipeline F).SendToDB pr w.clear).2.log = 0 ∧
        insertCalls ((ModelPipeline F).SendToDB pr w.clear).2.log = 0) := by
  refine ⟨by decide, by decide, ?_⟩
  intro h
  have h0 := (h noFault zeroProduct Traced.fresh rfl).2.1
  revert h0
  decide

/-- C7, amended. For every record with identifier 0, when the lookup goes
through and reports 0 absent, `SendToDB` fails with the validation error of
code `EINVALID` and message "ID must be greater than 0."; the calls made are
the one `Exists` lookup and the `CreateProduct` that fails; `Set` is not called,
no insert is run, and the cache and the table are unchanged. -/
theorem SendToDB_id_zero_fails_validation (F : Nat → Option GoError) (pr : Product)
    (w : Traced Env) (hID : pr.ID = 0) (hExists : F w.st.tick = none)
    (hAbsent : 0 ∉ w.st.cache) :
    ((ModelPipeline F).SendToDB pr w).1 = some errIDRequired ∧
    ErrorCode ((ModelPipeline F).SendToDB pr w).1 = EINVALID ∧
    ErrorMessage ((ModelPipeline F).SendToDB pr w).1 = "ID must be greater than 0." ∧
    ((ModelPipeline F).SendToDB pr w).2.log
      = w.log ++ [Event.cacheExists 0 false none, Event.create pr (some errIDRequired)] ∧
    ((ModelPipeline F).SendToDB pr w).2.st.cache = w.st.cache ∧
    ((ModelPipeline F).SendToDB pr w).2.st.rows = w.st.rows := by
  have hV : pr.Validate = some errIDRequired := by
    simp [Product.Validate, hID, errIDRequired]
  have h1 : (ModelPipeline F).SendToDB pr w
      = (some errIDRequired, ⟨w.st.step,
          w.log ++ [Event.cacheExists 0 false none, Event.create pr (some errIDRequired)]⟩) := by
    rw [model_SendToDB_eq]
    simp [hExists, hID, hAbsent, hV]
  rw [h1]
  exact ⟨rfl, rfl, rfl, rfl, rfl, rfl⟩

/-- The amended statement at a concrete input: the zero record against the
fresh world. -/
theorem SendToDB_id_zero_fails_validation_witness :
    ((ModelPipeline noFault).SendToDB zeroProduct Traced.fresh).1 = some errIDRequired ∧
    ErrorCode ((ModelPipeline noFault).SendToDB zeroProduct Traced.fresh).1 = EINVALID ∧
    ErrorMessage ((ModelPipeline noFault).SendToDB zeroProduct Traced.fresh).1
      = "ID must be greater than 0." ∧
    ((ModelPipeline noFault).SendToDB zeroProduct Traced.fresh).2.log
      = Traced.fresh.log ++
          [Event.cacheExists 0 false none, Event.create zeroProduct (some errIDRequired)] ∧
    ((ModelPipeline noFault).SendToDB zeroProduct Traced.fresh).2.st.cache
      = Traced.fresh.st.cache ∧
    ((ModelPipeline noFault).SendToDB zeroProduct Traced.fresh).2.st.rows
      = Traced.fresh.st.rows :=
  SendToDB_id_zero_fails_validation noFault zeroProduct Traced.fresh rfl rfl (by decide)

/-! ### Validate -/

/-- What `Validate` accepts, exactly: the price check lets through every price
for which `price <= 0` is false, and that includes NaN. -/
theorem Validate_eq_none_iff (p : Product) :
    p.Validate = none ↔
      0 < p.ID ∧ p.Title ≠ "" ∧ p.Price.leZero = false ∧ p.Category ≠ "" ∧ p.Brand ≠ "" := by
  unfold Product.Validate
  by_cases h1 : p.ID = 0
  · simp [h1]
  · by_cases h2 : p.Title = ""
    · simp [h1, h2]
    · by_cases h3 : p.Price.leZero = true
      · simp [h1, h2, h3]
      · by_cases h4 : p.Category = ""
        · simp [h1, h2, h3, h4]
        · by_cases h5 : p.Brand = ""
          · simp [h1, h2, h3, h4, h5]
          · simp [h1, h2, h3, h4, h5, Nat.pos_of_ne_zero h1]

/-- For a price that is not NaN, `price <= 0` is false exactly when
`price > 0` is true. -/
theorem Float32.leZero_eq_false_iff (x : Float32) (h : x.isNaN = false) :
    x.leZero = false ↔ x.gtZero = true := by
  have hs : x.sign = 0 ∨ x.sign = 1 := by
    have : x.sign < 2 := by
      unfold Float32.sign
      omega
    omega
  unfold Float32.leZero Float32.gtZero
  rcases hs with hs | hs <;> cases hz : x.isZero <;> simp [h, hs, hz]

/-- For every record whose price is not NaN, `Validate` returns no error
exactly when the record satisfies the constraints. -/
theorem Validate_eq_none_iff_of_not_nan (p : Product) (h : p.Price.isNaN = false) :
    p.Validate = none ↔ satisfiesConstraints p := by
  rw [Validate_eq_none_iff, Float32.leZero_eq_false_iff _ h]
  rfl

/-- C9 fails on the code at a NaN price: the record `nanPriced` does not
satisfy the constraint price above 0, and `Validate` returns no error for it. -/
theorem Validate_accepts_nan_price :
    nanPriced.Price.gtZero = false ∧ ¬ satisfiesConstraints nanPriced ∧
      nanPriced.Validate = none ∧
      ¬ (∀ p : Product, p.Validate = none ↔ satisfiesConstraints p) := by
  have h1 : nanPriced.Price.gtZero = false := by decide
  have h2 : ¬ satisfiesConstraints nanPriced := by
    intro h
    have := h.2.2.1
    rw [h1] at this
    exact Bool.false_ne_true this
  have h3 : nanPriced.Validate = none := by decide
  exact ⟨h1, h2, h3, fun h => h2 ((h nanPriced).mp h3)⟩

/-- For every record whose price is not NaN, `Validate` reports the first
violated constraint: no error when there is none, else the error of code
`EINVALID` with the message of that constraint. -/
theorem Validate_eq_firstViolation_of_not_nan (p : Product) (h : p.Price.isNaN = false) :
    p.Validate = (firstViolation p).map (fun m => GoError.app (Errorf EINVALID m)) := by
  have hPrice : (¬ p.Price.gtZero = true) ↔ p.Price.leZero = true := by
    rw [← Float32.leZero_eq_false_iff _ h]
    simp
  unfold Product.Validate firstViolation
  by_cases h1 : p.ID = 0
  · simp [h1]
  · have h1p : 0 < p.ID := Nat.pos_of_ne_zero h1
    by_cases h2 : p.Title = ""
    · simp [h1, h2]
    · by_cases h3 : p.Price.leZero = true
      · simp [h1, h1p, h2, h3, hPrice]
      · by_cases h4 : p.Category = ""
        · simp [h1, h1p, h2, h3, h4, hPrice]
        · by_cases h5 : p.Brand = ""
          · simp [h1, h1p, h2, h3, h4, h5, hPrice]
          · simp [h1, h1p, h2, h3, h4, h5, hPrice]

/-- The example of the claim: a record with identifier 0 and an empty title
gets the identifier message. -/
theorem Validate_zero_id_empty_title (p : Product) (hID : p.ID = 0) :
    p.Validate = some (GoError.app (Errorf EINVALID "ID must be greater than 0.")) := by
  simp [Product.Validate, hID]

/-- C10 fails on the code at a NaN price. The record `nanPricedNoCategory`
violates the price constraint first and the category constraint after it, and
`Validate` returns the category message for it; the record `nanPriced` violates
the price constraint only, and `Validate` returns no error for it. -/
theorem Validate_nan_price_skips_price_message :
    firstViolation nanPricedNoCategory = some "Price must be greater than zero." ∧
    nanPricedNoCategory.Validate
      = some (GoError.app (Errorf EINVALID "Category must not be empty.")) ∧
    firstViolation nanPriced = some "Price must be greater than zero." ∧
    nanPriced.Validate = none := by
  refine ⟨by decide, by decide, by decide, by decide⟩

/-! ### SendToDB calls running concurrently -/

/-- Three steps of a worker from `start` are one call of `SendToDB`. -/
theorem stepWorker_three_eq_SendToDB {σ : Type} (p : Pipeline σ) (pr : Product) (s : σ) :
    p.stepWorker (p.stepWorker (p.stepWorker (Worker.start pr) s).1
        (p.stepWorker (Worker.start pr) s).2).1
      (p.stepWorker (p.stepWorker (Worker.start pr) s).1
        (p.stepWorker (Worker.start pr) s).2).2
      = (Worker.done (p.SendToDB pr s).1, (p.SendToDB pr s).2) := by
  rcases hx : p.CacheService.Exists pr.ID s with ⟨⟨ok, err⟩, s1⟩
  rcases hc : p.ProductService.CreateProduct pr s1 with ⟨err2, s2⟩
  cases ok <;> cases err <;> cases err2 <;>
    simp [Pipeline.stepWorker, Pipeline.SendToDB, hx, hc]

theorem model_stepWorker_start (pr : Product) (w : Traced Env) (h : pr.ID ∉ w.st.cache) :
    (ModelPipeline noFault).stepWorker (Worker.start pr) w
      = (Worker.looked pr, ⟨w.st.step, w.log ++ [Event.cacheExists pr.ID false none]⟩) := by
  simp [Pipeline.stepWorker, ModelPipeline, Cache.spy, Cache.lift, ModelCache, noFault,
    Traced.record, h]

theorem model_stepWorker_looked (pr : Product) (w : Traced Env) (h : pr.Validate = none) :
    (ModelPipeline noFault).stepWorker (Worker.looked pr) w
      = (Worker.created pr, ⟨{ w.st.step with rows := upsert pr w.st.rows },
          w.log ++ [Event.insert pr none, Event.create pr none]⟩) := by
  simp [Pipeline.stepWorker, ModelPipeline, ProductService.spy, cassandra.NewProductService,
    cassandra.ProductService.CreateProduct, Session.spy, Session.lift, ModelSession, noFault,
    Traced.record, h, upsert, Env.step]

theorem model_stepWorker_created (pr : Product) (w : Traced Env) :
    (ModelPipeline noFault).stepWorker (Worker.created pr) w
      = (Worker.done none, ⟨{ w.st.step with cache := pr.ID :: w.st.cache },
          w.log ++ [Event.cacheSet pr.ID none]⟩) := by
  simp [Pipeline.stepWorker, ModelPipeline, Cache.spy, Cache.lift, ModelCache, noFault,
    Traced.record, Env.step]

theorem index_eq_of_ID_eq (rs : List Product) (hNodup : (rs.map Product.ID).Nodup)
    (i j : Nat) (a b : Product) (hi : rs[i]? = some a) (hj : rs[j]? = some b)
    (hab : a.ID = b.ID) : i = j := by
  obtain ⟨hi', rfl⟩ := List.getElem?_eq_some.mp hi
  obtain ⟨hj', rfl⟩ := List.getElem?_eq_some.mp hj
  have h1 : i < (rs.map Product.ID).length := by simpa using hi'
  have h2 : j < (rs.map Product.ID).length := by simpa using hj'
  have h3 : (rs.map Product.ID)[i] = (rs.map Product.ID)[j] := by simpa using hab
  exact (List.Nodup.getElem_inj_iff hNodup).mp h3

theorem countP_set_add (q : Worker → Bool) (ws : List Worker) (i : Nat) (old new : Worker)
    (hold : ws[i]? = some old) :
    (ws.set i new).countP q + (if q old then 1 else 0)
      = ws.countP q + (if q new then 1 else 0) := by
  obtain ⟨hi, rfl⟩ := List.getElem?_eq_some.mp hold
  have h1 := List.countP_set q ws i new hi
  have h2 := List.boole_getElem_le_countP q ws i hi
  omega

/-- The invariant after worker `i` has moved from `old` to `new` and the world
from `w` to `v`. -/
theorem PoolInv_advance (rs : List Product) (ws : List Worker) (w v : Traced Env)
    (hInv : PoolInv rs ws w) (i : Nat) (pr : Product) (hpr : rs[i]? = some pr)
    (old new : Worker) (hold : ws[i]? = some old)
    (hnew : new = Worker.looked pr ∨ new = Worker.created pr ∨ new = Worker.done none)
    (hdone : old = Worker.done none → new = Worker.done none)
    (hcache : ∀ id ∈ v.st.cache, id ∈ w.st.cache ∨ (id = pr.ID ∧ new = Worker.done none))
    (hE : existsCalls v.log + (if 1 ≤ old.phase then 1 else 0)
      = existsCalls w.log + (if 1 ≤ new.phase then 1 else 0))
    (hC : createCalls v.log + (if 2 ≤ old.phase then 1 else 0)
      = createCalls w.log + (if 2 ≤ new.phase then 1 else 0))
    (hI : insertCalls v.log + (if 2 ≤ old.phase then 1 else 0)
      = insertCalls w.log + (if 2 ≤ new.phase then 1 else 0))
    (hS : setCalls v.log + (if 3 ≤ old.phase then 1 else 0)
      = setCalls w.log + (if 3 ≤ new.phase then 1 else 0)) :
    PoolInv rs (ws.set i new) v := by
  have hi : i < ws.length := (List.getElem?_eq_some.mp hold).1
  have hself : (ws.set i new)[i]? = some new := List.getElem?_set_self hi
  refine ⟨by simp [hInv.len], ?_, ?_, ?_, ?_, ?_, ?_⟩
  · intro k q hq
    by_cases hk : k = i
    · subst hk
      have hqp : q = pr := by
        rw [hpr] at hq
        exact (Option.some.inj hq).symm
      subst hqp
      rw [hself]
      rcases hnew with h | h | h
      · exact Or.inr (Or.inl (by rw [h]))
      · exact Or.inr (Or.inr (Or.inl (by rw [h])))
      · exact Or.inr (Or.inr (Or.inr (by rw [h])))
    · rw [List.getElem?_set_ne (Ne.symm hk)]
      exact hInv.own k q hq
  · intro id hid
    rcases hcache id hid with hmem | ⟨rfl, hn⟩
    · obtain ⟨j, q, hj, hq, hjdone⟩ := hInv.cached id hmem
      refine ⟨j, q, hj, hq, ?_⟩
      by_cases hji : j = i
      · subst hji
        rw [hold] at hjdone
        rw [hself, hdone (Option.some.inj hjdone)]
      · rw [List.getElem?_set_ne (Ne.symm hji)]
        exact hjdone
    · exact ⟨i, pr, hpr, rfl, by rw [hself, hn]⟩
  · have h := countP_set_add (fun wk => decide (1 ≤ wk.phase)) ws i old new hold
    have h0 := hInv.nExists
    simp only [decide_eq_true_eq] at h
    omega
  · have h := countP_set_add (fun wk => decide (2 ≤ wk.phase)) ws i old new hold
    have h0 := hInv.nCreate
    simp only [decide_eq_true_eq] at h
    omega
  · have h := countP_set_add (fun wk => decide (2 ≤ wk.phase)) ws i old new hold
    have h0 := hInv.nInsert
    simp only [decide_eq_true_eq] at h
    omega
  · have h := countP_set_add (fun wk => decide (3 ≤ wk.phase)) ws i old new hold
    have h0 := hInv.nSet
    simp only [decide_eq_true_eq] at h
    omega

/-- One step of any worker keeps the invariant and moves the worker on, unless
it has returned. -/
theorem PoolInv_step (rs : List Product) (hValid : ∀ pr ∈ rs, pr.Validate = none)
    (hNodup : (rs.map Product.ID).Nodup) (ws : List Worker) (w : Traced Env)
    (hInv : PoolInv rs ws w) (i : Nat) (wk : Worker) (hwk : ws[i]? = some wk) :
    PoolInv rs (ws.set i ((ModelPipeline noFault).stepWorker wk w).1)
        ((ModelPipeline noFault).stepWorker wk w).2 ∧
      min 3 (wk.phase + 1) ≤ ((ModelPipeline noFault).stepWorker wk w).1.phase := by
  have hi : i < ws.length := (List.getElem?_eq_some.mp hwk).1
  have hri : i < rs.length := hInv.len ▸ hi
  have hpr : rs[i]? = some rs[i] := List.getElem?_eq_getElem hri
  have hV : rs[i].Validate = none := hValid _ (List.getElem_mem hri)
  rcases hInv.own i rs[i] hpr with h | h | h | h
  · have hw : wk = Worker.start rs[i] := Option.some.inj (hwk.symm.trans h)
    subst hw
    have hA : rs[i].ID ∉ w.st.cache := by
      intro hmem
      obtain ⟨j, q, hj, hq, hjdone⟩ := hInv.cached _ hmem
      have hji := index_eq_of_ID_eq rs hNodup j i q rs[i] hj hpr hq
      subst hji
      rw [hwk] at hjdone
      cases hjdone
    rw [model_stepWorker_start _ _ hA]
    refine ⟨PoolInv_advance rs ws w _ hInv i rs[i] hpr _ _ hwk (Or.inl rfl)
      (by intro h; cases h) (by intro id hid; exact Or.inl hid) ?_ ?_ ?_ ?_, by
      simp [Worker.phase]⟩ <;>
    simp [existsCalls, createCalls, insertCalls, setCalls, Event.isCacheExists, Event.isCreate,
      Event.isInsert, Event.isCacheSet, Worker.phase, List.countP_append]
  · have hw : wk = Worker.looked rs[i] := Option.some.inj (hwk.symm.trans h)
    subst hw
    rw [model_stepWorker_looked _ _ hV]
    refine ⟨PoolInv_advance rs ws w _ hInv i rs[i] hpr _ _ hwk (Or.inr (Or.inl rfl))
      (by intro h; cases h) (by intro id hid; exact Or.inl hid) ?_ ?_ ?_ ?_, by
      simp [Worker.phase]⟩ <;>
    simp [existsCalls, createCalls, insertCalls, setCalls, Event.isCacheExists, Event.isCreate,
      Event.isInsert, Event.isCacheSet, Worker.phase, List.countP_append, List.countP_cons]
  · have hw : wk = Worker.created rs[i] := Option.some.inj (hwk.symm.trans h)
    subst hw
    rw [model_stepWorker_created]
    refine ⟨PoolInv_advance rs ws w _ hInv i rs[i] hpr _ _ hwk (Or.inr (Or.inr rfl))
      (by intro h; cases h)
      (by
        intro id hid
        rcases List.mem_cons.mp hid with h1 | h1
        · exact Or.inr ⟨h1, rfl⟩
        · exact Or.inl h1) ?_ ?_ ?_ ?_, by
      simp [Worker.phase]⟩ <;>
    simp [existsCalls, createCalls, insertCalls, setCalls, Event.isCacheExists, Event.isCreate,
      Event.isInsert, Event.isCacheSet, Worker.phase, List.countP_append]
  · have hw : wk = Worker.done none := Option.some.inj (hwk.symm.trans h)
    subst hw
    refine ⟨PoolInv_advance rs ws w _ hInv i rs[i] hpr _ _ hwk (Or.inr (Or.inr rfl))
      (fun _ => rfl) (by intro id hid; exact Or.inl hid) ?_ ?_ ?_ ?_, by
      simp [Worker.phase, Pipeline.stepWorker]⟩ <;>
    simp [Pipeline.stepWorker]

/-- Any schedule keeps the invariant, and a worker scheduled `k` times has made
`k` steps, or has returned. -/
theorem PoolInv_run (rs : List Product) (hValid : ∀ pr ∈ rs, pr.Validate = none)
    (hNodup : (rs.map Product.ID).Nodup) :
    ∀ (sch : List Nat) (ws : List Worker) (w : Traced Env), PoolInv rs ws w →
      PoolInv rs ((ModelPipeline noFault).runWorkers sch ws w).1
          ((ModelPipeline noFault).runWorkers sch ws w).2 ∧
        ∀ (i : Nat) (wk : Worker), ws[i]? = some wk →
          ∃ wk2, ((ModelPipeline noFault).runWorkers sch ws w).1[i]? = some wk2 ∧
            min 3 (wk.phase + sch.count i) ≤ wk2.phase
  | [], ws, w, hInv => by
    refine ⟨hInv, ?_⟩
    intro i wk hwk
    exact ⟨wk, hwk, by simp⟩
  | j :: sch, ws, w, hInv => by
    cases hj : ws[j]? with
    | none =>
      have ih := PoolInv_run rs hValid hNodup sch ws w hInv
      simp only [Pipeline.runWorkers, hj]
      refine ⟨ih.1, ?_⟩
      intro i wk hwk
      have hne : j ≠ i := by
        intro h
        subst h
        rw [hj] at hwk
        cases hwk
      obtain ⟨wk2, h1, h2⟩ := ih.2 i wk hwk
      refine ⟨wk2, h1, ?_⟩
      rw [List.count_cons]
      simp [hne]
      omega
    | some wj =>
      have hstep := PoolInv_step rs hValid hNodup ws w hInv j wj hj
      have ih := PoolInv_run rs hValid hNodup sch _ _ hstep.1
      simp only [Pipeline.runWorkers, hj]
      refine ⟨ih.1, ?_⟩
      intro i wk hwk
      by_cases hji : j = i
      · subst hji
        have hw : wk = wj := Option.some.inj (hwk.symm.trans hj)
        subst hw
        have hjlt : j < ws.length := (List.getElem?_eq_some.mp hj).1
        obtain ⟨wk2, h1, h2⟩ := ih.2 j _ (List.getElem?_set_self hjlt)
        refine ⟨wk2, h1, ?_⟩
        rw [List.count_cons]
        have h3 := hstep.2
        simp
        omega
      · obtain ⟨wk2, h1, h2⟩ := ih.2 i wk (by rw [List.getElem?_set_ne hji]; exact hwk)
        refine ⟨wk2, h1, ?_⟩
        rw [List.count_cons]
        simp [hji]
        omega

/-- The pool at the start: one worker per record, none has made a step. -/
theorem PoolInv_fresh (rs : List Product) : PoolInv rs (rs.map Worker.start) Traced.fresh := by
  refine ⟨by simp, ?_, ?_, ?_, ?_, ?_, ?_⟩
  · intro i pr hpr
    exact Or.inl (by simp [List.getElem?_map, hpr])
  · intro id hid
    simp [Traced.fresh] at hid
  all_goals
    simp [Traced.fresh, existsCalls, createCalls, insertCalls, setCalls, List.countP_map,
      Function.comp_def, Worker.phase]

/-- Run as concurrent workers against the fresh world with no failing call,
under any schedule that lets every worker make three steps, `n` valid records
with distinct identifiers end with every worker returned with `nil`, after `n`
calls of `CreateProduct`, `n` inserts and `n` calls of `Set`. -/
theorem model_runWorkers_fresh_counts (rs : List Product)
    (hValid : ∀ pr ∈ rs, pr.Validate = none) (hNodup : (rs.map Product.ID).Nodup)
    (sch : List Nat) (hFair : ∀ i < rs.length, 3 ≤ sch.count i) :
    ((ModelPipeline noFault).runWorkers sch (rs.map Worker.start) Traced.fresh).1
        = List.replicate rs.length (Worker.done none) ∧
    createCalls ((ModelPipeline noFault).runWorkers sch (rs.map Worker.start)
        Traced.fresh).2.log = rs.length ∧
    setCalls ((ModelPipeline noFault).runWorkers sch (rs.map Worker.start)
        Traced.fresh).2.log = rs.length ∧
    insertCalls ((ModelPipeline noFault).runWorkers sch (rs.map Worker.start)
        Traced.fresh).2.log = rs.length := by
  obtain ⟨hInv, hprog⟩ := PoolInv_run rs hValid hNodup sch _ _ (PoolInv_fresh rs)
  have hall : ((ModelPipeline noFault).runWorkers sch (rs.map Worker.start) Traced.fresh).1
      = List.replicate rs.length (Worker.done none) := by
    apply List.ext_getElem?
    intro i
    by_cases hi : i < rs.length
    · have hpr : rs[i]? = some rs[i] := List.getElem?_eq_getElem hi
      obtain ⟨wk2, h1, h2⟩ := hprog i (Worker.start rs[i]) (by simp [List.getElem?_map, hpr])
      have h3 := hFair i hi
      have h0 : (Worker.start rs[i]).phase = 0 := rfl
      have hph : 3 ≤ wk2.phase := by
        rw [h0] at h2
        omega
      have hrep : (List.replicate rs.length (Worker.done none))[i]? = some (Worker.done none) := by
        simp [List.getElem?_replicate, hi]
      rw [hrep]
      rcases hInv.own i rs[i] hpr with h | h | h | h
      · rw [h1] at h; cases h; simp [Worker.phase] at hph
      · rw [h1] at h; cases h; simp [Worker.phase] at hph
      · rw [h1] at h; cases h; simp [Worker.phase] at hph
      · exact h
    · rw [List.getElem?_eq_none (by rw [hInv.len]; omega),
        List.getElem?_eq_none (by simp; omega)]
  refine ⟨hall, ?_, ?_, ?_⟩
  · rw [hInv.nCreate, hall]
    simp [List.countP_replicate, Worker.phase]
  · rw [hInv.nSet, hall]
    simp [List.countP_replicate, Worker.phase]
  · rw [hInv.nInsert, hall]
    simp [List.countP_replicate, Worker.phase]

theorem roundRobin_fair (n : Nat) : ∀ i < n, 3 ≤ (roundRobin n).count i := by
  intro i hi
  have h1 : (List.range n).count i = 1 :=
    List.count_eq_one_of_mem (List.nodup_range n) (List.mem_range.mpr hi)
  simp [roundRobin, List.count_append, h1]

/-- Distinct identifiers are needed: two concurrent `SendToDB` calls for the same
identifier, interleaved so that both look up the cache before either marks it,
both call `CreateProduct`; sent one after the other, the second is skipped. -/
theorem same_ID_race_creates_twice :
    createCalls ((ModelPipeline noFault).runWorkers [0, 1, 0, 1, 0, 1]
        ([product1, product1].map Worker.start) Traced.fresh).2.log = 2 ∧
    createCalls ((ModelPipeline noFault).SendAll [product1, product1] Traced.fresh).2.log
        = 1 := by
  decide

/-- Whatever the three port operations preserve, a step of a worker
preserves. -/
theorem stepWorker_preserves {σ : Type} (p : Pipeline σ) (Inv : σ → Prop)
    (hE : ∀ id s, Inv s → Inv (p.CacheService.Exists id s).2)
    (hS : ∀ id s, Inv s → Inv (p.CacheService.Set id s).2)
    (hC : ∀ pr s, Inv s → Inv (p.ProductService.CreateProduct pr s).2)
    (wk : Worker) (s : σ) (h : Inv s) : Inv (p.stepWorker wk s).2 := by
  cases wk with
  | start pr =>
    have h1 := hE pr.ID s h
    rcases hx : p.CacheService.Exists pr.ID s with ⟨⟨ok, err⟩, s1⟩
    rw [hx] at h1
    cases ok <;> cases err <;> simpa [Pipeline.stepWorker, hx] using h1
  | looked pr =>
    have h1 := hC pr s h
    rcases hc : p.ProductService.CreateProduct pr s with ⟨err, s2⟩
    rw [hc] at h1
    cases err <;> simpa [Pipeline.stepWorker, hc] using h1
  | created pr => exact hS pr.ID s h
  | done err => exact h

/-- Whatever a step of a worker preserves, a schedule of steps preserves. -/
theorem runWorkers_preserves {σ : Type} (p : Pipeline σ) (Inv : σ → Prop)
    (hstep : ∀ wk s, Inv s → Inv (p.stepWorker wk s).2) :
    ∀ (sch : List Nat) (ws : List Worker) (s : σ), Inv s → Inv (p.runWorkers sch ws s).2
  | [], _, _, h => h
  | i :: sch, ws, s, h => by
    cases hi : ws[i]? with
    | none =>
      simp only [Pipeline.runWorkers, hi]
      exact runWorkers_preserves p Inv hstep sch ws s h
    | some wk =>
      simp only [Pipeline.runWorkers, hi]
      exact runWorkers_preserves p Inv hstep sch _ _ (hstep wk s h)

theorem model_Exists_cache (F : Nat → Option GoError) (k : Nat) (w : Traced Env) :
    ((ModelPipeline F).CacheService.Exists k w).2.st.cache = w.st.cache := by
  simp only [ModelPipeline, Cache.spy, Cache.lift, ModelCache, Traced.record]
  cases F w.st.tick <;> rfl

theorem model_CreateProduct_cache (F : Nat → Option GoError) (pr : Product) (w : Traced Env) :
    ((ModelPipeline F).ProductService.CreateProduct pr w).2.st.cache = w.st.cache := by
  simp only [ModelPipeline, ProductService.spy, cassandra.NewProductService,
    cassandra.ProductService.CreateProduct, Session.spy, Session.lift, ModelSession,
    Traced.record]
  cases pr.Validate with
  | some e => rfl
  | none => cases F w.st.tick <;> rfl

theorem model_Set_cache (F : Nat → Option GoError) (k id : Nat) (w : Traced Env)
    (h : id ∈ w.st.cache) : id ∈ ((ModelPipeline F).CacheService.Set k w).2.st.cache := by
  simp only [ModelPipeline, Cache.spy, Cache.lift, ModelCache, Traced.record]
  cases F w.st.tick with
  | some e => exact h
  | none => exact List.mem_cons_of_mem _ h

/-- C8. The core never invalidates the cache, over the in-memory cache and
store and whatever calls fail: an identifier in the cache before `SendToDB`
runs is in the cache after it, for every record; so it is after any sequence
of `SendToDB` calls, and after any interleaving of the port calls of
concurrent `SendToDB` calls. -/
theorem cache_membership_monotone (F : Nat → Option GoError) (w : Traced Env) (id : Nat)
    (h : id ∈ w.st.cache) :
    (∀ pr : Product, id ∈ ((ModelPipeline F).SendToDB pr w).2.st.cache) ∧
    (∀ rs : List Product, id ∈ ((ModelPipeline F).SendAll rs w).2.st.cache) ∧
    (∀ (sch : List Nat) (ws : List Worker),
      id ∈ ((ModelPipeline F).runWorkers sch ws w).2.st.cache) :=
  ⟨fun pr => model_SendToDB_cache_mono F pr w id h,
   fun rs => SendAll_preserves (ModelPipeline F) (fun s => id ∈ s.st.cache)
     (fun pr s hs => model_SendToDB_cache_mono F pr s id hs) rs w h,
   fun sch ws => runWorkers_preserves (ModelPipeline F) (fun s => id ∈ s.st.cache)
     (fun wk s hs => stepWorker_preserves (ModelPipeline F) (fun s => id ∈ s.st.cache)
       (fun k s hs => by
         show id ∈ _
         rw [model_Exists_cache]
         exact hs)
       (fun k s hs => model_Set_cache F k id s hs)
       (fun pr s hs => by
         show id ∈ _
         rw [model_CreateProduct_cache]
         exact hs) wk s hs) sch ws w h⟩

/-- The monotonicity at a concrete input: identifier 7 in the cache, the first
call failing. -/
theorem cache_membership_monotone_witness :
    (∀ pr : Product, 7 ∈ ((ModelPipeline (faultAt 0 (GoError.leaf "redis: down"))).SendToDB pr
        ⟨{ cache := [7], rows := [], tick := 0 }, []⟩).2.st.cache) ∧
    (∀ rs : List Product, 7 ∈ ((ModelPipeline (faultAt 0 (GoError.leaf "redis: down"))).SendAll
        rs ⟨{ cache := [7], rows := [], tick := 0 }, []⟩).2.st.cache) ∧
    (∀ (sch : List Nat) (ws : List Worker),
      7 ∈ ((ModelPipeline (faultAt 0 (GoError.leaf "redis: down"))).runWorkers sch ws
        ⟨{ cache := [7], rows := [], tick := 0 }, []⟩).2.st.cache) :=
  cache_membership_monotone (faultAt 0 (GoError.leaf "redis: down"))
    ⟨{ cache := [7], rows := [], tick := 0 }, []⟩ 7 (by decide)

/-! ### The float32 comparisons against the values -/

/-- On a finite float32 the two comparisons of the embedding are the
comparisons of the value with 0. -/
theorem Float32.compare_zero_of_value (x : Float32) (q : ℚ) (h : x.value? = some q) :
    (x.leZero = true ↔ q ≤ 0) ∧ (x.gtZero = true ↔ 0 < q) := by
  have key : ∃ m : ℚ, 0 ≤ m ∧ (m = 0 ↔ x.isZero = true) ∧ x.isNaN = false ∧
      q = (if x.sign = 1 then -1 else 1) * m := by
    unfold Float32.value? at h
    by_cases he : x.expField = 255
    · simp [he] at h
    · rw [if_neg he] at h
      have hq := (Option.some.inj h).symm
      have hnan : x.isNaN = false := by simp [Float32.isNaN, he]
      by_cases hz : x.expField = 0
      · rw [if_pos hz] at hq
        refine ⟨_, by positivity, ?_, hnan, hq⟩
        have hpow : (2 : ℚ) ^ (-149 : ℤ) ≠ 0 := by positivity
        have hiz : (x.isZero = true) ↔ x.frac = 0 := by simp [Float32.isZero, hz]
        rw [hiz, mul_eq_zero]
        constructor
        · intro h0
          rcases h0 with h0 | h0
          · exact_mod_cast h0
          · exact absurd h0 hpow
        · intro h0
          left
          exact_mod_cast h0
      · rw [if_neg hz] at hq
        refine ⟨_, by positivity, ?_, hnan, hq⟩
        have hpos : (0 : ℚ) < ((2 ^ 23 + x.frac : ℕ) : ℚ) * 2 ^ ((x.expField : ℤ) - 150) := by
          have : (0 : ℚ) < ((2 ^ 23 + x.frac : ℕ) : ℚ) := by
            exact_mod_cast Nat.add_pos_left (by norm_num) _
          positivity
        constructor
        · intro h0
          exact absurd h0 (ne_of_gt hpos)
        · intro h0
          simp [Float32.isZero, hz] at h0
  obtain ⟨m, hm0, hmz, hnan, hq⟩ := key
  have hs : x.sign = 0 ∨ x.sign = 1 := by
    have : x.sign < 2 := by
      unfold Float32.sign
      omega
    omega
  rcases hs with hs | hs
  · have hq1 : q = m := by simp [hq, hs]
    rw [hq1]
    cases hzero : x.isZero
    · have hne : m ≠ 0 := fun h0 => by
        have := hmz.mp h0
        rw [hzero] at this
        exact Bool.false_ne_true this
      have hpos : 0 < m := lt_of_le_of_ne hm0 (Ne.symm hne)
      simp only [Float32.leZero, Float32.gtZero, hnan, hzero, hs]
      constructor
      · simp
        exact hpos
      · simp
        exact hpos
    · have h0 : m = 0 := hmz.mpr hzero
      simp [Float32.leZero, Float32.gtZero, hnan, hzero, hs, h0]
  · have hq1 : q = -m := by simp [hq, hs]
    rw [hq1]
    simp only [Float32.leZero, Float32.gtZero, hnan, hs]
    constructor
    · simp
      exact hm0
    · simp
      exact hm0

/-- The comparisons at the values that are not finite: positive infinity is
above 0, negative infinity is not, and a NaN is neither `<= 0` nor `> 0`. -/
theorem Float32.compare_zero_not_finite (x : Float32) (h : x.isNaN = true) :
    (x.leZero = false ∧ x.gtZero = false) ∧
    (Float32.posInf.leZero = false ∧ Float32.posInf.gtZero = true) ∧
    (Float32.negInf.leZero = true ∧ Float32.negInf.gtZero = false) := by
  refine ⟨by simp [Float32.leZero, Float32.gtZero, h], by decide, by decide⟩

/-! ### CreateProduct -/

/-- C11. `CreateProduct` validates before any write, over every database
session and every state: for a record for which `Validate` returns an error
`e`, `CreateProduct` returns exactly `e`, runs no insert and leaves the state as
it was; for a record that passes validation it runs the insert once and
returns what the insert returns. -/
theorem CreateProduct_validates_before_insert {σ : Type} (db : Session σ) (p : Product)
    (s : σ) (log : List Event) :
    (∀ e, p.Validate = some e →
      (cassandra.NewProductService ((db.lift).spy)).CreateProduct p ⟨s, log⟩
        = (some e, ⟨s, log⟩)) ∧
    (p.Validate = none →
      (cassandra.NewProductService ((db.lift).spy)).CreateProduct p ⟨s, log⟩
        = ((db.Exec p s).1, ⟨(db.Exec p s).2, log ++ [Event.insert p (db.Exec p s).1]⟩)) ∧
    (∀ q err, Event.insert q err ∈
        ((cassandra.NewProductService ((db.lift).spy)).CreateProduct p ⟨s, []⟩).2.log →
      p.Validate = none) := by
  refine ⟨?_, ?_, ?_⟩
  · intro e he
    simp [cassandra.NewProductService, cassandra.ProductService.CreateProduct, he]
  · intro he
    simp [cassandra.NewProductService, cassandra.ProductService.CreateProduct, he,
      Session.spy, Session.lift, Traced.record]
  · intro q err hmem
    cases hV : p.Validate with
    | none => rfl
    | some e =>
      simp [cassandra.NewProductService, cassandra.ProductService.CreateProduct, hV] at hmem

/-- The validation before the insert at concrete inputs: the zero record of the
test `ErrIDRequired` against the in-memory session, and the first test
product. -/
theorem CreateProduct_validates_before_insert_witness :
    (cassandra.NewProductService (((ModelSession noFault).lift).spy)).CreateProduct zeroProduct
        Traced.fresh = (some errIDRequired, Traced.fresh) ∧
    (cassandra.NewProductService (((ModelSession noFault).lift).spy)).CreateProduct product1
        Traced.fresh
      = (((ModelSession noFault).Exec product1 Traced.fresh.st).1,
          ⟨((ModelSession noFault).Exec product1 Traced.fresh.st).2,
            [] ++ [Event.insert product1
              ((ModelSession noFault).Exec product1 Traced.fresh.st).1]⟩) :=
  ⟨(CreateProduct_validates_before_insert (ModelSession noFault) zeroProduct
      Traced.fresh.st []).1 errIDRequired (by decide),
   (CreateProduct_validates_before_insert (ModelSession noFault) product1
      Traced.fresh.st []).2.1 (by decide)⟩

/-! ### LoadFiles -/

/-- C12. `LoadFiles` returns an error if and only if the list of keys is empty;
then the error is the one with the text "no sources provided", both channels
are nil, and `Get` is not called: the state and the recorded calls of the
fetcher are as they were. -/
theorem LoadFiles_error_iff_no_keys {σ : Type} (f : Fetch σ) (n : Nat) (keys : List String)
    (s : σ) (calls : List String) :
    ((Pipeline.LoadFiles f.spy n keys (s, calls)).1.2.2 ≠ none ↔ keys = []) ∧
    (keys = [] →
      Pipeline.LoadFiles f.spy n keys (s, calls)
        = ((none, none, some (errors.New "no sources provided")), (s, calls)) ∧
      (Pipeline.LoadFiles f.spy n keys (s, calls)).1.2.2.map GoError.Error
        = some "no sources provided") := by
  cases keys with
  | nil => simp [Pipeline.LoadFiles, errors.New, GoError.Error]
  | cons k rest =>
    by_cases hn : n = 0
    · simp [Pipeline.LoadFiles, hn]
    · simp [Pipeline.LoadFiles, hn]

/-- The empty list of keys at a concrete fetcher: the error, nil channels and
no call of `Get`. -/
theorem LoadFiles_error_iff_no_keys_witness :
    Pipeline.LoadFiles (filesFetch [("a.jsonl", bytesOf "x")] : Fetch Unit).spy 4 [] ((), [])
        = ((none, none, some (errors.New "no sources provided")), ((), [])) ∧
      (Pipeline.LoadFiles (filesFetch [("a.jsonl", bytesOf "x")] : Fetch Unit).spy 4 []
          ((), [])).1.2.2.map GoError.Error = some "no sources provided" :=
  (LoadFiles_error_iff_no_keys (filesFetch [("a.jsonl", bytesOf "x")] : Fetch Unit) 4 []
    () []).2 rfl

/-- The fetch goroutines send one payload per key, whether `Get` fails or not,
and one error per failed `Get`. -/
theorem LoadFiles_fetch_counts {σ : Type} (f : Fetch σ) :
    ∀ (keys : List String) (s : σ),
      (Pipeline.LoadFiles.fetch f keys s).1.1.length = keys.length ∧
      (successfulPayloads f keys s).length + (Pipeline.LoadFiles.fetch f keys s).1.2.length
        = keys.length
  | [], s => by simp [Pipeline.LoadFiles.fetch, successfulPayloads]
  | path :: rest, s => by
    rcases hg : f.Get path s with ⟨⟨data, err⟩, s1⟩
    have ih := LoadFiles_fetch_counts f rest s1
    cases err with
    | none =>
      simp only [Pipeline.LoadFiles.fetch, successfulPayloads, hg, List.length_cons]
      omega
    | some e =>
      simp only [Pipeline.LoadFiles.fetch, successfulPayloads, hg, List.length_cons]
      omega

/-- When no `Get` fails, the payloads sent are the payloads the calls of `Get`
returned, in the order of the keys. -/
theorem LoadFiles_fetch_of_no_failure {σ : Type} (f : Fetch σ) :
    ∀ (keys : List String) (s : σ), (Pipeline.LoadFiles.fetch f keys s).1.2 = [] →
      (Pipeline.LoadFiles.fetch f keys s).1.1 = successfulPayloads f keys s
  | [], s, _ => by simp [Pipeline.LoadFiles.fetch, successfulPayloads]
  | path :: rest, s, h => by
    rcases hg : f.Get path s with ⟨⟨data, err⟩, s1⟩
    cases err with
    | none =>
      simp only [Pipeline.LoadFiles.fetch, hg] at h
      simp only [Pipeline.LoadFiles.fetch, successfulPayloads, hg]
      rw [LoadFiles_fetch_of_no_failure f rest s1 h]
    | some e => simp [Pipeline.LoadFiles.fetch, hg] at h

/-- C13 fails on the code at a source whose `Get` fails. With the keys
`a.jsonl` (fetched) and `missing.jsonl` (its `Get` returns `nil` and an error),
`LoadFiles` sends the error on the error channel and still sends a payload for
the failed source, the `nil` that `Get` returned: two payloads are sent although
one source only did not fail. For every fetcher the number of payloads sent is
the number of keys, not the number of sources that did not fail. -/
theorem LoadFiles_sends_payload_after_failed_Get :
    (Pipeline.LoadFiles (filesFetch [("a.jsonl", bytesOf "x")] : Fetch Unit) 4
        ["a.jsonl", "missing.jsonl"] ()).1.1 = some ⟨[bytesOf "x", []], true⟩ ∧
    (Pipeline.LoadFiles (filesFetch [("a.jsonl", bytesOf "x")] : Fetch Unit) 4
        ["a.jsonl", "missing.jsonl"] ()).1.2.1
      = some ⟨[some (errors.New "open missing.jsonl: no such file or directory")], false⟩ ∧
    successfulPayloads (filesFetch [("a.jsonl", bytesOf "x")] : Fetch Unit)
        ["a.jsonl", "missing.jsonl"] () = [bytesOf "x"] ∧
    (∀ (σ : Type) (f : Fetch σ) (n : Nat) (keys : List String) (s : σ), n ≠ 0 → keys ≠ [] →
      ∃ out, (Pipeline.LoadFiles f n keys s).1.1 = some out ∧
        out.sent.length = keys.length) := by
  refine ⟨by decide, by decide, by decide, ?_⟩
  intro σ f n keys s hn hk
  have hlen : keys.length ≠ 0 := fun h => hk (List.length_eq_zero.mp h)
  refine ⟨⟨(Pipeline.LoadFiles.fetch f keys s).1.1, true⟩, ?_, ?_⟩
  · simp [Pipeline.LoadFiles, hlen, hn]
  · exact (LoadFiles_fetch_counts f keys s).1

/-! ### The scanner -/

theorem IndexByte_append_newline (l rest : List Nat) (h : 10 ∉ l) :
    IndexByte (l ++ 10 :: rest) 10 = some l.length := by
  induction l with
  | nil => simp [IndexByte]
  | cons b l ih =>
    have hb : b ≠ 10 := fun hb => h (hb ▸ List.mem_cons_self _ _)
    have hl : 10 ∉ l := fun hl => h (List.mem_cons_of_mem _ hl)
    simp [IndexByte, hb, ih hl]

theorem IndexByte_of_not_mem (l : List Nat) (h : 10 ∉ l) : IndexByte l 10 = none := by
  induction l with
  | nil => rfl
  | cons b l ih =>
    have hb : b ≠ 10 := fun hb => h (hb ▸ List.mem_cons_self _ _)
    have hl : 10 ∉ l := fun hl => h (List.mem_cons_of_mem _ hl)
    simp [IndexByte, hb, ih hl]

theorem exists_first_newline (blob : List Nat) (h : 10 ∈ blob) :
    ∃ l rest, 10 ∉ l ∧ blob = l ++ 10 :: rest := by
  induction blob with
  | nil => simp at h
  | cons b blob ih =>
    by_cases hb : b = 10
    · exact ⟨[], blob, by simp, by simp [hb]⟩
    · have hmem : 10 ∈ blob := by
        rcases List.mem_cons.mp h with h1 | h1
        · exact absurd h1.symm hb
        · exact h1
      obtain ⟨l, rest, hl, hrest⟩ := ih hmem
      refine ⟨b :: l, rest, ?_, by simp [hrest]⟩
      intro hmem2
      rcases List.mem_cons.mp hmem2 with h1 | h1
      · exact hb h1.symm
      · exact hl h1

/-- A line that ends in a newline and fits into the buffer is scanned. -/
theorem Scan_line (l rest : List Nat) (h : 10 ∉ l) (hlen : l.length < MaxScanTokenSize) :
    Scanner.Scan (l ++ 10 :: rest) = some (dropCR l, rest) := by
  have hidx := IndexByte_append_newline l rest h
  cases hblob : l ++ 10 :: rest with
  | nil => simp at hblob
  | cons b tl =>
    rw [hblob] at hidx
    simp only [Scanner.Scan, hidx, hlen, if_true]
    rw [← hblob]
    simp

/-- A line that does not fit into the buffer with its newline stops the
scanner. -/
theorem Scan_long_line (l rest : List Nat) (h : 10 ∉ l) (hlen : MaxScanTokenSize ≤ l.length) :
    Scanner.Scan (l ++ 10 :: rest) = none := by
  have hidx := IndexByte_append_newline l rest h
  cases hblob : l ++ 10 :: rest with
  | nil => simp at hblob
  | cons b tl =>
    rw [hblob] at hidx
    simp only [Scanner.Scan, hidx, Nat.not_lt.mpr hlen, if_false]

/-- What is left without a newline is the last token, if it fits. -/
theorem Scan_last (l : List Nat) (h : 10 ∉ l) (hne : l ≠ []) :
    Scanner.Scan l = if l.length < MaxScanTokenSize then some (dropCR l, []) else none := by
  have hidx := IndexByte_of_not_mem l h
  cases l with
  | nil => exact absurd rfl hne
  | cons b tl => simp only [Scanner.Scan, hidx]

theorem segments_line (l rest : List Nat) (h : 10 ∉ l) :
    segments (l ++ 10 :: rest) = l :: segments rest := by
  have hsplit : (l ++ 10 :: rest).splitOn 10 = l :: rest.splitOn 10 := by
    unfold List.splitOn
    exact List.splitOnP_first _ _ (by
      intro x hx hpx
      simp only [beq_iff_eq] at hpx
      exact h (hpx ▸ hx)) 10 (by simp) rest
  have hne : rest.splitOn 10 ≠ [] := List.splitOnP_ne_nil _ _
  unfold segments
  rw [hsplit]
  cases hL : rest.splitOn 10 with
  | nil => exact absurd hL hne
  | cons a L =>
    by_cases hlast : (a :: L).getLast? = some []
    · simp [List.getLast?_cons_cons, hlast, List.dropLast]
    · simp [List.getLast?_cons_cons, hlast]

theorem segments_last (l : List Nat) (h : 10 ∉ l) :
    segments l = if l = [] then [] else [l] := by
  have hsplit : l.splitOn 10 = [l] := by
    unfold List.splitOn
    exact List.splitOnP_eq_single _ _ (by
      intro x hx hpx
      simp only [beq_iff_eq] at hpx
      exact h (hpx ▸ hx))
  unfold segments
  rw [hsplit]
  by_cases hl : l = []
  · simp [hl]
  · simp [hl]

theorem tokens_nil (fuel : Nat) : Scanner.tokens fuel [] = [] := by
  cases fuel <;> simp [Scanner.tokens, Scanner.Scan]

/-- What the scanner loop returns, given fuel for one round per byte: the
segments up to the first one that does not fit into the buffer, each without
its final carriage return. -/
theorem tokens_eq_segments : ∀ (fuel : Nat) (blob : List Nat), blob.length < fuel →
    Scanner.tokens fuel blob
      = ((segments blob).takeWhile (fun seg => decide (seg.length < MaxScanTokenSize))).map dropCR
  | 0, _, h => absurd h (Nat.not_lt_zero _)
  | fuel + 1, blob, h => by
    by_cases hmem : 10 ∈ blob
    · obtain ⟨l, rest, hl, rfl⟩ := exists_first_newline blob hmem
      have hrest : rest.length < fuel := by
        simp only [List.length_append, List.length_cons] at h
        omega
      rw [segments_line l rest hl]
      by_cases hlen : l.length < MaxScanTokenSize
      · simp only [Scanner.tokens, Scan_line l rest hl hlen]
        rw [tokens_eq_segments fuel rest hrest]
        simp [List.takeWhile_cons, hlen]
      · simp only [Scanner.tokens, Scan_long_line l rest hl (Nat.not_lt.mp hlen)]
        simp [List.takeWhile_cons, hlen]
    · rw [segments_last blob hmem]
      by_cases hne : blob = []
      · subst hne
        simp [tokens_nil]
      · simp only [Scanner.tokens, Scan_last blob hmem hne, hne, if_false]
        by_cases hlen : blob.length < MaxScanTokenSize
        · simp [hlen, tokens_nil, List.takeWhile_cons]
        · simp [hlen, List.takeWhile_cons]

/-- The lines scanned from a blob: its segments up to the first one that does
not fit into the buffer, each without its final carriage return. More fuel
than one round per byte changes nothing. -/
theorem lines_eq_segments (blob : List Nat) :
    Scanner.lines blob
      = ((segments blob).takeWhile
          (fun seg => decide (seg.length < MaxScanTokenSize))).map dropCR ∧
    ∀ fuel, blob.length < fuel → Scanner.tokens fuel blob = Scanner.lines blob := by
  have h := tokens_eq_segments (blob.length + 1) blob (Nat.lt_succ_self _)
  refine ⟨h, ?_⟩
  intro fuel hfuel
  rw [tokens_eq_segments fuel blob hfuel]
  exact h.symm

/-- The segments of a blob of newline-terminated lines are the lines. -/
theorem segments_joinLines : ∀ (lines : List (List Nat)), (∀ l ∈ lines, 10 ∉ l) →
    segments (joinLines lines) = lines
  | [], _ => by decide
  | l :: rest, h => by
    have hl : 10 ∉ l := h l (List.mem_cons_self _ _)
    have ih := segments_joinLines rest (fun x hx => h x (List.mem_cons_of_mem _ hx))
    have hjoin : joinLines (l :: rest) = l ++ 10 :: joinLines rest := by
      simp [joinLines]
    rw [hjoin, segments_line l _ hl, ih]

/-! ### Split -/

/-- The lines `Split` sends for payloads whose segments all fit into the
buffer: the segments of each payload, in order, each without its final carriage
return. -/
theorem Split_of_short_segments (blobs : List (List Nat)) (closed : Bool)
    (hshort : ∀ blob ∈ blobs, ∀ seg ∈ segments blob, seg.length < MaxScanTokenSize) :
    (Pipeline.Split ⟨blobs, closed⟩).1.sent
      = blobs.flatMap (fun blob => (segments blob).map dropCR) := by
  simp only [Pipeline.Split]
  induction blobs with
  | nil => rfl
  | cons blob rest ih =>
    have h1 : Scanner.lines blob = (segments blob).map dropCR := by
      rw [(lines_eq_segments blob).1]
      congr 1
      rw [List.takeWhile_eq_self_iff]
      intro seg hseg
      simpa using hshort blob (List.mem_cons_self _ _) seg hseg
    simp only [List.flatMap_cons, h1]
    rw [ih (fun b hb => hshort b (List.mem_cons_of_mem _ hb))]

/-- For blobs of newline-terminated lines that all fit into the buffer, `Split`
sends one line per line of the blobs: the count is the sum of the line counts
of the blobs. -/
theorem Split_line_count_of_short_lines (blobs : List (List (List Nat))) (closed : Bool)
    (hnl : ∀ lines ∈ blobs, ∀ l ∈ lines, 10 ∉ l)
    (hshort : ∀ lines ∈ blobs, ∀ l ∈ lines, l.length < MaxScanTokenSize) :
    (Pipeline.Split ⟨blobs.map joinLines, closed⟩).1.sent = blobs.flatten.map dropCR ∧
    (Pipeline.Split ⟨blobs.map joinLines, closed⟩).1.sent.length
      = (blobs.map List.length).sum := by
  have h : (Pipeline.Split ⟨blobs.map joinLines, closed⟩).1.sent
      = blobs.flatten.map dropCR := by
    rw [Split_of_short_segments]
    · induction blobs with
      | nil => rfl
      | cons lines rest ih =>
        simp only [List.map_cons, List.flatMap_cons, List.flatten_cons, List.map_append]
        rw [segments_joinLines lines (hnl lines (List.mem_cons_self _ _)),
          ih (fun x hx => hnl x (List.mem_cons_of_mem _ hx))
            (fun x hx => hshort x (List.mem_cons_of_mem _ hx))]
    · intro blob hblob seg hseg
      obtain ⟨lines, hlines, rfl⟩ := List.mem_map.mp hblob
      rw [segments_joinLines lines (hnl lines hlines)] at hseg
      exact hshort lines hlines seg hseg
  refine ⟨h, ?_⟩
  rw [h, List.length_map, List.length_flatten]

theorem longLine_facts : 10 ∉ longLine ∧ ¬ longLine.length < MaxScanTokenSize := by
  constructor
  · intro h
    have := (List.mem_replicate.mp h).2
    omega
  · simp [longLine]

/-- C14 fails on the code at a line of 65536 bytes. The blob that is this one
line and its newline consists of one newline-terminated non-empty line, and
`Split` sends no line for it: the scanner stops with `ErrTooLong`, which `Split`
never looks at. In the blob of the three lines a, the long line, b, the scanner
stops at the long line and `Split` sends the line a only. For lines shorter
than 65536 bytes the count is right (`Split_line_count_of_short_lines`). -/
theorem Split_drops_lines_from_long_line_on :
    (Pipeline.Split ⟨[joinLines [longLine]], true⟩).1.sent = [] ∧
    (Pipeline.Split ⟨[joinLines [bytesOf "a", longLine, bytesOf "b"]], true⟩).1.sent
      = [bytesOf "a"] := by
  have hl := longLine_facts
  have ha : 10 ∉ bytesOf "a" := by decide
  have hb : 10 ∉ bytesOf "b" := by decide
  have hshort : (bytesOf "a").length < MaxScanTokenSize := by decide
  have hda : dropCR (bytesOf "a") = bytesOf "a" := by decide
  constructor
  · simp only [Pipeline.Split, List.flatMap_cons, List.flatMap_nil, List.append_nil]
    rw [(lines_eq_segments _).1, segments_joinLines [longLine] (by simpa using hl.1)]
    simp [List.takeWhile_cons, hl.2]
  · simp only [Pipeline.Split, List.flatMap_cons, List.flatMap_nil, List.append_nil]
    rw [(lines_eq_segments _).1, segments_joinLines [bytesOf "a", longLine, bytesOf "b"]
      (by
        intro l hmem
        simp only [List.mem_cons, List.mem_singleton, List.not_mem_nil, or_false] at hmem
        rcases hmem with rfl | rfl | rfl
        · exact ha
        · exact hl.1
        · exact hb)]
    simp [List.takeWhile_cons, hl.2, hshort, hda]

theorem dropCR_eq_nil_iff (seg : List Nat) : dropCR seg = [] ↔ seg = [] ∨ seg = [13] := by
  unfold dropCR
  constructor
  · intro h
    by_cases hlast : seg.getLast? = some 13
    · rw [if_pos hlast] at h
      right
      cases seg with
      | nil => simp at hlast
      | cons a tl =>
        cases tl with
        | nil => simpa using hlast
        | cons b tl2 => simp [List.dropLast] at h
    · rw [if_neg hlast] at h
      exact Or.inl h
  · intro h
    rcases h with rfl | rfl <;> decide

/-- C15, as stated, fails. For the blob of the three bytes a, carriage return,
newline, the one segment is the two bytes a, carriage return, and the line
`Split` sends is the one byte a: `ScanLines` takes the carriage return before a
newline as part of the terminator. -/
theorem Split_drops_trailing_carriage_return :
    (Pipeline.Split ⟨[bytesOf "a\r\n"], true⟩).1.sent = [bytesOf "a"] ∧
    segments (bytesOf "a\r\n") = [bytesOf "a\r"] ∧
    ¬ (∀ blob : List Nat, (Pipeline.Split ⟨[blob], true⟩).1.sent = segments blob) := by
  refine ⟨by decide, by decide, ?_⟩
  intro h
  have h1 := h (bytesOf "a\r\n")
  revert h1
  decide

/-- C15, amended. For blobs whose newline-delimited segments are all shorter
than 65536 bytes, the lines `Split` sends are, blob after blob and in the order
of the segments within a blob, the segments without their newline and without
one final carriage return; a segment that does not end in a carriage return is
sent byte for byte, whatever its bytes are. -/
theorem Split_sends_segments_in_order (blobs : List (List Nat)) (closed : Bool)
    (hshort : ∀ blob ∈ blobs, ∀ seg ∈ segments blob, seg.length < MaxScanTokenSize) :
    (Pipeline.Split ⟨blobs, closed⟩).1.sent
      = blobs.flatMap (fun blob => (segments blob).map dropCR) ∧
    (∀ seg : List Nat, seg.getLast? ≠ some 13 → dropCR seg = seg) ∧
    (∀ seg : List Nat, dropCR (seg ++ [13]) = seg) := by
  refine ⟨Split_of_short_segments blobs closed hshort, ?_, ?_⟩
  · intro seg hseg
    simp [dropCR, hseg]
  · intro seg
    simp [dropCR]

/-- The amended statement at a concrete input: two blobs, with a carriage
return before a newline, a blank line, a byte that is no text (255) and a last
line without a newline. -/
theorem Split_sends_segments_in_order_witness :
    (Pipeline.Split ⟨[bytesOf "a\r\n\nb\n", [255, 10, 99]], true⟩).1.sent
      = [bytesOf "a\r\n\nb\n", [255, 10, 99]].flatMap
          (fun blob => (segments blob).map dropCR) ∧
    (∀ seg : List Nat, seg.getLast? ≠ some 13 → dropCR seg = seg) ∧
    (∀ seg : List Nat, dropCR (seg ++ [13]) = seg) :=
  Split_sends_segments_in_order [bytesOf "a\r\n\nb\n", [255, 10, 99]] true (by decide)

/-- C16, as stated, fails. For the blob of the lines a, blank, b, `Split` sends
three lines and the second is the empty string: nothing filters the tokens of
the scanner. -/
theorem Split_sends_empty_line :
    (Pipeline.Split ⟨[bytesOf "a\n\nb\n"], true⟩).1.sent = [bytesOf "a", [], bytesOf "b"] ∧
    ¬ (∀ blob : List Nat, [] ∉ (Pipeline.Split ⟨[blob], true⟩).1.sent) := by
  refine ⟨by decide, ?_⟩
  intro h
  have h1 := h (bytesOf "a\n\nb\n")
  revert h1
  decide

/-- C16, amended. `Split` sends a line for every segment, the empty ones too:
for a blob whose segments are all shorter than 65536 bytes, it sends as many
lines as the blob has segments, and it sends the empty string exactly when a
segment is empty or is one carriage return. -/
theorem Split_sends_a_line_per_segment (blob : List Nat) (closed : Bool)
    (hshort : ∀ seg ∈ segments blob, seg.length < MaxScanTokenSize) :
    (Pipeline.Split ⟨[blob], closed⟩).1.sent.length = (segments blob).length ∧
    ([] ∈ (Pipeline.Split ⟨[blob], closed⟩).1.sent ↔
      ∃ seg ∈ segments blob, seg = [] ∨ seg = [13]) := by
  have h := Split_of_short_segments [blob] closed (by
    intro b hb seg hseg
    rw [List.mem_singleton] at hb
    subst hb
    exact hshort seg hseg)
  rw [h]
  simp only [List.flatMap_cons, List.flatMap_nil, List.append_nil, List.length_map,
    List.mem_map, true_and]
  constructor
  · rintro ⟨seg, hseg, hd⟩
    exact ⟨seg, hseg, (dropCR_eq_nil_iff seg).mp hd⟩
  · rintro ⟨seg, hseg, hd⟩
    exact ⟨seg, hseg, (dropCR_eq_nil_iff seg).mpr hd⟩

/-- The amended statement at a concrete input: the blob of the lines a, blank,
b. -/
theorem Split_sends_a_line_per_segment_witness :
    (Pipeline.Split ⟨[bytesOf "a\n\nb\n"], true⟩).1.sent.length
      = (segments (bytesOf "a\n\nb\n")).length ∧
    ([] ∈ (Pipeline.Split ⟨[bytesOf "a\n\nb\n"], true⟩).1.sent ↔
      ∃ seg ∈ segments (bytesOf "a\n\nb\n"), seg = [] ∨ seg = [13]) :=
  Split_sends_a_line_per_segment (bytesOf "a\n\nb\n") true (by decide)

/-! ### ConvertJSON -/

/-- The decode loop sends one product per line, whether the line decodes or
not, and one error per line that does not. -/
theorem ConvertJSON_decode_facts (Unmarshal : List Nat → Product × Option GoError) :
    ∀ lines : List (List Nat),
      (Pipeline.ConvertJSON.decode Unmarshal lines).1 = lines.map (fun l => (Unmarshal l).1) ∧
      (Pipeline.ConvertJSON.decode Unmarshal lines).2
        = (lines.map (fun l => (Unmarshal l).2)).filter (fun v => v.isSome)
  | [] => by simp [Pipeline.ConvertJSON.decode]
  | job :: rest => by
    have ih := ConvertJSON_decode_facts Unmarshal rest
    rcases hu : Unmarshal job with ⟨q, err⟩
    cases err with
    | none => simp [Pipeline.ConvertJSON.decode, hu, ih.1, ih.2]
    | some e => simp [Pipeline.ConvertJSON.decode, hu, ih.1, ih.2]

/-- C17. For every decoder and every sequence of lines that all decode without
an error, `ConvertJSON` sends exactly one record per line, the record the line
decodes to, in the order the lines arrive, so as many records as lines, and it
sends nothing on its error channel. -/
theorem ConvertJSON_one_record_per_line (Unmarshal : List Nat → Product × Option GoError)
    (lines : List (List Nat)) (closed : Bool) (h : ∀ l ∈ lines, (Unmarshal l).2 = none) :
    Pipeline.ConvertJSON Unmarshal ⟨lines, closed⟩
      = (⟨lines.map (fun l => (Unmarshal l).1), closed⟩, ⟨[], false⟩) ∧
    (Pipeline.ConvertJSON Unmarshal ⟨lines, closed⟩).1.sent.length = lines.length := by
  have hf := ConvertJSON_decode_facts Unmarshal lines
  have herr : (Pipeline.ConvertJSON.decode Unmarshal lines).2 = [] := by
    rw [hf.2, List.filter_eq_nil_iff]
    intro v hv
    obtain ⟨l, hl, rfl⟩ := List.mem_map.mp hv
    simp [h l hl]
  simp only [Pipeline.ConvertJSON, hf.1, herr, List.length_map, and_self]

set_option maxRecDepth 100000 in
/-- One record per line at the size of the test: 5000 lines of the record
format. -/
theorem ConvertJSON_one_record_per_line_witness :
    Pipeline.ConvertJSON sampleUnmarshal ⟨List.replicate 5000 sampleLine, true⟩
      = (⟨(List.replicate 5000 sampleLine).map (fun l => (sampleUnmarshal l).1), true⟩,
          ⟨[], false⟩) ∧
    (Pipeline.ConvertJSON sampleUnmarshal ⟨List.replicate 5000 sampleLine, true⟩).1.sent.length
      = 5000 := by
  have h := ConvertJSON_one_record_per_line sampleUnmarshal (List.replicate 5000 sampleLine)
    true (by
      intro l hl
      rw [List.eq_of_mem_replicate hl]
      decide)
  rw [List.length_replicate] at h
  exact h

set_option maxRecDepth 100000 in
/-- C18 fails on the code at a line that does not decode. For the three lines
sample, truncated, sample, `ConvertJSON` sends the decode error of the second
line on its error channel and goes on to the third line, but it also sends a
record for the second line, the zero product the failed decode left: three
records are sent although two lines decode. For every decoder the number of
records sent is the number of lines. -/
theorem ConvertJSON_sends_record_for_failed_line :
    Pipeline.ConvertJSON sampleUnmarshal ⟨[sampleLine, truncatedLine, sampleLine], true⟩
      = (⟨[product1, zeroProduct, product1], true⟩,
          ⟨[some (errors.New "unexpected end of JSON input")], false⟩) ∧
    (∀ (Unmarshal : List Nat → Product × Option GoError) (lines : List (List Nat))
        (closed : Bool),
      (Pipeline.ConvertJSON Unmarshal ⟨lines, closed⟩).1.sent.length = lines.length) := by
  refine ⟨by decide, ?_⟩
  intro Unmarshal lines closed
  simp [Pipeline.ConvertJSON, (ConvertJSON_decode_facts Unmarshal lines).1]

/-! ### wait -/

/-- The loop of `wait` over a sequence of values received and then the close
returns the first non-nil error of the sequence, and `nil` exactly when every
value is `nil`. -/
theorem wait_loop_recv_then_closed (vs : List (Option GoError)) :
    wait.loop (vs.map Select.recv ++ [Select.closed]) = some (firstError vs) ∧
    (wait.loop (vs.map Select.recv ++ [Select.closed]) = some none ↔ ∀ v ∈ vs, v = none) := by
  induction vs with
  | nil => simp [wait.loop, firstError]
  | cons v rest ih =>
    cases v with
    | none =>
      simp only [List.map_cons, List.cons_append, wait.loop, List.mem_cons, forall_eq_or_imp,
        true_and]
      exact ⟨by simpa [firstError] using ih.1, ih.2⟩
    | some e =>
      simp [wait.loop, firstError]

/-- The loop of `wait` over a sequence of values received, the channel still
open after them: it returns the first non-nil error of the sequence, and has
not returned when every value is `nil`. -/
theorem wait_loop_recv_then_open (vs : List (Option GoError)) :
    wait.loop (vs.map Select.recv) = (firstError vs).map some := by
  induction vs with
  | nil => simp [wait.loop, firstError]
  | cons v rest ih =>
    cases v with
    | none => simpa [wait.loop, firstError] using ih
    | some e => simp [wait.loop, firstError]

/-- A single input channel that is closed, forwarded to its end: the merged
channel carries its values in order and is closed after them. -/
theorem merge_single_closed : ∀ vs : List (Option GoError),
    merge (List.replicate vs.length 0) [⟨vs, true⟩] = ⟨vs, true⟩
  | [] => by simp [merge]
  | v :: rest => by
    have ih := merge_single_closed rest
    simp [merge, List.replicate_succ, ih]

theorem SendAll_length {σ : Type} (p : Pipeline σ) :
    ∀ (rs : List Product) (s : σ), (p.SendAll rs s).1.length = rs.length
  | [], _ => rfl
  | pr :: rest, s => by simp [Pipeline.SendAll, SendAll_length p rest]

/-- C20. For every list of error channels and every order in which `merge`
forwards their values, the context not being done: when the merged channel is
closed after the values it carries, `wait` returns the first non-nil error of
those values, the nil values before it being skipped, and it returns `nil` if
and only if every value is `nil`; a non-nil error among the values is returned
whether or not the channel is closed after them, and with every value `nil` and
the channel still open `wait` has not returned. Every finite sequence is the
sequence of values of a merged channel that is closed after them. For the
channel `Save` returns, which carries a `nil` for every product `SendToDB`
stored, `wait` returns the first error `SendToDB` returned, and `nil` when
every call returned `nil`. -/
theorem wait_returns_first_error (ord : List Nat) (errcList : List (Chan (Option GoError))) :
    ((merge ord errcList).closed = true →
      wait ord errcList = some (firstError (merge ord errcList).sent) ∧
      (wait ord errcList = some none ↔ ∀ v ∈ (merge ord errcList).sent, v = none)) ∧
    (∀ e : GoError, firstError (merge ord errcList).sent = some e →
      wait ord errcList = some (some e)) ∧
    ((merge ord errcList).closed = false → firstError (merge ord errcList).sent = none →
      wait ord errcList = none) ∧
    (∀ vs : List (Option GoError),
      merge (List.replicate vs.length 0) [⟨vs, true⟩] = ⟨vs, true⟩ ∧
      wait (List.replicate vs.length 0) [⟨vs, true⟩] = some (firstError vs)) ∧
    (∀ (σ : Type) (p : Pipeline σ) (products : List Product) (s : σ), 1 ≤ p.NumThreads →
      wait (List.replicate products.length 0) [(p.Save ⟨products, true⟩ s).1.1]
        = some (firstError (p.SendAll products s).1) ∧
      (wait (List.replicate products.length 0) [(p.Save ⟨products, true⟩ s).1.1] = some none ↔
        ∀ v ∈ (p.SendAll products s).1, v = none)) := by
  have hsingle : ∀ vs : List (Option GoError),
      wait (List.replicate vs.length 0) [⟨vs, true⟩] = some (firstError vs) ∧
      (wait (List.replicate vs.length 0) [⟨vs, true⟩] = some none ↔ ∀ v ∈ vs, v = none) := by
    intro vs
    have h := wait_loop_recv_then_closed vs
    simpa [wait, merge_single_closed, Chan.selects] using h
  refine ⟨?_, ?_, ?_, fun vs => ⟨merge_single_closed vs, (hsingle vs).1⟩, ?_⟩
  · intro hclosed
    have h := wait_loop_recv_then_closed (merge ord errcList).sent
    simpa [wait, Chan.selects, hclosed] using h
  · intro e he
    cases hc : (merge ord errcList).closed with
    | true =>
      have h := (wait_loop_recv_then_closed (merge ord errcList).sent).1
      simpa [wait, Chan.selects, hc, he] using h
    | false =>
      have h := wait_loop_recv_then_open (merge ord errcList).sent
      simpa [wait, Chan.selects, hc, he] using h
  · intro hc hnone
    have h := wait_loop_recv_then_open (merge ord errcList).sent
    simpa [wait, Chan.selects, hc, hnone] using h
  · intro σ p products s hN
    have hN0 : (p.NumThreads == 0) = false := by
      cases hn : p.NumThreads with
      | zero => omega
      | succ n => rfl
    have hsave : (p.Save ⟨products, true⟩ s).1.1 = ⟨(p.SendAll products s).1, true⟩ := by
      simp [Pipeline.Save, hN0]
    have h := hsingle (p.SendAll products s).1
    rw [SendAll_length] at h
    rw [hsave]
    exact h

/-- The first-error result at a concrete input: the channel `Save` returns for
the zero record and the first test product, against the fresh world with no
failing call, merged with a channel that is still open and carries nothing.
The values are the validation error of the zero record and a `nil`. -/
theorem wait_returns_first_error_witness :
    (merge [1, 1] [⟨[], false⟩,
        ((ModelPipeline noFault).Save ⟨[zeroProduct, product1], true⟩ Traced.fresh).1.1]).closed
      = true ∧
    (merge [1, 1] [⟨[], false⟩,
        ((ModelPipeline noFault).Save ⟨[zeroProduct, product1], true⟩ Traced.fresh).1.1]).sent
      = [some errIDRequired, none] ∧
    wait [1, 1] [⟨[], false⟩,
        ((ModelPipeline noFault).Save ⟨[zeroProduct, product1], true⟩ Traced.fresh).1.1]
      = some (some errIDRequired) := by
  have h := (wait_returns_first_error [1, 1] [⟨[], false⟩,
    ((ModelPipeline noFault).Save ⟨[zeroProduct, product1], true⟩ Traced.fresh).1.1]).1
  have hc : (merge [1, 1] [⟨[], false⟩,
      ((ModelPipeline noFault).Save ⟨[zeroProduct, product1], true⟩ Traced.fresh).1.1]).closed
      = true := by decide
  have hs : (merge [1, 1] [⟨[], false⟩,
      ((ModelPipeline noFault).Save ⟨[zeroProduct, product1], true⟩ Traced.fresh).1.1]).sent
      = [some errIDRequired, none] := by decide
  refine ⟨hc, hs, ?_⟩
  rw [(h hc).1, hs]
  rfl

/-! ### Run -/

/-- The first value of an input channel is on the merged channel as soon as
the order names that channel once. -/
theorem merge_delivers_first : ∀ (ord : List Nat) (cs : List (Chan (Option GoError)))
    (i : Nat) (v : Option GoError) (rest : List (Option GoError)) (cl : Bool),
    i ∈ ord → cs[i]? = some ⟨v :: rest, cl⟩ → v ∈ (merge ord cs).sent
  | [], _, _, _, _, _, h, _ => by simp at h
  | j :: ord, cs, i, v, rest, cl, h, hc => by
    by_cases hji : j = i
    · subst hji
      simp [merge, hc]
    · have hmem : i ∈ ord := by
        rcases List.mem_cons.mp h with h1 | h1
        · exact absurd h1.symm hji
        · exact h1
      cases hj : cs[j]? with
      | none =>
        simp only [merge, hj]
        exact merge_delivers_first ord cs i v rest cl hmem hc
      | some c =>
        obtain ⟨sent, cl2⟩ := c
        cases sent with
        | nil =>
          simp only [merge, hj]
          exact merge_delivers_first ord cs i v rest cl hmem hc
        | cons u more =>
          simp only [merge, hj]
          refine List.mem_cons_of_mem _ ?_
          exact merge_delivers_first ord _ i v rest cl hmem
            (by rw [List.getElem?_set_ne hji]; exact hc)

/-- The loop of `wait` returns a non-nil error once a non-nil error is among
the values received. -/
theorem wait_loop_of_error : ∀ (vs : List (Option GoError)) (tail : List Select),
    (∃ e, some e ∈ vs) → ∃ e, wait.loop (vs.map Select.recv ++ tail) = some (some e)
  | [], _, h => by
    obtain ⟨e, he⟩ := h
    simp at he
  | none :: rest, tail, h => by
    obtain ⟨e, he⟩ := h
    have he2 : some e ∈ rest := by
      rcases List.mem_cons.mp he with h1 | h1
      · cases h1
      · exact h1
    simpa [wait.loop] using wait_loop_of_error rest tail ⟨e, he2⟩
  | some e :: rest, tail, _ => ⟨e, by simp [wait.loop]⟩

/-- The decode loop sends a non-nil error first on its error channel when some
line does not decode. -/
theorem ConvertJSON_decode_error_first (Unmarshal : List Nat → Product × Option GoError) :
    ∀ lines : List (List Nat), (∃ line ∈ lines, (Unmarshal line).2 ≠ none) →
      ∃ e rest, (Pipeline.ConvertJSON.decode Unmarshal lines).2 = some e :: rest
  | [], h => by
    obtain ⟨line, hl, _⟩ := h
    simp at hl
  | job :: more, h => by
    rcases hu : Unmarshal job with ⟨q, err⟩
    cases err with
    | some e =>
      exact ⟨e, (Pipeline.ConvertJSON.decode Unmarshal more).2, by
        simp [Pipeline.ConvertJSON.decode, hu]⟩
    | none =>
      have h2 : ∃ line ∈ more, (Unmarshal line).2 ≠ none := by
        obtain ⟨line, hl, hne⟩ := h
        rcases List.mem_cons.mp hl with h1 | h1
        · subst h1
          rw [hu] at hne
          exact absurd rfl hne
        · exact ⟨line, h1, hne⟩
      obtain ⟨e, rest, he⟩ := ConvertJSON_decode_error_first Unmarshal more h2
      exact ⟨e, rest, by simp [Pipeline.ConvertJSON.decode, hu, he]⟩

/-- When one input channel only carries non-nil errors and the order names it,
`wait` returns the first error of that channel. -/
theorem wait_merge_single_source : ∀ (ord : List Nat) (cs : List (Chan (Option GoError)))
    (i : Nat) (e : GoError) (rest : List (Option GoError)) (cl : Bool) (tail : List Select),
    i ∈ ord → cs[i]? = some ⟨some e :: rest, cl⟩ →
    (∀ (j : Nat) (c : Chan (Option GoError)), j ≠ i → cs[j]? = some c →
      ∀ v ∈ c.sent, v = none) →
    wait.loop ((merge ord cs).sent.map Select.recv ++ tail) = some (some e)
  | [], _, _, _, _, _, _, h, _, _ => by simp at h
  | j :: ord, cs, i, e, rest, cl, tail, h, hc, hnil => by
    by_cases hji : j = i
    · subst hji
      simp [merge, hc, wait.loop]
    · have hmem : i ∈ ord := by
        rcases List.mem_cons.mp h with h1 | h1
        · exact absurd h1.symm hji
        · exact h1
      cases hj : cs[j]? with
      | none =>
        simp only [merge, hj]
        exact wait_merge_single_source ord cs i e rest cl tail hmem hc hnil
      | some c =>
        obtain ⟨sent, cl2⟩ := c
        cases sent with
        | nil =>
          simp only [merge, hj]
          exact wait_merge_single_source ord cs i e rest cl tail hmem hc hnil
        | cons u more =>
          have hu : u = none := hnil j _ hji hj u (List.mem_cons_self _ _)
          subst hu
          have hjlt : j < cs.length := (List.getElem?_eq_some.mp hj).1
          simp only [merge, hj, List.map_cons, List.cons_append, wait.loop]
          refine wait_merge_single_source ord _ i e rest cl tail hmem
            (by rw [List.getElem?_set_ne hji]; exact hc) ?_
          intro k c hki hk v hv
          by_cases hkj : k = j
          · subst hkj
            rw [List.getElem?_set_self hjlt] at hk
            cases hk
            exact hnil k _ hki hj v (List.mem_cons_of_mem _ hv)
          · rw [List.getElem?_set_ne (Ne.symm hkj)] at hk
            exact hnil k c hki hk v hv

set_option maxRecDepth 100000 in
/-- C19, as stated, fails. One source with two lines, the sample line and the
line whose url is a number; the fetch succeeds, the second line fails to decode
and the calls on the cache and the store all succeed (every value the persist
stage sends is `nil`). The decode error is sent on the error channel of the
decode stage, which `Run` merges with the others, and when `wait` receives it
`Run` returns it. -/
theorem Run_returns_decode_error :
    (Pipeline.LoadFiles (filesFetch [("a.jsonl", joinLines [sampleLine, badURLLine])])
        1 ["a.jsonl"] Traced.fresh).1.2.1 = some ⟨[], false⟩ ∧
    (Pipeline.ConvertJSON sampleUnmarshal ⟨[sampleLine, badURLLine], true⟩).2.sent
      = [some (errors.New
          "json: cannot unmarshal number into Go struct field Product.url of type string")] ∧
    ((ModelPipeline noFault).Save
        (Pipeline.ConvertJSON sampleUnmarshal ⟨[sampleLine, badURLLine], true⟩).1
        Traced.fresh).1.1.sent = [none, none] ∧
    Pipeline.Run (filesFetch [("a.jsonl", joinLines [sampleLine, badURLLine])]) sampleUnmarshal
        (ModelPipeline noFault) [3, 2, 3] ["a.jsonl"] Traced.fresh
      = some (some (errors.New
          "json: cannot unmarshal number into Go struct field Product.url of type string")) := by
  decide

/-- C19, amended. A decode failure aborts the run: for every fetcher, decoder,
pipeline and state, in a run in which some line fails to decode and the merged
channel gets to forward from the error channel of the decode stage (the third
of the four error channels), `Run` returns a non-nil error; and when the decode
failures are the only failures (no fetch error is sent and every value the
persist stage sends is `nil`), the error `Run` returns is the first decode
error. -/
theorem Run_returns_error_on_decode_failure {σ : Type} (Fetcher : Fetch σ)
    (Unmarshal : List Nat → Product × Option GoError) (p : Pipeline σ) (ord : List Nat)
    (paths : List String) (s s1 : σ) (fileCh : Chan (List Nat))
    (errc1 : Chan (Option GoError))
    (hLoad : Pipeline.LoadFiles Fetcher p.NumThreads paths s
      = ((some fileCh, some errc1, none), s1))
    (hDecode : ∃ line ∈ (Pipeline.Split fileCh).1.sent, (Unmarshal line).2 ≠ none)
    (hOrd : 2 ∈ ord) :
    (∃ e, Pipeline.Run Fetcher Unmarshal p ord paths s = some (some e)) ∧
    (errc1.sent = [] →
      (∀ v ∈ (p.Save (Pipeline.ConvertJSON Unmarshal (Pipeline.Split fileCh).1).1 s1).1.1.sent,
        v = none) →
      Pipeline.Run Fetcher Unmarshal p ord paths s
        = some (firstError (Pipeline.ConvertJSON Unmarshal (Pipeline.Split fileCh).1).2.sent) ∧
      firstError (Pipeline.ConvertJSON Unmarshal (Pipeline.Split fileCh).1).2.sent ≠ none) := by
  obtain ⟨e, rest, he⟩ := ConvertJSON_decode_error_first Unmarshal _ hDecode
  have hSave : ∃ errc4 s2,
      p.Save (Pipeline.ConvertJSON Unmarshal (Pipeline.Split fileCh).1).1 s1
        = ((errc4, none), s2) := by
    unfold Pipeline.Save
    split
    · exact ⟨_, _, rfl⟩
    · exact ⟨_, _, rfl⟩
  obtain ⟨errc4, s2, hS⟩ := hSave
  have hc3 : [errc1, (Pipeline.Split fileCh).2,
      (Pipeline.ConvertJSON Unmarshal (Pipeline.Split fileCh).1).2, errc4][2]?
        = some ⟨some e :: rest, false⟩ := by
    simp [Pipeline.ConvertJSON, he]
  constructor
  · have hmem : some e ∈ (merge ord [errc1, (Pipeline.Split fileCh).2,
        (Pipeline.ConvertJSON Unmarshal (Pipeline.Split fileCh).1).2, errc4]).sent :=
      merge_delivers_first ord _ 2 (some e) rest false hOrd hc3
    obtain ⟨e2, he2⟩ := wait_loop_of_error _
      (if (merge ord [errc1, (Pipeline.Split fileCh).2,
        (Pipeline.ConvertJSON Unmarshal (Pipeline.Split fileCh).1).2, errc4]).closed
       then [Select.closed] else []) ⟨e, hmem⟩
    refine ⟨e2, ?_⟩
    simp only [Pipeline.Run, hLoad, hS, wait, Chan.selects]
    exact he2
  · intro hFetch hPersist
    rw [hS] at hPersist
    have hfirst : firstError (Pipeline.ConvertJSON Unmarshal (Pipeline.Split fileCh).1).2.sent
        = some e := by
      simp [Pipeline.ConvertJSON, he, firstError]
    rw [hfirst]
    refine ⟨?_, by simp⟩
    simp only [Pipeline.Run, hLoad, hS, wait, Chan.selects]
    refine wait_merge_single_source ord _ 2 e rest false _ hOrd hc3 ?_
    intro j c hj hjc v hv
    rcases j with _ | _ | _ | _ | j
    · simp only [List.getElem?_cons_zero, Option.some.injEq] at hjc
      subst hjc
      rw [hFetch] at hv
      simp at hv
    · simp only [List.getElem?_cons_succ, List.getElem?_cons_zero, Option.some.injEq] at hjc
      subst hjc
      simp [Pipeline.Split] at hv
    · exact absurd rfl hj
    · simp only [List.getElem?_cons_succ, List.getElem?_cons_zero, Option.some.injEq] at hjc
      subst hjc
      exact hPersist v hv
    · simp at hjc

set_option maxRecDepth 100000 in
/-- The amended statement at a concrete input: the source with the sample line
and the line whose url is a number, the decode error forwarded after the first
value of the persist stage. -/
theorem Run_returns_error_on_decode_failure_witness :
    (∃ e, Pipeline.Run (filesFetch [("a.jsonl", joinLines [sampleLine, badURLLine])])
      sampleUnmarshal (ModelPipeline noFault) [3, 2, 3] ["a.jsonl"] Traced.fresh
        = some (some e)) ∧
    Pipeline.Run (filesFetch [("a.jsonl", joinLines [sampleLine, badURLLine])])
      sampleUnmarshal (ModelPipeline noFault) [3, 2, 3] ["a.jsonl"] Traced.fresh
        = some (firstError (Pipeline.ConvertJSON sampleUnmarshal
            (Pipeline.Split ⟨[joinLines [sampleLine, badURLLine]], true⟩).1).2.sent) :=
  ⟨(Run_returns_error_on_decode_failure
      (filesFetch [("a.jsonl", joinLines [sampleLine, badURLLine])]) sampleUnmarshal
      (ModelPipeline noFault) [3, 2, 3] ["a.jsonl"] Traced.fresh Traced.fresh
      ⟨[joinLines [sampleLine, badURLLine]], true⟩ ⟨[], false⟩ (by decide)
      ⟨badURLLine, by decide, by decide⟩ (by decide)).1,
   ((Run_returns_error_on_decode_failure
      (filesFetch [("a.jsonl", joinLines [sampleLine, badURLLine])]) sampleUnmarshal
      (ModelPipeline noFault) [3, 2, 3] ["a.jsonl"] Traced.fresh Traced.fresh
      ⟨[joinLines [sampleLine, badURLLine]], true⟩ ⟨[], false⟩ (by decide)
      ⟨badURLLine, by decide, by decide⟩ (by decide)).2 rfl (by decide)).1⟩

set_option maxRecDepth 100000 in
/-- Why the amended statement asks that the decode error gets forwarded: the
merged channel is closed as soon as the channel of the persist stage is closed
and forwarded, and in the model an order that forwards the values of the
persist stage only lets `wait` return `nil` for the same run. -/
theorem Run_can_miss_decode_error :
    Pipeline.Run (filesFetch [("a.jsonl", joinLines [sampleLine, badURLLine])]) sampleUnmarshal
      (ModelPipeline noFault) [3, 3] ["a.jsonl"] Traced.fresh = some none := by
  decide

/-! ### ErrorCode and ErrorMessage -/

/-- An error that is an application error: nothing to unwrap. -/
theorem asError_app (e : Error) : (GoError.app e).asError = some e := rfl

/-- An error made by `errors.New` is no application error. -/
theorem asError_New (text : String) : (errors.New text).asError = none := rfl

/-- C23. `ErrorCode` is a function of three cases: the empty string for `nil`;
the field `Code` of the application error for every error that is one or wraps
one (the error `errors.As` finds), so `ErrorCode(Errorf(c, m)) = c` for every
code and message; and `EINTERNAL`, which is the string `internal`, for every
other error that is not `nil`. -/
theorem ErrorCode_three_cases :
    ErrorCode none = "" ∧
    (∀ e : Error, ErrorCode (some (GoError.app e)) = e.Code) ∧
    (∀ (g : GoError) (e : Error), g.asError = some e → ErrorCode (some g) = e.Code) ∧
    (∀ c m : String, ErrorCode (some (GoError.app (Errorf c m))) = c) ∧
    (∀ (c m : String) (args : List Operand),
      ErrorCode (some (GoError.app (Errorf.withOperands c m args))) = c) ∧
    (∀ g : GoError, g.asError = none → ErrorCode (some g) = EINTERNAL) ∧
    (∀ text : String, ErrorCode (some (errors.New text)) = EINTERNAL) ∧
    EINTERNAL = "internal" := by
  refine ⟨rfl, fun e => rfl, ?_, fun c m => rfl, fun c m args => rfl, ?_, fun text => rfl, rfl⟩
  · intro g e h
    simp [ErrorCode, h]
  · intro g h
    simp [ErrorCode, h]

/-- The first two cases of `ErrorMessage`, and what the third returns. -/
theorem ErrorMessage_cases :
    ErrorMessage none = "" ∧
    (∀ (g : GoError) (e : Error), g.asError = some e → ErrorMessage (some g) = e.Message) ∧
    (∀ g : GoError, g.asError = none → ErrorMessage (some g) = "Internal error.") := by
  refine ⟨rfl, ?_, ?_⟩
  · intro g e h
    simp [ErrorMessage, h]
  · intro g h
    simp [ErrorMessage, h]

/-- C24. An error that is not an application error for which `ErrorMessage`
does not return `Internal error`: for the error `errors.New("disk failure")`,
as for every error that is no application error, it returns `Internal error.`
with a full stop at the end, a text of 15 characters and not the 14 of the
doc comment. For `nil` and for application errors it returns what the doc
comment says. -/
theorem ErrorMessage_of_other_error_ends_in_full_stop :
    (errors.New "disk failure").asError = none ∧
    ErrorMessage (some (errors.New "disk failure")) = "Internal error." ∧
    ErrorMessage (some (errors.New "disk failure")) ≠ "Internal error" ∧
    (∀ g : GoError, g.asError = none → ErrorMessage (some g) ≠ "Internal error") ∧
    ErrorMessage none = "" ∧
    (∀ (g : GoError) (e : Error), g.asError = some e → ErrorMessage (some g) = e.Message) := by
  refine ⟨rfl, rfl, by decide, ?_, rfl, ?_⟩
  · intro g h
    rw [ErrorMessage_cases.2.2 g h]
    decide
  · exact ErrorMessage_cases.2.1

/-! ### What the user is shown for an internal error -/

/-- A format without a percent sign is printed as it is. -/
theorem expand_of_no_percent : ∀ (cs : List Char) (args : List Operand), '%' ∉ cs →
    fmt.expand cs args = cs
  | [], _, _ => by simp [fmt.expand]
  | c :: rest, args, h => by
    have hc : c ≠ '%' := fun hEq => h (by simp [hEq])
    have hrest : '%' ∉ rest := fun hIn => h (List.mem_cons_of_mem _ hIn)
    rw [fmt.expand.eq_2 _ _ _ (fun _ _ _ _ hEq _ _ => hc hEq),
      expand_of_no_percent rest args hrest]

/-- The function `Errorf` with operands and none given is `Errorf` without
operands, for a format without a percent sign. -/
theorem Errorf_withOperands_nil (code format : String) (h : '%' ∉ format.toList) :
    Errorf.withOperands code format [] = Errorf code format := by
  have hx : fmt.expand format.toList [] = format.toList := expand_of_no_percent _ _ h
  simp only [Errorf.withOperands, Errorf, fmt.Sprintf, hx]
  rfl

/-- The message `FindProductByID` formats for a failed query. -/
theorem Sprintf_query_failed (id : Nat) (err : GoError) :
    fmt.Sprintf "query by %d failed with err: %v" [Operand.uint id, Operand.error err]
      = "query by " ++ toString id ++ " failed with err: " ++ err.Error := by
  apply String.ext
  simp [fmt.Sprintf, fmt.expand, fmt.verb]

/-- For every session, identifier and error of the driver other than
not-found: when the select fails with that error, `FindProductByID` returns an
application error of code `EINTERNAL` whose message carries the text of the
error of the driver, and that message is what `ErrorMessage` returns and what
the handler writes as the body, with status 500. -/
theorem FindProductByID_query_failure {σ : Type} (db : SelectQuery σ) (id : Nat) (s s1 : σ)
    (row : Product) (err : GoError) (hScan : db.Scan id s = ((row, some err), s1))
    (hOther : errors.Is err gocql.ErrNotFound = false) (method path : String) :
    ErrorCode (cassandra.ProductService.FindProductByID db id s).1.2 = EINTERNAL ∧
    ErrorMessage (cassandra.ProductService.FindProductByID db id s).1.2
      = "query by " ++ toString id ++ " failed with err: " ++ err.Error ∧
    (http.Error method path (cassandra.ProductService.FindProductByID db id s).1.2).body.Error
      = "query by " ++ toString id ++ " failed with err: " ++ err.Error ∧
    (http.Error method path (cassandra.ProductService.FindProductByID db id s).1.2).status
      = 500 := by
  have h : (cassandra.ProductService.FindProductByID db id s).1.2
      = some (GoError.app ⟨EINTERNAL,
          "query by " ++ toString id ++ " failed with err: " ++ err.Error⟩) := by
    simp [cassandra.ProductService.FindProductByID, hScan, hOther, Errorf.withOperands,
      Sprintf_query_failed]
  rw [h]
  refine ⟨rfl, rfl, rfl, ?_⟩
  simp [http.Error, http.ErrorStatusCode, http.codes, ErrorCode, GoError.asError,
    List.lookup, EINTERNAL, EINVALID, ENOTFOUND, http.StatusInternalServerError]

/-- For an error that is no application error the code is `EINTERNAL` and the
message is the fixed text, whatever the error says. -/
theorem ErrorMessage_of_no_application_error (g : GoError) (h : g.asError = none) :
    ErrorCode (some g) = EINTERNAL ∧ ErrorMessage (some g) = "Internal error." := by
  simp [ErrorCode, ErrorMessage, h]

/-- C25. Two errors of code `EINTERNAL` with different messages, both shown to
the user with the detail of the low-level error: the errors `FindProductByID`
returns for the identifier 7 when the select fails because no host can be
reached, and when it fails because the keyspace does not exist. `ErrorCode` is
`EINTERNAL` for both; `ErrorMessage` returns for each the text of the error of
the driver behind a prefix, not the generic text; and the handler writes that
message as the body of the response, with status 500. -/
theorem ErrorMessage_of_internal_error_shows_driver_error :
    ErrorCode (cassandra.ProductService.FindProductByID (failingQuery errNoHosts) 7 ()).1.2
      = EINTERNAL ∧
    ErrorCode (cassandra.ProductService.FindProductByID (failingQuery errNoKeyspace) 7 ()).1.2
      = EINTERNAL ∧
    ErrorMessage (cassandra.ProductService.FindProductByID (failingQuery errNoHosts) 7 ()).1.2
      = "query by 7 failed with err: gocql: no hosts available in the pool" ∧
    ErrorMessage (cassandra.ProductService.FindProductByID (failingQuery errNoKeyspace) 7 ()).1.2
      = "query by 7 failed with err: Keyspace dataflow does not exist" ∧
    ErrorMessage (cassandra.ProductService.FindProductByID (failingQuery errNoHosts) 7 ()).1.2
      ≠ ErrorMessage
          (cassandra.ProductService.FindProductByID (failingQuery errNoKeyspace) 7 ()).1.2 ∧
    http.Error "GET" "/product/7"
        (cassandra.ProductService.FindProductByID (failingQuery errNoHosts) 7 ()).1.2
      = { contentType := "application/json", status := 500,
          body := { Error :=
            "query by 7 failed with err: gocql: no hosts available in the pool" },
          logged := ["[http] error: GET /product/7: dataflow error: code=internal " ++
            "message=query by 7 failed with err: gocql: no hosts available in the pool"] } := by
  decide

/-! ### Status codes -/

/-- The loop of `FromErrorStatusCode` finds the key of an entry by its status,
when no two entries have the same status. -/
theorem FromErrorStatusCode_of_mem : ∀ (order : List (String × Nat)),
    (order.map Prod.snd).Nodup → ∀ (k : String) (v : Nat), (k, v) ∈ order →
      http.FromErrorStatusCode order v = k
  | [], _, _, _, h => by simp at h
  | (k0, v0) :: rest, hNodup, k, v, h => by
    simp only [List.map_cons, List.nodup_cons] at hNodup
    by_cases hv : v0 = v
    · subst hv
      rcases List.mem_cons.mp h with hEq | hIn
      · simp only [Prod.mk.injEq] at hEq
        simp [http.FromErrorStatusCode, hEq.1]
      · exact absurd (List.mem_map_of_mem Prod.snd hIn) hNodup.1
    · have hIn : (k, v) ∈ rest := by
        rcases List.mem_cons.mp h with hEq | hIn
        · simp only [Prod.mk.injEq] at hEq
          exact absurd hEq.2.symm hv
        · exact hIn
      simp [http.FromErrorStatusCode, hv, FromErrorStatusCode_of_mem rest hNodup.2 k v hIn]

/-- The loop of `FromErrorStatusCode` falls through for a status no entry
has. -/
theorem FromErrorStatusCode_of_not_mem : ∀ (order : List (String × Nat)) (code : Nat),
    code ∉ order.map Prod.snd → http.FromErrorStatusCode order code = EINTERNAL
  | [], _, _ => rfl
  | (k0, v0) :: rest, code, h => by
    simp only [List.map_cons, List.mem_cons, not_or] at h
    have hv : v0 ≠ code := fun hEq => h.1 hEq.symm
    simp [http.FromErrorStatusCode, hv, FromErrorStatusCode_of_not_mem rest code h.2]

/-- C26. `ErrorStatusCode` maps `EINVALID` to 400, `ENOTFOUND` to 404,
`EINTERNAL` to 500 and every other code, the empty string among them, to 500.
Whatever the order in which the loop of `FromErrorStatusCode` meets the entries
of the map, `FromErrorStatusCode(ErrorStatusCode(c)) = c` for each of the three
codes, and every status other than 400, 404 and 500 gives `EINTERNAL`. -/
theorem ErrorStatusCode_table_and_inverse (order : List (String × Nat))
    (hOrder : order.Perm http.codes) :
    http.ErrorStatusCode EINVALID = 400 ∧
    http.ErrorStatusCode ENOTFOUND = 404 ∧
    http.ErrorStatusCode EINTERNAL = 500 ∧
    (∀ c : String, c ≠ EINVALID → c ≠ ENOTFOUND → c ≠ EINTERNAL →
      http.ErrorStatusCode c = 500) ∧
    http.ErrorStatusCode "" = 500 ∧
    (∀ c : String, c = EINVALID ∨ c = ENOTFOUND ∨ c = EINTERNAL →
      http.FromErrorStatusCode order (http.ErrorStatusCode c) = c) ∧
    (∀ n : Nat, n ≠ 400 → n ≠ 404 → n ≠ 500 →
      http.FromErrorStatusCode order n = EINTERNAL) := by
  have hNodup : (order.map Prod.snd).Nodup :=
    ((hOrder.map Prod.snd).nodup_iff).mpr (by decide)
  refine ⟨by decide, by decide, by decide, ?_, by decide, ?_, ?_⟩
  · intro c h1 h2 h3
    have e1 : (c == EINVALID) = false := by simpa using h1
    have e2 : (c == ENOTFOUND) = false := by simpa using h2
    have e3 : (c == EINTERNAL) = false := by simpa using h3
    simp [http.ErrorStatusCode, http.codes, List.lookup, e1, e2, e3,
      http.StatusInternalServerError]
  · intro c hc
    rcases hc with rfl | rfl | rfl
    · exact FromErrorStatusCode_of_mem order hNodup EINVALID 400
        (hOrder.mem_iff.mpr (by decide))
    · exact FromErrorStatusCode_of_mem order hNodup ENOTFOUND 404
        (hOrder.mem_iff.mpr (by decide))
    · exact FromErrorStatusCode_of_mem order hNodup EINTERNAL 500
        (hOrder.mem_iff.mpr (by decide))
  · intro n h1 h2 h3
    apply FromErrorStatusCode_of_not_mem
    intro hIn
    have hIn2 : n ∈ http.codes.map Prod.snd := (hOrder.map Prod.snd).mem_iff.mp hIn
    simp [http.codes, http.StatusBadRequest, http.StatusNotFound,
      http.StatusInternalServerError] at hIn2
    omega

/-- The table and its inverse at a concrete input: the loop meets the entries
of the map in the reverse of the order they are written in. -/
theorem ErrorStatusCode_table_and_inverse_witness :
    http.ErrorStatusCode EINVALID = 400 ∧
    http.ErrorStatusCode ENOTFOUND = 404 ∧
    http.ErrorStatusCode EINTERNAL = 500 ∧
    (∀ c : String, c ≠ EINVALID → c ≠ ENOTFOUND → c ≠ EINTERNAL →
      http.ErrorStatusCode c = 500) ∧
    http.ErrorStatusCode "" = 500 ∧
    (∀ c : String, c = EINVALID ∨ c = ENOTFOUND ∨ c = EINTERNAL →
      http.FromErrorStatusCode http.codes.reverse (http.ErrorStatusCode c) = c) ∧
    (∀ n : Nat, n ≠ 400 → n ≠ 404 → n ≠ 500 →
      http.FromErrorStatusCode http.codes.reverse n = EINTERNAL) :=
  ErrorStatusCode_table_and_inverse http.codes.reverse (List.reverse_perm _)

/-! ### The cache against the store -/

/-- Whatever the relation between what a cache holds and what a store holds:
if no port call removes an identifier from the store, only `Set` adds an
identifier to the cache and only the one it is called with, and a successful
`CreateProduct` leaves the identifier of its record in the store, then
`SendToDB` keeps every cached identifier stored. -/
theorem SendToDB_keeps_cached_stored {σ : Type} (p : Pipeline σ) (cached stored : σ → Nat → Prop)
    (hE : ∀ id s, (∀ k, cached (p.CacheService.Exists id s).2 k → cached s k) ∧
      (∀ k, stored s k → stored (p.CacheService.Exists id s).2 k))
    (hC : ∀ pr s, (∀ k, cached (p.ProductService.CreateProduct pr s).2 k → cached s k) ∧
      (∀ k, stored s k → stored (p.ProductService.CreateProduct pr s).2 k) ∧
      ((p.ProductService.CreateProduct pr s).1 = none →
        stored (p.ProductService.CreateProduct pr s).2 pr.ID))
    (hS : ∀ id s, (∀ k, cached (p.CacheService.Set id s).2 k → cached s k ∨ k = id) ∧
      (∀ k, stored s k → stored (p.CacheService.Set id s).2 k))
    (pr : Product) (s : σ) (h : ∀ k, cached s k → stored s k) :
    ∀ k, cached (p.SendToDB pr s).2 k → stored (p.SendToDB pr s).2 k := by
  have hE1 := hE pr.ID s
  rcases hx : p.CacheService.Exists pr.ID s with ⟨⟨ok, err⟩, s1⟩
  rw [hx] at hE1
  have h1 : ∀ k, cached s1 k → stored s1 k := fun k hk => hE1.2 k (h k (hE1.1 k hk))
  have hC1 := hC pr s1
  rcases hc : p.ProductService.CreateProduct pr s1 with ⟨err2, s2⟩
  rw [hc] at hC1
  have h2 : ∀ k, cached s2 k → stored s2 k := fun k hk => hC1.2.1 k (h1 k (hC1.1 k hk))
  have hS1 := hS pr.ID s2
  cases err with
  | some e => cases ok <;> simpa [Pipeline.SendToDB, hx] using h1
  | none =>
    cases ok with
    | true => simpa [Pipeline.SendToDB, hx] using h1
    | false =>
      cases err2 with
      | some e => simpa [Pipeline.SendToDB, hx, hc] using h2
      | none =>
        simp only [Pipeline.SendToDB, hx, hc]
        intro k hk
        rcases hS1.1 k hk with hk2 | rfl
        · exact hS1.2 k (h2 k hk2)
        · exact hS1.2 _ (hC1.2.2 rfl)

/-- The identifiers of the table after an insert: that of the row written and
those there before. -/
theorem mem_map_ID_upsert (p : Product) (rows : List Product) (id : Nat) :
    id ∈ (upsert p rows).map Product.ID ↔ id = p.ID ∨ id ∈ rows.map Product.ID := by
  simp only [upsert, List.map_cons, List.mem_cons, List.mem_map, List.mem_filter]
  constructor
  · rintro (h | ⟨q, ⟨hq, _⟩, rfl⟩)
    · exact Or.inl h
    · exact Or.inr ⟨q, hq, rfl⟩
  · rintro (h | ⟨q, hq, rfl⟩)
    · exact Or.inl h
    · by_cases hEq : q.ID = p.ID
      · exact Or.inl hEq
      · exact Or.inr ⟨q, ⟨hq, by simpa using hEq⟩, rfl⟩

/-- In the in-memory world `SendToDB` keeps every cached identifier stored. -/
theorem model_SendToDB_cacheInStore (F : Nat → Option GoError) (pr : Product) (w : Traced Env)
    (h : cacheInStore w.st) : cacheInStore ((ModelPipeline F).SendToDB pr w).2.st := by
  intro id
  rcases model_SendToDB_cases F pr w with ⟨e, _, hR⟩ | ⟨_, _, hR⟩ | ⟨e, _, _, _, hR⟩ |
    ⟨e, _, _, _, _, hR⟩ | ⟨e, _, _, _, _, _, hR⟩ | ⟨_, _, _, _, _, hR⟩ <;> rw [hR] <;>
    intro hid
  · exact h id hid
  · exact h id hid
  · exact h id hid
  · exact h id hid
  · exact (mem_map_ID_upsert pr w.st.rows id).mpr (Or.inr (h id hid))
  · rcases List.mem_cons.mp hid with hEq | hIn
    · exact (mem_map_ID_upsert pr w.st.rows id).mpr (Or.inl hEq)
    · exact (mem_map_ID_upsert pr w.st.rows id).mpr (Or.inr (h id hIn))

/-- What a step of a worker does to the in-memory world: it leaves cache and
table alone, or (a create that succeeded) writes the row of the record, or (a
set that succeeded, by a worker whose create has succeeded) adds the
identifier of the record to the cache. -/
theorem model_stepWorker_cases (F : Nat → Option GoError) (wk : Worker) (w : Traced Env) :
    (((ModelPipeline F).stepWorker wk w).2.st.cache = w.st.cache ∧
      ((ModelPipeline F).stepWorker wk w).2.st.rows = w.st.rows ∧
      ∀ pr, ((ModelPipeline F).stepWorker wk w).1 ≠ Worker.created pr) ∨
    (∃ pr, wk = Worker.looked pr ∧ ((ModelPipeline F).stepWorker wk w).1 = Worker.created pr ∧
      ((ModelPipeline F).stepWorker wk w).2.st.cache = w.st.cache ∧
      ((ModelPipeline F).stepWorker wk w).2.st.rows = upsert pr w.st.rows) ∨
    (∃ pr, wk = Worker.created pr ∧
      (∀ pr2, ((ModelPipeline F).stepWorker wk w).1 ≠ Worker.created pr2) ∧
      ((ModelPipeline F).stepWorker wk w).2.st.cache = pr.ID :: w.st.cache ∧
      ((ModelPipeline F).stepWorker wk w).2.st.rows = w.st.rows) := by
  obtain ⟨⟨cache, rows, tick⟩, log⟩ := w
  cases wk with
  | start pr =>
    left
    simp only [Pipeline.stepWorker, ModelPipeline, Cache.spy, Cache.lift, ModelCache,
      Traced.record, Env.step]
    cases hF : F tick with
    | some e => simp
    | none =>
      by_cases hc : pr.ID ∈ cache
      · simp [hc]
      · simp [hc]
  | looked pr =>
    simp only [Pipeline.stepWorker, ModelPipeline, ProductService.spy,
      cassandra.NewProductService, cassandra.ProductService.CreateProduct, Session.spy,
      Session.lift, ModelSession, Traced.record, Env.step]
    cases hV : pr.Validate with
    | some e => left; simp
    | none =>
      cases hF : F tick with
      | some e => left; simp
      | none => right; left; exact ⟨pr, rfl, by simp⟩
  | created pr =>
    simp only [Pipeline.stepWorker, ModelPipeline, Cache.spy, Cache.lift, ModelCache,
      Traced.record, Env.step]
    cases hF : F tick with
    | some e => left; simp
    | none => right; right; exact ⟨pr, rfl, by simp⟩
  | done err =>
    left
    simp [Pipeline.stepWorker]

/-- A step of a worker keeps every cached identifier stored, in the in-memory
world and whatever calls fail. -/
theorem createdAreStored_step (F : Nat → Option GoError) (ws : List Worker) (i : Nat)
    (wk : Worker) (w : Traced Env) (hi : ws[i]? = some wk) (h : createdAreStored ws w.st) :
    createdAreStored (ws.set i ((ModelPipeline F).stepWorker wk w).1)
      ((ModelPipeline F).stepWorker wk w).2.st := by
  obtain ⟨hcs, hcr⟩ := h
  have hmem : wk ∈ ws := by
    obtain ⟨hlt, rfl⟩ := List.getElem?_eq_some.mp hi
    exact List.getElem_mem hlt
  rcases model_stepWorker_cases F wk w with ⟨hc, hr, hn⟩ | ⟨pr, rfl, hnew, hc, hr⟩ |
    ⟨pr, rfl, hn, hc, hr⟩
  · refine ⟨?_, ?_⟩
    · intro id hid
      simp only [Env.storedIDs, hr]
      rw [hc] at hid
      exact hcs id hid
    · intro pr hpr
      simp only [Env.storedIDs, hr]
      rcases List.mem_or_eq_of_mem_set hpr with hIn | hEq
      · exact hcr pr hIn
      · exact absurd hEq.symm (hn pr)
  · refine ⟨?_, ?_⟩
    · intro id hid
      simp only [Env.storedIDs, hr]
      rw [hc] at hid
      exact (mem_map_ID_upsert pr w.st.rows id).mpr (Or.inr (hcs id hid))
    · intro q hq
      simp only [Env.storedIDs, hr]
      rcases List.mem_or_eq_of_mem_set hq with hIn | hEq
      · exact (mem_map_ID_upsert pr w.st.rows q.ID).mpr (Or.inr (hcr q hIn))
      · rw [hnew] at hEq
        simp only [Worker.created.injEq] at hEq
        exact (mem_map_ID_upsert pr w.st.rows q.ID).mpr (Or.inl (by rw [hEq]))
  · refine ⟨?_, ?_⟩
    · intro id hid
      simp only [Env.storedIDs, hr]
      rw [hc] at hid
      rcases List.mem_cons.mp hid with hEq | hIn
      · rw [hEq]
        exact hcr pr hmem
      · exact hcs id hIn
    · intro q hq
      simp only [Env.storedIDs, hr]
      rcases List.mem_or_eq_of_mem_set hq with hIn | hEq
      · exact hcr q hIn
      · exact absurd hEq.symm (hn q)

/-- Any interleaving of the port calls of concurrent `SendToDB` calls keeps
every cached identifier stored, in the in-memory world and whatever calls
fail, when it holds at the start for the cache and for the workers that are
between their create and their set. -/
theorem runWorkers_preserves_cacheInStore (F : Nat → Option GoError) :
    ∀ (sch : List Nat) (ws : List Worker) (w : Traced Env), createdAreStored ws w.st →
      createdAreStored ((ModelPipeline F).runWorkers sch ws w).1
        ((ModelPipeline F).runWorkers sch ws w).2.st
  | [], _, _, h => h
  | i :: sch, ws, w, h => by
    cases hi : ws[i]? with
    | none =>
      simp only [Pipeline.runWorkers, hi]
      exact runWorkers_preserves_cacheInStore F sch ws w h
    | some wk =>
      simp only [Pipeline.runWorkers, hi]
      exact runWorkers_preserves_cacheInStore F sch _ _ (createdAreStored_step F ws i wk w hi h)

/-- Workers that have not made a call yet: none is between its create and its
set. -/
theorem createdAreStored_of_start (rs : List Product) (env : Env) (h : cacheInStore env) :
    createdAreStored (rs.map Worker.start) env := by
  refine ⟨h, ?_⟩
  intro pr hpr
  simp at hpr

/-- C27. Cache implies store, over the in-memory cache and store, in which a
successful insert of `CreateProduct` writes the row of the record and a
successful `Set` adds the identifier to the cache: if every cached identifier
is the identifier of a stored row before `SendToDB` runs, then so it is after
it, for every record and whatever calls fail; and so it is after any sequence
of `SendToDB` calls, and after any interleaving of the port calls of
concurrent `SendToDB` calls. -/
theorem SendToDB_preserves_cacheInStore (F : Nat → Option GoError) (w : Traced Env)
    (h : cacheInStore w.st) :
    (∀ pr : Product, cacheInStore ((ModelPipeline F).SendToDB pr w).2.st) ∧
    (∀ rs : List Product, cacheInStore ((ModelPipeline F).SendAll rs w).2.st) ∧
    (∀ (sch : List Nat) (rs : List Product),
      cacheInStore ((ModelPipeline F).runWorkers sch (rs.map Worker.start) w).2.st) :=
  ⟨fun pr => model_SendToDB_cacheInStore F pr w h,
   fun rs => SendAll_preserves (ModelPipeline F) (fun s => cacheInStore s.st)
     (fun pr s hs => model_SendToDB_cacheInStore F pr s hs) rs w h,
   fun sch rs => (runWorkers_preserves_cacheInStore F sch (rs.map Worker.start) w
     (createdAreStored_of_start rs w.st h)).1⟩

/-- The invariant at a concrete input: the first test product cached and
stored, and the third call, a `Set`, failing. -/
theorem SendToDB_preserves_cacheInStore_witness :
    (∀ pr : Product, cacheInStore ((ModelPipeline (faultAt 2 (GoError.leaf "redis: down"))).SendToDB
        pr ⟨{ cache := [1], rows := [product1], tick := 0 }, []⟩).2.st) ∧
    (∀ rs : List Product, cacheInStore ((ModelPipeline (faultAt 2 (GoError.leaf "redis: down"))).SendAll
        rs ⟨{ cache := [1], rows := [product1], tick := 0 }, []⟩).2.st) ∧
    (∀ (sch : List Nat) (rs : List Product),
      cacheInStore ((ModelPipeline (faultAt 2 (GoError.leaf "redis: down"))).runWorkers sch
        (rs.map Worker.start) ⟨{ cache := [1], rows := [product1], tick := 0 }, []⟩).2.st) :=
  SendToDB_preserves_cacheInStore (faultAt 2 (GoError.leaf "redis: down"))
    ⟨{ cache := [1], rows := [product1], tick := 0 }, []⟩ (by decide)

/-! ### SendToDB when the lookup fails -/

/-- C28. Cache-check failure. For every pair of services and every record, if
`Exists` fails with the error `e` for the identifier of the record, `SendToDB`
returns exactly `e`, the world is the one `Exists` left, and the only call
recorded is that `Exists`: neither `CreateProduct` nor `Set` is called. Over
the in-memory cache and store, where a failed `Exists` changes nothing, the
cache and the table are then what they were, and no insert is run. -/
theorem SendToDB_exists_failure {σ : Type} (p : Pipeline σ) (pr : Product) (s s1 : σ)
    (log : List Event) (ok : Bool) (e : GoError)
    (h : p.CacheService.Exists pr.ID s = ((ok, some e), s1)) :
    (p.lift.spy).SendToDB pr ⟨s, log⟩
        = (some e, ⟨s1, log ++ [Event.cacheExists pr.ID ok (some e)]⟩) ∧
      createCalls ((p.lift.spy).SendToDB pr ⟨s, log⟩).2.log = createCalls log ∧
      setCalls ((p.lift.spy).SendToDB pr ⟨s, log⟩).2.log = setCalls log ∧
      ∀ (F : Nat → Option GoError) (w : Traced Env), F w.st.tick = some e →
        ((ModelPipeline F).SendToDB pr w).1 = some e ∧
        ((ModelPipeline F).SendToDB pr w).2.log
          = w.log ++ [Event.cacheExists pr.ID false (some e)] ∧
        ((ModelPipeline F).SendToDB pr w).2.st.cache = w.st.cache ∧
        ((ModelPipeline F).SendToDB pr w).2.st.rows = w.st.rows ∧
        createCalls ((ModelPipeline F).SendToDB pr w).2.log = createCalls w.log ∧
        insertCalls ((ModelPipeline F).SendToDB pr w).2.log = insertCalls w.log ∧
        setCalls ((ModelPipeline F).SendToDB pr w).2.log = setCalls w.log := by
  have key : (p.lift.spy).SendToDB pr ⟨s, log⟩
      = (some e, ⟨s1, log ++ [Event.cacheExists pr.ID ok (some e)]⟩) := by
    simp [Pipeline.SendToDB, Pipeline.spy, Pipeline.lift, Cache.spy, Cache.lift,
      Traced.record, h]
  rw [key]
  refine ⟨rfl, by simp [createCalls, Event.isCreate], by simp [setCalls, Event.isCacheSet], ?_⟩
  intro F w hF
  have hm : (ModelPipeline F).SendToDB pr w
      = (some e, ⟨w.st.step, w.log ++ [Event.cacheExists pr.ID false (some e)]⟩) := by
    rw [model_SendToDB_eq]
    simp [hF]
  rw [hm]
  simp [Env.step, createCalls, insertCalls, setCalls, Event.isCreate, Event.isInsert,
    Event.isCacheSet]

/-- The cache-check failure at a concrete input: the first test product, the
first call, the `Exists`, failing. -/
theorem SendToDB_exists_failure_witness :
    ((ModelServices (faultAt 0 (GoError.leaf "redis: down"))).lift.spy).SendToDB product1
          ⟨{ cache := [], rows := [], tick := 0 }, []⟩
        = (some (GoError.leaf "redis: down"), ⟨{ cache := [], rows := [], tick := 1 },
            [] ++ [Event.cacheExists product1.ID false (some (GoError.leaf "redis: down"))]⟩) ∧
      createCalls (((ModelServices (faultAt 0 (GoError.leaf "redis: down"))).lift.spy).SendToDB
          product1 ⟨{ cache := [], rows := [], tick := 0 }, []⟩).2.log = createCalls [] ∧
      setCalls (((ModelServices (faultAt 0 (GoError.leaf "redis: down"))).lift.spy).SendToDB
          product1 ⟨{ cache := [], rows := [], tick := 0 }, []⟩).2.log = setCalls [] ∧
      ∀ (F : Nat → Option GoError) (w : Traced Env),
        F w.st.tick = some (GoError.leaf "redis: down") →
        ((ModelPipeline F).SendToDB product1 w).1 = some (GoError.leaf "redis: down") ∧
        ((ModelPipeline F).SendToDB product1 w).2.log
          = w.log ++ [Event.cacheExists product1.ID false (some (GoError.leaf "redis: down"))] ∧
        ((ModelPipeline F).SendToDB product1 w).2.st.cache = w.st.cache ∧
        ((ModelPipeline F).SendToDB product1 w).2.st.rows = w.st.rows ∧
        createCalls ((ModelPipeline F).SendToDB product1 w).2.log = createCalls w.log ∧
        insertCalls ((ModelPipeline F).SendToDB product1 w).2.log = insertCalls w.log ∧
        setCalls ((ModelPipeline F).SendToDB product1 w).2.log = setCalls w.log :=
  SendToDB_exists_failure (ModelServices (faultAt 0 (GoError.leaf "redis: down"))) product1
    { cache := [], rows := [], tick := 0 } { cache := [], rows := [], tick := 1 } [] false
    (GoError.leaf "redis: down") (by decide)

/-! ### The bounded stages, goroutine by goroutine -/

/-- Replacing the entry at a position changes a count by what the old and the
new entry contribute. -/
theorem countP_set_balance {α : Type} (q : α → Bool) (l : List α) (i : Nat) (old new : α)
    (hold : l[i]? = some old) :
    (l.set i new).countP q + (if q old then 1 else 0)
      = l.countP q + (if q new then 1 else 0) := by
  obtain ⟨hi, rfl⟩ := List.getElem?_eq_some.mp hold
  have h1 := List.countP_set q l i new hi
  have h2 := List.boole_getElem_le_countP q l i hi
  omega

theorem FetchInv_start {σ : Type} (N : Nat) (keys : List String) (done : Bool) (s : σ) :
    FetchInv N (Pipeline.LoadFiles.start N keys done s) :=
  ⟨rfl, by simp [Pipeline.LoadFiles.start, semaphore.NewWeighted],
   by simp [Pipeline.LoadFiles.start, semaphore.NewWeighted]⟩

theorem FetchInv_step {σ : Type} (Fetcher : Fetch σ) (N : Nat) (m : Move) (st : FetchStage σ)
    (h : FetchInv N st) : FetchInv N (Pipeline.LoadFiles.step Fetcher m st) := by
  obtain ⟨hsize, hheld, hbound⟩ := h
  cases m with
  | cancel => exact ⟨hsize, hheld, hbound⟩
  | acquire =>
    simp only [Pipeline.LoadFiles.step]
    split
    · split
      · rename_i hfree
        simp only [Weighted.free, decide_eq_true_eq] at hfree
        refine ⟨hsize, ?_, ?_⟩
        · simp [Weighted.Acquire, hheld, FetchTask.running]
        · simp only [Weighted.Acquire]
          rw [hsize] at hfree
          omega
      · exact ⟨hsize, hheld, hbound⟩
    · exact ⟨hsize, hheld, hbound⟩
  | acquireFails =>
    simp only [Pipeline.LoadFiles.step]
    split
    · split
      · exact ⟨hsize, hheld, hbound⟩
      · exact ⟨hsize, hheld, hbound⟩
    · exact ⟨hsize, hheld, hbound⟩
  | wait =>
    simp only [Pipeline.LoadFiles.step]
    split
    · exact ⟨hsize, hheld, hbound⟩
    · exact ⟨hsize, hheld, hbound⟩
  | task i =>
    simp only [Pipeline.LoadFiles.step]
    split
    · rename_i path hi
      have hc := countP_set_balance FetchTask.running st.tasks i (FetchTask.calling path)
        (FetchTask.returned (Fetcher.Get path st.world).1.1 (Fetcher.Get path st.world).1.2) hi
      simp only [FetchTask.running, if_true, Nat.add_right_cancel_iff] at hc
      exact ⟨hsize, by simp [hheld, hc], hbound⟩
    · rename_i data err hi
      have hc := countP_set_balance FetchTask.running st.tasks i (FetchTask.returned data err)
        FetchTask.finished hi
      simp only [FetchTask.running, if_true, Bool.false_eq_true, if_false, Nat.add_zero] at hc
      refine ⟨hsize, ?_, ?_⟩
      · simp only [Weighted.Release]
        rw [hheld, ← hc]
        push_cast
        ring
      · simp only [Weighted.Release]
        omega
    · exact ⟨hsize, hheld, hbound⟩
  | taskDone i => exact ⟨hsize, hheld, hbound⟩

theorem FetchInv_run {σ : Type} (Fetcher : Fetch σ) (N : Nat) :
    ∀ (sch : List Move) (st : FetchStage σ), FetchInv N st →
      FetchInv N (Pipeline.LoadFiles.run Fetcher sch st)
  | [], _, h => h
  | m :: sch, st, h => FetchInv_run Fetcher N sch _ (FetchInv_step Fetcher N m st h)

/-- At every instant of `LoadFiles`, whatever the fetcher, the keys and the
schedule, and whether or when the context is cancelled: the calls of `Get`
outstanding are at most `NumThreads`, the weight held on the semaphore is the
number of goroutines started and not yet returned, and it is never below
zero. -/
theorem LoadFiles_outstanding_le {σ : Type} (Fetcher : Fetch σ) (N : Nat) (keys : List String)
    (done : Bool) (s : σ) (sch : List Move) :
    (Pipeline.LoadFiles.run Fetcher sch (Pipeline.LoadFiles.start N keys done s)).outstanding ≤ N ∧
    (Pipeline.LoadFiles.run Fetcher sch (Pipeline.LoadFiles.start N keys done s)).sem.cur
      = (((Pipeline.LoadFiles.run Fetcher sch
          (Pipeline.LoadFiles.start N keys done s)).tasks.countP FetchTask.running : Nat) : Int) := by
  have h := FetchInv_run Fetcher N sch _ (FetchInv_start N keys done s)
  refine ⟨?_, h.held⟩
  have h1 : (Pipeline.LoadFiles.run Fetcher sch
      (Pipeline.LoadFiles.start N keys done s)).outstanding ≤
      (Pipeline.LoadFiles.run Fetcher sch
        (Pipeline.LoadFiles.start N keys done s)).tasks.countP FetchTask.running := by
    apply List.countP_mono_left
    intro t _ ht
    cases t <;> simp_all [FetchTask.outstanding, FetchTask.running]
  have h2 := h.held
  have h3 := h.bound
  omega

theorem SaveInv_start {σ : Type} (p : Pipeline σ) (products : Chan Product) (s : σ) :
    SaveInv p.NumThreads (Pipeline.Save.start p products false s) :=
  ⟨rfl, rfl, rfl, by simp [Pipeline.Save.start, semaphore.NewWeighted],
   by simp [Pipeline.Save.start, semaphore.NewWeighted]⟩

theorem SaveInv_step {σ : Type} (p : Pipeline σ) (N : Nat) (m : Move) (hm : m ≠ Move.cancel)
    (st : SaveStage σ) (h : SaveInv N st) : SaveInv N (Pipeline.Save.step p m st) := by
  obtain ⟨hsize, hctx, hpanic, hheld, hbound⟩ := h
  have hst : SaveInv N st := ⟨hsize, hctx, hpanic, hheld, hbound⟩
  cases m with
  | cancel => exact absurd rfl hm
  | acquire =>
    simp only [Pipeline.Save.step, hpanic, Bool.false_eq_true, if_false]
    split
    · split
      · rename_i hfree
        simp only [Weighted.free, decide_eq_true_eq] at hfree
        refine ⟨hsize, hctx, rfl, ?_, ?_⟩
        · simp [Weighted.Acquire, hheld, SaveTask.running]
        · simp only [Weighted.Acquire]
          rw [hsize] at hfree
          omega
      · exact hst
    · exact hst
  | acquireFails =>
    simp only [Pipeline.Save.step, hpanic, hctx, Bool.false_eq_true, if_false]
    split <;> exact hst
  | wait =>
    simp only [Pipeline.Save.step, hpanic, Bool.false_eq_true, if_false]
    split
    · exact ⟨hsize, hctx, rfl, hheld, hbound⟩
    · exact hst
  | task i =>
    simp only [Pipeline.Save.step, hpanic, Bool.false_eq_true, if_false]
    split
    · rename_i err hi
      have hc := countP_set_balance SaveTask.running st.tasks i
        (SaveTask.calling (Worker.done err)) SaveTask.finished hi
      simp only [SaveTask.running, if_true, Bool.false_eq_true, if_false, Nat.add_zero] at hc
      refine ⟨hsize, hctx, ?_, ?_, ?_⟩
      · simp only [SaveStage.release, Weighted.Release, decide_eq_false_iff_not, not_lt]
        omega
      · simp only [SaveStage.release, Weighted.Release]
        rw [hheld, ← hc]
        push_cast
        ring
      · simp only [SaveStage.release, Weighted.Release]
        omega
    · rename_i wk _ hi
      have hc := countP_set_balance SaveTask.running st.tasks i (SaveTask.calling wk)
        (SaveTask.calling (p.stepWorker wk st.world).1) hi
      simp only [SaveTask.running, if_true, Nat.add_right_cancel_iff] at hc
      exact ⟨hsize, hctx, rfl, by simp [hheld, hc], hbound⟩
    · exact hst
  | taskDone i =>
    simp only [Pipeline.Save.step, hpanic, hctx, Bool.false_eq_true, if_false]
    split <;> exact hst

theorem SaveInv_run {σ : Type} (p : Pipeline σ) (N : Nat) :
    ∀ (sch : List Move) (st : SaveStage σ), Move.cancel ∉ sch → SaveInv N st →
      SaveInv N (Pipeline.Save.run p sch st)
  | [], _, _, h => h
  | m :: sch, st, hsch, h =>
    SaveInv_run p N sch _ (fun hIn => hsch (List.mem_cons_of_mem _ hIn))
      (SaveInv_step p N m (fun hEq => hsch (by simp [hEq])) st h)

/-- At every instant of `Save` for a context that is not cancelled, whatever
the services, the products and the schedule: the calls of `SendToDB`
outstanding are at most `NumThreads`, the weight held on the semaphore is the
number of goroutines started and not yet returned, and no `Release` panics. -/
theorem Save_outstanding_le_of_no_cancel {σ : Type} (p : Pipeline σ) (products : Chan Product)
    (s : σ) (sch : List Move) (hsch : Move.cancel ∉ sch) :
    (Pipeline.Save.run p sch (Pipeline.Save.start p products false s)).outstanding
      ≤ p.NumThreads ∧
    (Pipeline.Save.run p sch (Pipeline.Save.start p products false s)).sem.cur
      = (((Pipeline.Save.run p sch
          (Pipeline.Save.start p products false s)).tasks.countP SaveTask.running : Nat) : Int) ∧
    (Pipeline.Save.run p sch (Pipeline.Save.start p products false s)).panicked = false := by
  have h := SaveInv_run p p.NumThreads sch _ hsch (SaveInv_start p products s)
  refine ⟨?_, h.held, h.calm⟩
  have h1 : (Pipeline.Save.run p sch (Pipeline.Save.start p products false s)).outstanding ≤
      (Pipeline.Save.run p sch
        (Pipeline.Save.start p products false s)).tasks.countP SaveTask.running := by
    apply List.countP_mono_left
    intro t _ ht
    cases t <;> simp_all [SaveTask.outstanding, SaveTask.running]
  have h2 := h.held
  have h3 := h.bound
  omega

theorem getElem?_replicate_append_singleton {α : Type} (k : Nat) (a b : α) :
    (List.replicate k a ++ [b])[k]? = some b := by
  rw [List.getElem?_append_right (by simp)]
  simp

theorem set_replicate_append_singleton {α : Type} (k : Nat) (a b c : α) :
    (List.replicate k a ++ [b]).set k c = List.replicate k a ++ [c] := by
  rw [List.set_append_right _ _ (by simp)]
  simp

/-- The goroutines of `LoadFiles` one after the other, for a context that is
not cancelled and a semaphore with a permit: when the loop goroutine has
returned, the values sent on the two channels are those
`Pipeline.LoadFiles.fetch` lists, the output channel is closed, every
goroutine has returned and no weight is held. -/
theorem LoadFiles_run_oneByOne {σ : Type} (Fetcher : Fetch σ) (N : Nat) (hN : 1 ≤ N) :
    ∀ (keys : List String) (k : Nat) (out : List (List Nat)) (errs : List (Option GoError))
      (s : σ),
      Pipeline.LoadFiles.run Fetcher (oneByOne 2 k keys.length)
          { sem := ⟨N, 0⟩, ctxDone := false, keys := keys, looping := true,
            tasks := List.replicate k FetchTask.finished, outCh := ⟨out, false⟩,
            errCh := ⟨errs, false⟩, world := s }
        = { sem := ⟨N, 0⟩, ctxDone := false, keys := [], looping := false,
            tasks := List.replicate (k + keys.length) FetchTask.finished,
            outCh := ⟨out ++ (Pipeline.LoadFiles.fetch Fetcher keys s).1.1, true⟩,
            errCh := ⟨errs ++ (Pipeline.LoadFiles.fetch Fetcher keys s).1.2, false⟩,
            world := (Pipeline.LoadFiles.fetch Fetcher keys s).2 }
  | [], k, out, errs, s => by
    simp [oneByOne, Pipeline.LoadFiles.run, Pipeline.LoadFiles.step, Pipeline.LoadFiles.fetch,
      FetchTask.running]
  | path :: rest, k, out, errs, s => by
    have hfree : (Weighted.free ⟨N, 0⟩) = true := by
      simp only [Weighted.free, decide_eq_true_eq]
      omega
    have ih := LoadFiles_run_oneByOne Fetcher N hN rest (k + 1)
    rcases hG : Fetcher.Get path s with ⟨⟨data, err⟩, s1⟩
    cases err with
    | none =>
      have := ih (out ++ [data]) errs s1
      simp only [List.length_cons, oneByOne, List.replicate, List.cons_append, List.nil_append,
        Pipeline.LoadFiles.run, Pipeline.LoadFiles.step, hfree, if_true, Weighted.Acquire,
        getElem?_replicate_append_singleton, set_replicate_append_singleton, hG,
        Weighted.Release, Pipeline.LoadFiles.fetch]
      simp only [List.replicate_succ'] at this
      simp only [zero_add, sub_self, List.append_assoc, List.singleton_append,
        Nat.add_assoc, Nat.add_comm 1] at this ⊢
      exact this
    | some e =>
      have := ih (out ++ [data]) (errs ++ [some e]) s1
      simp only [List.length_cons, oneByOne, List.replicate, List.cons_append, List.nil_append,
        Pipeline.LoadFiles.run, Pipeline.LoadFiles.step, hfree, if_true, Weighted.Acquire,
        getElem?_replicate_append_singleton, set_replicate_append_singleton, hG,
        Weighted.Release, Pipeline.LoadFiles.fetch]
      simp only [List.replicate_succ'] at this
      simp only [zero_add, sub_self, List.append_assoc, List.singleton_append,
        Nat.add_assoc, Nat.add_comm 1] at this ⊢
      exact this

/-- The four moves of the goroutine of a product, with nothing in between:
the call of `SendToDB`, then the send of what it returned, the return and the
`Release`. -/
theorem Save_run_task_moves {σ : Type} (p : Pipeline σ) (N k : Nat) (pr : Product)
    (ps : Chan Product) (errs : List (Option GoError)) (s : σ) :
    Pipeline.Save.run p [Move.task k, Move.task k, Move.task k, Move.task k]
        { sem := ⟨N, 1⟩, ctxDone := false, products := ps, looping := true,
          tasks := List.replicate k SaveTask.finished ++ [SaveTask.calling (Worker.start pr)],
          errc := ⟨errs, false⟩, groupErr := none, panicked := false, world := s }
      = { sem := ⟨N, 0⟩, ctxDone := false, products := ps, looping := true,
          tasks := List.replicate k SaveTask.finished ++ [SaveTask.finished],
          errc := ⟨errs ++ [(p.SendToDB pr s).1], false⟩, groupErr := none, panicked := false,
          world := (p.SendToDB pr s).2 } := by
  rcases hx : p.CacheService.Exists pr.ID s with ⟨⟨ok, err⟩, s1⟩
  rcases hc : p.ProductService.CreateProduct pr s1 with ⟨err2, s2⟩
  cases ok <;> cases err <;> cases err2 <;>
    simp [Pipeline.Save.run, Pipeline.Save.step, getElem?_replicate_append_singleton,
      set_replicate_append_singleton, Pipeline.stepWorker, hx, hc, SaveStage.release,
      Weighted.Release, Pipeline.SendToDB]

/-- The goroutines of `Save` one after the other, for a context that is not
cancelled and a semaphore with a permit: when the loop goroutine has returned,
the values sent on the error channel are those `SendToDB` returns for the
products in their order, the channel is closed, every goroutine has returned,
no weight is held and nothing has panicked. -/
theorem Save_run_oneByOne {σ : Type} (p : Pipeline σ) (N : Nat) (hN : 1 ≤ N) :
    ∀ (products : List Product) (k : Nat) (errs : List (Option GoError)) (s : σ),
      Pipeline.Save.run p (oneByOne 4 k products.length)
          { sem := ⟨N, 0⟩, ctxDone := false, products := ⟨products, true⟩, looping := true,
            tasks := List.replicate k SaveTask.finished, errc := ⟨errs, false⟩,
            groupErr := none, panicked := false, world := s }
        = { sem := ⟨N, 0⟩, ctxDone := false, products := ⟨[], true⟩, looping := false,
            tasks := List.replicate (k + products.length) SaveTask.finished,
            errc := ⟨errs ++ (p.SendAll products s).1, true⟩,
            groupErr := none, panicked := false, world := (p.SendAll products s).2 }
  | [], k, errs, s => by
    simp [oneByOne, Pipeline.Save.run, Pipeline.Save.step, Pipeline.SendAll, SaveTask.running]
  | pr :: rest, k, errs, s => by
    have hfree : (Weighted.free ⟨N, 0⟩) = true := by
      simp only [Weighted.free, decide_eq_true_eq]
      omega
    have ih := Save_run_oneByOne p N hN rest (k + 1)
      (errs ++ [(p.SendToDB pr s).1]) (p.SendToDB pr s).2
    have h4 := Save_run_task_moves p N k pr ⟨rest, true⟩ errs s
    have hrun : ∀ (a b : List Move) (st : SaveStage σ),
        Pipeline.Save.run p (a ++ b) st = Pipeline.Save.run p b (Pipeline.Save.run p a st) := by
      intro a
      induction a with
      | nil => intro b st; rfl
      | cons m a iha => intro b st; exact iha b _
    have hacq : Pipeline.Save.step p Move.acquire
        { sem := ⟨N, 0⟩, ctxDone := false, products := ⟨pr :: rest, true⟩, looping := true,
          tasks := List.replicate k SaveTask.finished, errc := ⟨errs, false⟩,
          groupErr := none, panicked := false, world := s }
        = { sem := ⟨N, 1⟩, ctxDone := false, products := ⟨rest, true⟩, looping := true,
            tasks := List.replicate k SaveTask.finished ++ [SaveTask.calling (Worker.start pr)],
            errc := ⟨errs, false⟩, groupErr := none, panicked := false, world := s } := by
      simp [Pipeline.Save.step, hfree, Weighted.Acquire]
    have hrep : List.replicate 4 (Move.task k)
        = [Move.task k, Move.task k, Move.task k, Move.task k] := rfl
    rw [List.length_cons, oneByOne, Pipeline.Save.run, hacq, hrun, hrep, h4]
    rw [← List.replicate_succ'] 
    rw [ih]
    simp [Pipeline.SendAll, Nat.add_assoc, Nat.add_comm 1]

/-- The bound of `LoadFiles` is reached and holds the loop back: with
`NumThreads` 2 and three keys, after two `Acquire` two calls of `Get` are
outstanding, a third `Acquire` does not return `nil` until a goroutine has
returned, and then it does. -/
theorem LoadFiles_bound_is_reached :
    (Pipeline.LoadFiles.run (filesFetch [("a.jsonl", [97, 10])]) [Move.acquire, Move.acquire]
      (Pipeline.LoadFiles.start 2 ["a.jsonl", "b.jsonl", "c.jsonl"] false ())).outstanding = 2 ∧
    Pipeline.LoadFiles.run (filesFetch [("a.jsonl", [97, 10])])
        [Move.acquire, Move.acquire, Move.acquire]
        (Pipeline.LoadFiles.start 2 ["a.jsonl", "b.jsonl", "c.jsonl"] false ())
      = Pipeline.LoadFiles.run (filesFetch [("a.jsonl", [97, 10])]) [Move.acquire, Move.acquire]
          (Pipeline.LoadFiles.start 2 ["a.jsonl", "b.jsonl", "c.jsonl"] false ()) ∧
    (Pipeline.LoadFiles.run (filesFetch [("a.jsonl", [97, 10])])
        [Move.acquire, Move.acquire, Move.task 0, Move.task 0, Move.acquire]
        (Pipeline.LoadFiles.start 2 ["a.jsonl", "b.jsonl", "c.jsonl"] false ())).tasks
      = [FetchTask.finished, FetchTask.calling "b.jsonl", FetchTask.calling "c.jsonl"] := by
  decide

/-- The goroutines of `LoadFiles` one after the other send what the method
`Pipeline.LoadFiles` returns as its channels, for a context that is not
cancelled, a semaphore with a permit and at least one key. -/
theorem LoadFiles_oneByOne_eq_LoadFiles {σ : Type} (Fetcher : Fetch σ) (N : Nat) (hN : 1 ≤ N)
    (keys : List String) (hkeys : keys ≠ []) (s : σ) :
    Pipeline.LoadFiles Fetcher N keys s
      = ((some (Pipeline.LoadFiles.run Fetcher (oneByOne 2 0 keys.length)
              (Pipeline.LoadFiles.start N keys false s)).outCh,
          some (Pipeline.LoadFiles.run Fetcher (oneByOne 2 0 keys.length)
              (Pipeline.LoadFiles.start N keys false s)).errCh, none),
         (Pipeline.LoadFiles.run Fetcher (oneByOne 2 0 keys.length)
              (Pipeline.LoadFiles.start N keys false s)).world) := by
  have h := LoadFiles_run_oneByOne Fetcher N hN keys 0 [] [] s
  simp only [List.replicate_zero, List.nil_append] at h
  have hlen : (keys.length == 0) = false := by
    cases keys with
    | nil => exact absurd rfl hkeys
    | cons a l => rfl
  have hN0 : (N == 0) = false := by
    cases N with
    | zero => omega
    | succ n => rfl
  simp only [Pipeline.LoadFiles.start, semaphore.NewWeighted, h, Pipeline.LoadFiles, hlen, hN0,
    Bool.false_eq_true, if_false]

/-- The goroutines of `Save` one after the other send what the method
`Pipeline.Save` returns as its channel, for a context that is not cancelled, a
semaphore with a permit and an input channel that is closed. -/
theorem Save_oneByOne_eq_Save {σ : Type} (p : Pipeline σ) (hN : 1 ≤ p.NumThreads)
    (products : List Product) (s : σ) :
    p.Save ⟨products, true⟩ s
      = (((Pipeline.Save.run p (oneByOne 4 0 products.length)
              (Pipeline.Save.start p ⟨products, true⟩ false s)).errc, none),
         (Pipeline.Save.run p (oneByOne 4 0 products.length)
              (Pipeline.Save.start p ⟨products, true⟩ false s)).world) := by
  have h := Save_run_oneByOne p p.NumThreads hN products 0 [] s
  simp only [List.replicate_zero, List.nil_append] at h
  have hN0 : (p.NumThreads == 0) = false := by
    cases hn : p.NumThreads with
    | zero => omega
    | succ n => rfl
  simp only [Pipeline.Save.start, semaphore.NewWeighted, h, Pipeline.Save, hN0,
    Bool.false_and, Bool.false_eq_true, if_false]

set_option maxRecDepth 100000 in
/-- C21. At most `NumThreads` calls outstanding. For `LoadFiles` it holds: at
every instant, whatever the fetcher, the keys, the schedule and the moment the
context is cancelled, at most `NumThreads` calls of `Get` are outstanding. For
`Save` it holds as long as the context is not cancelled, and not after: with
`NumThreads` 1 and the two test products, the goroutine of the first product
holds the permit and is inside `SendToDB` when the context is cancelled; the
`Acquire` for the second product fails, the goroutine of the second product is
started all the same and enters `SendToDB`: two calls of `SendToDB` are
outstanding, with a weight of 1 held. -/
theorem Save_exceeds_NumThreads_after_cancel :
    (∀ (σ : Type) (Fetcher : Fetch σ) (N : Nat) (keys : List String) (done : Bool) (s : σ)
        (sch : List Move),
      (Pipeline.LoadFiles.run Fetcher sch
        (Pipeline.LoadFiles.start N keys done s)).outstanding ≤ N) ∧
    (∀ (σ : Type) (p : Pipeline σ) (products : Chan Product) (s : σ) (sch : List Move),
      Move.cancel ∉ sch →
      (Pipeline.Save.run p sch (Pipeline.Save.start p products false s)).outstanding
        ≤ p.NumThreads) ∧
    (ModelPipeline noFault).NumThreads = 1 ∧
    (Pipeline.Save.run (ModelPipeline noFault)
        [Move.acquire, Move.task 0, Move.cancel, Move.acquireFails, Move.task 1]
        (Pipeline.Save.start (ModelPipeline noFault) ⟨[product1, product2], true⟩ false
          Traced.fresh)).tasks
      = [SaveTask.calling (Worker.looked product1), SaveTask.calling (Worker.looked product2)] ∧
    (Pipeline.Save.run (ModelPipeline noFault)
        [Move.acquire, Move.task 0, Move.cancel, Move.acquireFails, Move.task 1]
        (Pipeline.Save.start (ModelPipeline noFault) ⟨[product1, product2], true⟩ false
          Traced.fresh)).outstanding = 2 ∧
    (Pipeline.Save.run (ModelPipeline noFault)
        [Move.acquire, Move.task 0, Move.cancel, Move.acquireFails, Move.task 1]
        (Pipeline.Save.start (ModelPipeline noFault) ⟨[product1, product2], true⟩ false
          Traced.fresh)).sem = ⟨1, 1⟩ :=
  ⟨fun _ Fetcher N keys done s sch => (LoadFiles_outstanding_le Fetcher N keys done s sch).1,
   fun _ p products s sch hsch => (Save_outstanding_le_of_no_cancel p products s sch hsch).1,
   rfl, by decide, by decide, by decide⟩

set_option maxRecDepth 100000 in
/-- C22. A record whose permit acquisition fails after the context is
cancelled, for which `Save` starts a worker, issues cache and store calls and
releases a permit that was not acquired. With `NumThreads` 1 and the two test
products: the goroutine of the first product holds the permit and is inside
`SendToDB` when the context is cancelled, and the second product is received
after that. Its `Acquire` cannot return `nil`, no permit being free. It fails:
the error is sent, and the goroutine of the second product is started with the
weight held still 1. That goroutine
calls `Exists`, `CreateProduct` (which inserts the row) and `Set` for the
second product. Its `Release` takes the weight to 0 while the goroutine of the
first product is still running; when that one returns, its `Release` takes the
weight to -1 and panics. -/
theorem Save_starts_worker_after_failed_Acquire :
    (Pipeline.Save.run (ModelPipeline noFault) [Move.acquire, Move.task 0, Move.cancel]
        (Pipeline.Save.start (ModelPipeline noFault) ⟨[product1, product2], true⟩ false
          Traced.fresh))
      = { sem := ⟨1, 1⟩, ctxDone := true, products := ⟨[product2], true⟩, looping := true,
          tasks := [SaveTask.calling (Worker.looked product1)], errc := ⟨[], false⟩,
          groupErr := none, panicked := false,
          world := ⟨{ cache := [], rows := [], tick := 1 },
            [Event.cacheExists 1 false none]⟩ } ∧
    Pipeline.Save.step (ModelPipeline noFault) Move.acquire
        (Pipeline.Save.run (ModelPipeline noFault) [Move.acquire, Move.task 0, Move.cancel]
          (Pipeline.Save.start (ModelPipeline noFault) ⟨[product1, product2], true⟩ false
            Traced.fresh))
      = Pipeline.Save.run (ModelPipeline noFault) [Move.acquire, Move.task 0, Move.cancel]
          (Pipeline.Save.start (ModelPipeline noFault) ⟨[product1, product2], true⟩ false
            Traced.fresh) ∧
    (Pipeline.Save.run (ModelPipeline noFault)
        [Move.acquire, Move.task 0, Move.cancel, Move.acquireFails]
        (Pipeline.Save.start (ModelPipeline noFault) ⟨[product1, product2], true⟩ false
          Traced.fresh))
      = { sem := ⟨1, 1⟩, ctxDone := true, products := ⟨[], true⟩, looping := true,
          tasks := [SaveTask.calling (Worker.looked product1),
            SaveTask.calling (Worker.start product2)],
          errc := ⟨[some context.Canceled], false⟩, groupErr := none, panicked := false,
          world := ⟨{ cache := [], rows := [], tick := 1 },
            [Event.cacheExists 1 false none]⟩ } ∧
    (Pipeline.Save.run (ModelPipeline noFault)
        [Move.acquire, Move.task 0, Move.cancel, Move.acquireFails,
         Move.task 1, Move.task 1, Move.task 1]
        (Pipeline.Save.start (ModelPipeline noFault) ⟨[product1, product2], true⟩ false
          Traced.fresh)).world
      = ⟨{ cache := [2], rows := [product2], tick := 4 },
          [Event.cacheExists 1 false none, Event.cacheExists 2 false none,
           Event.insert product2 none, Event.create product2 none, Event.cacheSet 2 none]⟩ ∧
    (Pipeline.Save.run (ModelPipeline noFault)
        [Move.acquire, Move.task 0, Move.cancel, Move.acquireFails,
         Move.task 1, Move.task 1, Move.task 1, Move.taskDone 1]
        (Pipeline.Save.start (ModelPipeline noFault) ⟨[product1, product2], true⟩ false
          Traced.fresh)).sem = ⟨1, 0⟩ ∧
    (Pipeline.Save.run (ModelPipeline noFault)
        [Move.acquire, Move.task 0, Move.cancel, Move.acquireFails,
         Move.task 1, Move.task 1, Move.task 1, Move.taskDone 1]
        (Pipeline.Save.start (ModelPipeline noFault) ⟨[product1, product2], true⟩ false
          Traced.fresh)).tasks
      = [SaveTask.calling (Worker.looked product1), SaveTask.finished] ∧
    (Pipeline.Save.run (ModelPipeline noFault)
        [Move.acquire, Move.task 0, Move.cancel, Move.acquireFails,
         Move.task 1, Move.task 1, Move.task 1, Move.taskDone 1,
         Move.task 0, Move.task 0, Move.taskDone 0]
        (Pipeline.Save.start (ModelPipeline noFault) ⟨[product1, product2], true⟩ false
          Traced.fresh)).sem = ⟨1, -1⟩ ∧
    (Pipeline.Save.run (ModelPipeline noFault)
        [Move.acquire, Move.task 0, Move.cancel, Move.acquireFails,
         Move.task 1, Move.task 1, Move.task 1, Move.taskDone 1,
         Move.task 0, Move.task 0, Move.taskDone 0]
        (Pipeline.Save.start (ModelPipeline noFault) ⟨[product1, product2], true⟩ false
          Traced.fresh)).panicked = true := by
  refine ⟨by decide, by decide, by decide, by decide, by decide, by decide, by decide, by decide⟩

/-! ### Save on a fresh cache -/

theorem mem_of_getElem?_some {α : Type} (l : List α) (i : Nat) (a : α) (h : l[i]? = some a) :
    a ∈ l := by
  obtain ⟨hlt, rfl⟩ := List.getElem?_eq_some.mp h
  exact List.getElem_mem hlt

theorem set_of_getElem?_some {α : Type} (l : List α) (i : Nat) (a : α) (h : l[i]? = some a) :
    l.set i a = l := by
  apply List.ext_getElem?
  intro j
  by_cases hj : i = j
  · subst hj
    have hlt : i < l.length := (List.getElem?_eq_some.mp h).1
    rw [List.getElem?_set_self hlt, h]
  · rw [List.getElem?_set_ne hj]

theorem stepWorker_withNumThreads {σ : Type} (p : Pipeline σ) (n : Nat) (wk : Worker) (s : σ) :
    (p.withNumThreads n).stepWorker wk s = p.stepWorker wk s := by
  cases wk <;> rfl

theorem Save_step_withNumThreads {σ : Type} (p : Pipeline σ) (n : Nat) (m : Move)
    (st : SaveStage σ) :
    Pipeline.Save.step (p.withNumThreads n) m st = Pipeline.Save.step p m st := by
  cases m <;> simp only [Pipeline.Save.step, stepWorker_withNumThreads]

theorem Save_run_withNumThreads {σ : Type} (p : Pipeline σ) (n : Nat) :
    ∀ (sch : List Move) (st : SaveStage σ),
      Pipeline.Save.run (p.withNumThreads n) sch st = Pipeline.Save.run p sch st
  | [], _ => rfl
  | m :: sch, st => by
    simp only [Pipeline.Save.run, Save_step_withNumThreads]
    exact Save_run_withNumThreads p n sch _

theorem SendAll_withNumThreads {σ : Type} (p : Pipeline σ) (n : Nat) :
    ∀ (rs : List Product) (s : σ), (p.withNumThreads n).SendAll rs s = p.SendAll rs s
  | [], _ => rfl
  | pr :: rest, s => by
    have h1 : (p.withNumThreads n).SendToDB pr s = p.SendToDB pr s := rfl
    simp only [Pipeline.SendAll, h1, SendAll_withNumThreads p n rest]

theorem pool_getElem? {σ : Type} (st : SaveStage σ) (i : Nat) (t : SaveTask)
    (h : st.tasks[i]? = some t) : st.pool[i]? = some t.worker := by
  have hi : i < st.tasks.length := (List.getElem?_eq_some.mp h).1
  simp only [SaveStage.pool]
  rw [List.getElem?_append_left (by simpa using hi)]
  simp [List.getElem?_map, h]

theorem pool_set (tasks : List SaveTask) (sent : List Product) (i : Nat) (t : SaveTask)
    (hi : i < tasks.length) :
    (tasks.set i t).map SaveTask.worker ++ sent.map Worker.start
      = (tasks.map SaveTask.worker ++ sent.map Worker.start).set i t.worker := by
  rw [List.set_append_left _ _ (by simpa using hi), List.map_set]

theorem countP_not_running_set (tasks : List SaveTask) (i : Nat) (old new : SaveTask)
    (h : tasks[i]? = some old) :
    (tasks.set i new).countP (fun t => !t.running) + (if old.running then 0 else 1)
      = tasks.countP (fun t => !t.running) + (if new.running then 0 else 1) := by
  have hc := countP_set_balance (fun t => !t.running) tasks i old new h
  cases ho : old.running <;> cases hn : new.running <;> simp_all

/-- A move of the goroutines of `Save` other than the cancellation keeps what
`SaveRunInv` says. -/
theorem SaveRunInv_step (rs : List Product) (hValid : ∀ pr ∈ rs, pr.Validate = none)
    (hNodup : (rs.map Product.ID).Nodup) (m : Move) (hm : m ≠ Move.cancel)
    (st : SaveStage (Traced Env)) (h : SaveRunInv rs st) :
    SaveRunInv rs (Pipeline.Save.step (ModelPipeline noFault) m st) := by
  obtain ⟨hpool, hlive, hcalm, hheld, hsent, hgroup, hended⟩ := h
  have hst : SaveRunInv rs st := ⟨hpool, hlive, hcalm, hheld, hsent, hgroup, hended⟩
  cases m with
  | cancel => exact absurd rfl hm
  | acquire =>
    simp only [Pipeline.Save.step, hcalm, Bool.false_eq_true, if_false]
    split
    · rename_i pr rest hloop hprod
      split
      · refine ⟨?_, hlive, rfl, ?_, ?_, hgroup, ?_⟩
        · have : (st.tasks ++ [SaveTask.calling (Worker.start pr)]).map SaveTask.worker
              ++ rest.map Worker.start = st.pool := by
            simp [SaveStage.pool, hprod, SaveTask.worker]
          simp only [SaveStage.pool]
          rw [this]
          exact hpool
        · simp [Weighted.Acquire, hheld, SaveTask.running]
        · simp [hsent, SaveTask.running]
        · intro hl
          simp only at hl
          rw [hloop] at hl
          exact absurd hl (by decide)
      · exact hst
    · exact hst
  | acquireFails =>
    simp only [Pipeline.Save.step, hcalm, hlive, Bool.false_eq_true, if_false]
    split <;> exact hst
  | wait =>
    simp only [Pipeline.Save.step, hcalm, Bool.false_eq_true, if_false]
    split
    · rename_i hcond
      simp only [Bool.and_eq_true, List.isEmpty_iff, List.all_eq_true, Bool.not_eq_true'] at hcond
      obtain ⟨⟨⟨_, hempty⟩, _⟩, hall⟩ := hcond
      refine ⟨hpool, hlive, rfl, hheld, ?_, hgroup, ?_⟩
      · simp only [hgroup]
        exact hsent
      · intro _
        refine ⟨hempty, ?_, ?_⟩
        · intro t ht
          have := hall t ht
          cases t with
          | calling wk => simp [SaveTask.running] at this
          | finished => rfl
        · simp only [hgroup]
    · exact hst
  | task i =>
    simp only [Pipeline.Save.step, hcalm, Bool.false_eq_true, if_false]
    split
    · rename_i err hi
      have hlt : i < st.tasks.length := (List.getElem?_eq_some.mp hi).1
      have hp := pool_getElem? st i _ hi
      simp only [SaveTask.worker] at hp
      have hri : i < rs.length := by
        have := (List.getElem?_eq_some.mp hp).1
        rw [hpool.len] at this
        exact this
      have herr : err = none := by
        rcases hpool.own i rs[i] (List.getElem?_eq_getElem hri) with h1 | h1 | h1 | h1 <;>
          rw [hp] at h1 <;> simp at h1
        exact h1
      subst herr
      have hc := countP_set_balance SaveTask.running st.tasks i
        (SaveTask.calling (Worker.done none)) SaveTask.finished hi
      simp only [SaveTask.running, if_true, Bool.false_eq_true, if_false, Nat.add_zero] at hc
      have hn : (st.tasks.set i SaveTask.finished).countP (fun t => !t.running)
          = st.tasks.countP (fun t => !t.running) + 1 := by
        have := countP_not_running_set st.tasks i (SaveTask.calling (Worker.done none))
          SaveTask.finished hi
        simpa [SaveTask.running] using this
      refine ⟨?_, hlive, ?_, ?_, ?_, hgroup, ?_⟩
      · simp only [SaveStage.release, SaveStage.pool]
        rw [pool_set _ _ _ _ hlt]
        have : (st.tasks.map SaveTask.worker ++ st.products.sent.map Worker.start).set i
            SaveTask.finished.worker = st.pool := by
          simp only [SaveTask.worker, SaveStage.pool]
          exact set_of_getElem?_some _ i _ hp
        rw [this]
        exact hpool
      · simp only [SaveStage.release, Weighted.Release, decide_eq_false_iff_not, not_lt]
        omega
      · simp only [SaveStage.release, Weighted.Release]
        rw [hheld, ← hc]
        push_cast
        ring
      · simp only [SaveStage.release]
        rw [hsent, hn, List.replicate_succ']
      · intro hl
        simp only [SaveStage.release] at hl
        have := (hended hl).2.1 _ (mem_of_getElem?_some _ _ _ hi)
        cases this
    · rename_i wk hnd hi
      have hlt : i < st.tasks.length := (List.getElem?_eq_some.mp hi).1
      have hp := pool_getElem? st i _ hi
      simp only [SaveTask.worker] at hp
      obtain ⟨hstep, _⟩ := PoolInv_step rs hValid hNodup st.pool st.world hpool i wk hp
      have hc := countP_set_balance SaveTask.running st.tasks i (SaveTask.calling wk)
        (SaveTask.calling ((ModelPipeline noFault).stepWorker wk st.world).1) hi
      simp only [SaveTask.running, if_true, Nat.add_right_cancel_iff] at hc
      have hn : (st.tasks.set i
            (SaveTask.calling ((ModelPipeline noFault).stepWorker wk st.world).1)).countP
              (fun t => !t.running)
          = st.tasks.countP (fun t => !t.running) := by
        have := countP_not_running_set st.tasks i (SaveTask.calling wk)
          (SaveTask.calling ((ModelPipeline noFault).stepWorker wk st.world).1) hi
        simpa [SaveTask.running] using this
      refine ⟨?_, hlive, rfl, ?_, ?_, hgroup, ?_⟩
      · simp only [SaveStage.pool]
        rw [pool_set _ _ _ _ hlt]
        exact hstep
      · simp [hheld, hc]
      · simp only
        rw [hsent, hn]
      · intro hl
        simp only at hl
        have := (hended hl).2.1 _ (mem_of_getElem?_some _ _ _ hi)
        cases this
    · exact hst
  | taskDone i =>
    simp only [Pipeline.Save.step, hcalm, hlive, Bool.false_eq_true, if_false]
    split <;> exact hst

theorem SaveRunInv_run (rs : List Product) (hValid : ∀ pr ∈ rs, pr.Validate = none)
    (hNodup : (rs.map Product.ID).Nodup) :
    ∀ (sch : List Move) (st : SaveStage (Traced Env)), Move.cancel ∉ sch → SaveRunInv rs st →
      SaveRunInv rs (Pipeline.Save.run (ModelPipeline noFault) sch st)
  | [], _, _, h => h
  | m :: sch, st, hsch, h =>
    SaveRunInv_run rs hValid hNodup sch _ (fun hIn => hsch (List.mem_cons_of_mem _ hIn))
      (SaveRunInv_step rs hValid hNodup m (fun hEq => hsch (by simp [hEq])) st h)

theorem SaveRunInv_start (rs : List Product) (N : Nat) :
    SaveRunInv rs (Pipeline.Save.start ((ModelPipeline noFault).withNumThreads N) ⟨rs, true⟩ false
      Traced.fresh) := by
  refine ⟨?_, rfl, rfl, ?_, ?_, rfl, ?_⟩
  · simpa [SaveStage.pool, Pipeline.Save.start] using PoolInv_fresh rs
  · simp [Pipeline.Save.start, semaphore.NewWeighted]
  · simp [Pipeline.Save.start]
  · intro hl
    simp [Pipeline.Save.start] at hl

theorem cancel_not_mem_oneByOne (steps : Nat) : ∀ (n k : Nat), Move.cancel ∉ oneByOne steps k n
  | 0, k => by simp [oneByOne]
  | n + 1, k => by
    have ih := cancel_not_mem_oneByOne steps n (k + 1)
    simp only [oneByOne, List.mem_cons, List.mem_append, List.mem_replicate, not_or]
    exact ⟨by decide, fun h => (by cases h.2), ih⟩

/-- At every instant of `Save` for valid records with distinct identifiers,
against the fresh world with no failing call and a context that is not
cancelled, whatever the number of threads and the schedule: nothing has
panicked and at most one `CreateProduct` and one `Set` per record have been
called. Once the loop goroutine has returned, the error channel is closed and
carries one `nil` per record, every goroutine has returned, and exactly one
`CreateProduct`, one insert and one `Set` per record have been called. -/
theorem model_Save_run_fresh_counts (rs : List Product)
    (hValid : ∀ pr ∈ rs, pr.Validate = none) (hNodup : (rs.map Product.ID).Nodup) (N : Nat)
    (sch : List Move) (hsch : Move.cancel ∉ sch) :
    (Pipeline.Save.run ((ModelPipeline noFault).withNumThreads N) sch
        (Pipeline.Save.start ((ModelPipeline noFault).withNumThreads N) ⟨rs, true⟩ false
          Traced.fresh)).panicked = false ∧
    createCalls (Pipeline.Save.run ((ModelPipeline noFault).withNumThreads N) sch
        (Pipeline.Save.start ((ModelPipeline noFault).withNumThreads N) ⟨rs, true⟩ false
          Traced.fresh)).world.log ≤ rs.length ∧
    setCalls (Pipeline.Save.run ((ModelPipeline noFault).withNumThreads N) sch
        (Pipeline.Save.start ((ModelPipeline noFault).withNumThreads N) ⟨rs, true⟩ false
          Traced.fresh)).world.log ≤ rs.length ∧
    ((Pipeline.Save.run ((ModelPipeline noFault).withNumThreads N) sch
        (Pipeline.Save.start ((ModelPipeline noFault).withNumThreads N) ⟨rs, true⟩ false
          Traced.fresh)).looping = false →
      (Pipeline.Save.run ((ModelPipeline noFault).withNumThreads N) sch
          (Pipeline.Save.start ((ModelPipeline noFault).withNumThreads N) ⟨rs, true⟩ false
            Traced.fresh)).errc = ⟨List.replicate rs.length none, true⟩ ∧
      (Pipeline.Save.run ((ModelPipeline noFault).withNumThreads N) sch
          (Pipeline.Save.start ((ModelPipeline noFault).withNumThreads N) ⟨rs, true⟩ false
            Traced.fresh)).tasks = List.replicate rs.length SaveTask.finished ∧
      createCalls (Pipeline.Save.run ((ModelPipeline noFault).withNumThreads N) sch
          (Pipeline.Save.start ((ModelPipeline noFault).withNumThreads N) ⟨rs, true⟩ false
            Traced.fresh)).world.log = rs.length ∧
      setCalls (Pipeline.Save.run ((ModelPipeline noFault).withNumThreads N) sch
          (Pipeline.Save.start ((ModelPipeline noFault).withNumThreads N) ⟨rs, true⟩ false
            Traced.fresh)).world.log = rs.length ∧
      insertCalls (Pipeline.Save.run ((ModelPipeline noFault).withNumThreads N) sch
          (Pipeline.Save.start ((ModelPipeline noFault).withNumThreads N) ⟨rs, true⟩ false
            Traced.fresh)).world.log = rs.length) := by
  rw [Save_run_withNumThreads]
  have inv := SaveRunInv_run rs hValid hNodup sch _ hsch (SaveRunInv_start rs N)
  generalize Pipeline.Save.run (ModelPipeline noFault) sch
    (Pipeline.Save.start ((ModelPipeline noFault).withNumThreads N) ⟨rs, true⟩ false
      Traced.fresh) = fin at inv
  have hlen := inv.pool.len
  refine ⟨inv.calm, ?_, ?_, ?_⟩
  · rw [inv.pool.nCreate, ← hlen]
    exact List.countP_le_length _
  · rw [inv.pool.nSet, ← hlen]
    exact List.countP_le_length _
  · intro hend
    obtain ⟨hprod, hall, hclosed⟩ := inv.ended hend
    have htasks : fin.tasks = List.replicate fin.tasks.length SaveTask.finished :=
      List.eq_replicate_iff.mpr ⟨rfl, hall⟩
    have hpool : fin.pool = List.replicate fin.tasks.length (Worker.done none) := by
      simp only [SaveStage.pool, hprod, List.map_nil, List.append_nil]
      rw [htasks]
      simp [SaveTask.worker]
    have hn : fin.tasks.length = rs.length := by
      rw [hpool] at hlen
      simpa using hlen
    have hcount : fin.tasks.countP (fun t => !t.running) = rs.length := by
      rw [htasks, hn]
      simp [List.countP_replicate, SaveTask.running]
    refine ⟨?_, ?_, ?_, ?_, ?_⟩
    · have h1 := inv.sent
      rw [hcount] at h1
      cases hc : fin.errc with
      | mk sent closed =>
        rw [hc] at h1 hclosed
        simp only at h1 hclosed
        rw [h1, hclosed]
    · rw [htasks, hn]
    · rw [inv.pool.nCreate, hpool, hn]
      simp [List.countP_replicate, Worker.phase]
    · rw [inv.pool.nSet, hpool, hn]
      simp [List.countP_replicate, Worker.phase]
    · rw [inv.pool.nInsert, hpool, hn]
      simp [List.countP_replicate, Worker.phase]

/-- With at least one thread the goroutines of `Save` can run to their end:
one after the other they do, and the loop goroutine returns. -/
theorem model_Save_run_oneByOne_ends (rs : List Product) (N : Nat) (hN : 1 ≤ N) :
    Move.cancel ∉ oneByOne 4 0 rs.length ∧
    (Pipeline.Save.run ((ModelPipeline noFault).withNumThreads N) (oneByOne 4 0 rs.length)
        (Pipeline.Save.start ((ModelPipeline noFault).withNumThreads N) ⟨rs, true⟩ false
          Traced.fresh)).looping = false := by
  refine ⟨cancel_not_mem_oneByOne 4 rs.length 0, ?_⟩
  have h := Save_run_oneByOne ((ModelPipeline noFault).withNumThreads N) N hN rs 0 []
    Traced.fresh
  simp only [List.replicate_zero] at h
  have hstart : Pipeline.Save.start ((ModelPipeline noFault).withNumThreads N) ⟨rs, true⟩ false
      Traced.fresh
      = { sem := ⟨N, 0⟩, ctxDone := false, products := ⟨rs, true⟩, looping := true,
          tasks := [], errc := ⟨[], false⟩, groupErr := none, panicked := false,
          world := Traced.fresh } := rfl
  rw [hstart, h]

/-- The method `Save` with at least one thread, for valid records with
distinct identifiers against the fresh world with no failing call: it returns
no error, its channel carries one `nil` per record and is closed, and one
`CreateProduct`, one insert and one `Set` per record are called. -/
theorem model_Save_fresh_counts (rs : List Product)
    (hValid : ∀ pr ∈ rs, pr.Validate = none) (hNodup : (rs.map Product.ID).Nodup) (N : Nat)
    (hN : 1 ≤ N) :
    (((ModelPipeline noFault).withNumThreads N).Save ⟨rs, true⟩ Traced.fresh).1
      = (⟨List.replicate rs.length none, true⟩, none) ∧
    createCalls (((ModelPipeline noFault).withNumThreads N).Save ⟨rs, true⟩
      Traced.fresh).2.log = rs.length ∧
    setCalls (((ModelPipeline noFault).withNumThreads N).Save ⟨rs, true⟩
      Traced.fresh).2.log = rs.length ∧
    insertCalls (((ModelPipeline noFault).withNumThreads N).Save ⟨rs, true⟩
      Traced.fresh).2.log = rs.length := by
  have hN0 : (((ModelPipeline noFault).withNumThreads N).NumThreads == 0) = false := by
    show (N == 0) = false
    cases N with
    | zero => omega
    | succ n => rfl
  have hs : ((ModelPipeline noFault).withNumThreads N).Save ⟨rs, true⟩ Traced.fresh
      = ((⟨((ModelPipeline noFault).SendAll rs Traced.fresh).1, true⟩, none),
          ((ModelPipeline noFault).SendAll rs Traced.fresh).2) := by
    simp only [Pipeline.Save, hN0, Bool.false_and, Bool.false_eq_true, if_false,
      SendAll_withNumThreads]
  obtain ⟨h1, h2, h3, h4⟩ := model_SendAll_fresh_counts rs hValid hNodup
  rw [hs]
  exact ⟨by rw [h1], h2, h3, h4⟩

set_option maxRecDepth 100000 in
/-- Three records and two threads, the goroutines of the first two records
running side by side with their port calls interleaved, the third started
when a permit is free again: `Save` ends with three `nil` on its closed
channel after three calls each of `CreateProduct` and `Set`. -/
theorem model_Save_run_side_by_side :
    (Pipeline.Save.run ((ModelPipeline noFault).withNumThreads 2)
        [Move.acquire, Move.acquire, Move.acquire, Move.task 0, Move.task 1, Move.task 1,
         Move.task 0, Move.task 0, Move.task 1, Move.task 1, Move.acquire, Move.task 0,
         Move.task 2, Move.task 2, Move.task 2, Move.task 2, Move.wait]
        (Pipeline.Save.start ((ModelPipeline noFault).withNumThreads 2)
          ⟨[product1, product2, { product2 with ID := 3 }], true⟩ false Traced.fresh)).errc
      = ⟨[none, none, none], true⟩ ∧
    createCalls (Pipeline.Save.run ((ModelPipeline noFault).withNumThreads 2)
        [Move.acquire, Move.acquire, Move.acquire, Move.task 0, Move.task 1, Move.task 1,
         Move.task 0, Move.task 0, Move.task 1, Move.task 1, Move.acquire, Move.task 0,
         Move.task 2, Move.task 2, Move.task 2, Move.task 2, Move.wait]
        (Pipeline.Save.start ((ModelPipeline noFault).withNumThreads 2)
          ⟨[product1, product2, { product2 with ID := 3 }], true⟩ false
          Traced.fresh)).world.log = 3 ∧
    setCalls (Pipeline.Save.run ((ModelPipeline noFault).withNumThreads 2)
        [Move.acquire, Move.acquire, Move.acquire, Move.task 0, Move.task 1, Move.task 1,
         Move.task 0, Move.task 0, Move.task 1, Move.task 1, Move.acquire, Move.task 0,
         Move.task 2, Move.task 2, Move.task 2, Move.task 2, Move.wait]
        (Pipeline.Save.start ((ModelPipeline noFault).withNumThreads 2)
          ⟨[product1, product2, { product2 with ID := 3 }], true⟩ false
          Traced.fresh)).world.log = 3 ∧
    (Pipeline.Save.run ((ModelPipeline noFault).withNumThreads 2)
        [Move.acquire, Move.acquire, Move.acquire, Move.task 0, Move.task 1]
        (Pipeline.Save.start ((ModelPipeline noFault).withNumThreads 2)
          ⟨[product1, product2, { product2 with ID := 3 }], true⟩ false
          Traced.fresh)).tasks
      = [SaveTask.calling (Worker.looked product1), SaveTask.calling (Worker.looked product2)] := by
  refine ⟨by decide, by decide, by decide, by decide⟩

/-- C6. Call counts on a fresh cache: for every list of `n` records that all
pass validation and have pairwise distinct identifiers, handled against the
empty cache and the empty table with no failing call, no error is reported and
exactly `n` calls of `CreateProduct` (running `n` inserts) and exactly `n` calls
of `Set` are made. This holds of the calls of `SendToDB` sent one after the
other, and run concurrently with their port calls interleaved by any schedule
that lets every call finish. It holds of `Save`: the method with at least one
thread returns no error and a closed channel that carries `n` times `nil`; and
its goroutines, for any number of threads and under any schedule in which the
context is not cancelled, never panic and never call `CreateProduct` or `Set`
more than `n` times, and when the loop goroutine has returned they have sent
`n` times `nil`, closed the channel, and called `CreateProduct`, the insert and
`Set` exactly `n` times each. With at least one thread the goroutines do run to
that end, for one when they run one after the other. -/
theorem persist_fresh_call_counts (rs : List Product)
    (hValid : ∀ pr ∈ rs, pr.Validate = none) (hNodup : (rs.map Product.ID).Nodup) :
    (((ModelPipeline noFault).SendAll rs Traced.fresh).1 = List.replicate rs.length none ∧
      createCalls ((ModelPipeline noFault).SendAll rs Traced.fresh).2.log = rs.length ∧
      setCalls ((ModelPipeline noFault).SendAll rs Traced.fresh).2.log = rs.length ∧
      insertCalls ((ModelPipeline noFault).SendAll rs Traced.fresh).2.log = rs.length) ∧
    (∀ sch : List Nat, (∀ i < rs.length, 3 ≤ sch.count i) →
      ((ModelPipeline noFault).runWorkers sch (rs.map Worker.start) Traced.fresh).1
          = List.replicate rs.length (Worker.done none) ∧
      createCalls ((ModelPipeline noFault).runWorkers sch (rs.map Worker.start)
          Traced.fresh).2.log = rs.length ∧
      setCalls ((ModelPipeline noFault).runWorkers sch (rs.map Worker.start)
          Traced.fresh).2.log = rs.length ∧
      insertCalls ((ModelPipeline noFault).runWorkers sch (rs.map Worker.start)
          Traced.fresh).2.log = rs.length) ∧
    (∀ N : Nat, 1 ≤ N →
      (((ModelPipeline noFault).withNumThreads N).Save ⟨rs, true⟩ Traced.fresh).1
        = (⟨List.replicate rs.length none, true⟩, none) ∧
      createCalls (((ModelPipeline noFault).withNumThreads N).Save ⟨rs, true⟩
        Traced.fresh).2.log = rs.length ∧
      setCalls (((ModelPipeline noFault).withNumThreads N).Save ⟨rs, true⟩
        Traced.fresh).2.log = rs.length ∧
      insertCalls (((ModelPipeline noFault).withNumThreads N).Save ⟨rs, true⟩
        Traced.fresh).2.log = rs.length) ∧
    (∀ (N : Nat) (sch : List Move), Move.cancel ∉ sch →
      (Pipeline.Save.run ((ModelPipeline noFault).withNumThreads N) sch
          (Pipeline.Save.start ((ModelPipeline noFault).withNumThreads N) ⟨rs, true⟩ false
            Traced.fresh)).panicked = false ∧
      createCalls (Pipeline.Save.run ((ModelPipeline noFault).withNumThreads N) sch
          (Pipeline.Save.start ((ModelPipeline noFault).withNumThreads N) ⟨rs, true⟩ false
            Traced.fresh)).world.log ≤ rs.length ∧
      setCalls (Pipeline.Save.run ((ModelPipeline noFault).withNumThreads N) sch
          (Pipeline.Save.start ((ModelPipeline noFault).withNumThreads N) ⟨rs, true⟩ false
            Traced.fresh)).world.log ≤ rs.length ∧
      ((Pipeline.Save.run ((ModelPipeline noFault).withNumThreads N) sch
          (Pipeline.Save.start ((ModelPipeline noFault).withNumThreads N) ⟨rs, true⟩ false
            Traced.fresh)).looping = false →
        (Pipeline.Save.run ((ModelPipeline noFault).withNumThreads N) sch
            (Pipeline.Save.start ((ModelPipeline noFault).withNumThreads N) ⟨rs, true⟩ false
              Traced.fresh)).errc = ⟨List.replicate rs.length none, true⟩ ∧
        (Pipeline.Save.run ((ModelPipeline noFault).withNumThreads N) sch
            (Pipeline.Save.start ((ModelPipeline noFault).withNumThreads N) ⟨rs, true⟩ false
              Traced.fresh)).tasks = List.replicate rs.length SaveTask.finished ∧
        createCalls (Pipeline.Save.run ((ModelPipeline noFault).withNumThreads N) sch
            (Pipeline.Save.start ((ModelPipeline noFault).withNumThreads N) ⟨rs, true⟩ false
              Traced.fresh)).world.log = rs.length ∧
        setCalls (Pipeline.Save.run ((ModelPipeline noFault).withNumThreads N) sch
            (Pipeline.Save.start ((ModelPipeline noFault).withNumThreads N) ⟨rs, true⟩ false
              Traced.fresh)).world.log = rs.length ∧
        insertCalls (Pipeline.Save.run ((ModelPipeline noFault).withNumThreads N) sch
            (Pipeline.Save.start ((ModelPipeline noFault).withNumThreads N) ⟨rs, true⟩ false
              Traced.fresh)).world.log = rs.length)) ∧
    (∀ N : Nat, 1 ≤ N →
      Move.cancel ∉ oneByOne 4 0 rs.length ∧
      (Pipeline.Save.run ((ModelPipeline noFault).withNumThreads N) (oneByOne 4 0 rs.length)
          (Pipeline.Save.start ((ModelPipeline noFault).withNumThreads N) ⟨rs, true⟩ false
            Traced.fresh)).looping = false) :=
  ⟨model_SendAll_fresh_counts rs hValid hNodup,
   fun sch hFair => model_runWorkers_fresh_counts rs hValid hNodup sch hFair,
   fun N hN => model_Save_fresh_counts rs hValid hNodup N hN,
   fun N sch hsch => model_Save_run_fresh_counts rs hValid hNodup N sch hsch,
   fun N hN => model_Save_run_oneByOne_ends rs N hN⟩

/-- The call counts at the size of the test: 5000 records, four sources of 1250
lines, sent one after the other, run concurrently in round-robin order, and
handled by `Save` with four threads, as a method and goroutine by goroutine
under the schedule that runs them one after the other. -/
theorem persist_fresh_call_counts_witness :
    (((ModelPipeline noFault).SendAll (testRecords (4 * 1250)) Traced.fresh).1
        = List.replicate 5000 none ∧
      createCalls ((ModelPipeline noFault).SendAll (testRecords (4 * 1250))
        Traced.fresh).2.log = 5000 ∧
      setCalls ((ModelPipeline noFault).SendAll (testRecords (4 * 1250))
        Traced.fresh).2.log = 5000 ∧
      insertCalls ((ModelPipeline noFault).SendAll (testRecords (4 * 1250))
        Traced.fresh).2.log = 5000) ∧
    (((ModelPipeline noFault).runWorkers (roundRobin 5000)
          ((testRecords (4 * 1250)).map Worker.start) Traced.fresh).1
        = List.replicate 5000 (Worker.done none) ∧
      createCalls ((ModelPipeline noFault).runWorkers (roundRobin 5000)
        ((testRecords (4 * 1250)).map Worker.start) Traced.fresh).2.log = 5000 ∧
      setCalls ((ModelPipeline noFault).runWorkers (roundRobin 5000)
        ((testRecords (4 * 1250)).map Worker.start) Traced.fresh).2.log = 5000 ∧
      insertCalls ((ModelPipeline noFault).runWorkers (roundRobin 5000)
        ((testRecords (4 * 1250)).map Worker.start) Traced.fresh).2.log = 5000) ∧
    ((((ModelPipeline noFault).withNumThreads 4).Save ⟨testRecords (4 * 1250), true⟩
          Traced.fresh).1 = (⟨List.replicate 5000 none, true⟩, none) ∧
      createCalls (((ModelPipeline noFault).withNumThreads 4).Save
        ⟨testRecords (4 * 1250), true⟩ Traced.fresh).2.log = 5000 ∧
      setCalls (((ModelPipeline noFault).withNumThreads 4).Save
        ⟨testRecords (4 * 1250), true⟩ Traced.fresh).2.log = 5000) ∧
    ((Pipeline.Save.run ((ModelPipeline noFault).withNumThreads 4) (oneByOne 4 0 5000)
          (Pipeline.Save.start ((ModelPipeline noFault).withNumThreads 4)
            ⟨testRecords (4 * 1250), true⟩ false Traced.fresh)).errc
        = ⟨List.replicate 5000 none, true⟩ ∧
      createCalls (Pipeline.Save.run ((ModelPipeline noFault).withNumThreads 4)
          (oneByOne 4 0 5000)
          (Pipeline.Save.start ((ModelPipeline noFault).withNumThreads 4)
            ⟨testRecords (4 * 1250), true⟩ false Traced.fresh)).world.log = 5000 ∧
      setCalls (Pipeline.Save.run ((ModelPipeline noFault).withNumThreads 4)
          (oneByOne 4 0 5000)
          (Pipeline.Save.start ((ModelPipeline noFault).withNumThreads 4)
            ⟨testRecords (4 * 1250), true⟩ false Traced.fresh)).world.log = 5000) := by
  have h := persist_fresh_call_counts (testRecords (4 * 1250)) (testRecords_valid (4 * 1250))
    (testRecords_nodup (4 * 1250))
  rw [testRecords_length] at h
  obtain ⟨h1, h2, h3, h4, h5⟩ := h
  have h3' := h3 4 (by decide)
  have h5' := h5 4 (by decide)
  have h4' := (h4 4 (oneByOne 4 0 5000) h5'.1).2.2.2 h5'.2
  exact ⟨h1, h2 (roundRobin 5000) (roundRobin_fair 5000), ⟨h3'.1, h3'.2.1, h3'.2.2.1⟩,
    ⟨h4'.1, h4'.2.2.1, h4'.2.2.2.1⟩⟩

end Dataflow
